import Mathlib

/-! goleveldb-encrypted: encrypted file storage (package `aesgcm`)

A shallow embedding of `aesgcm_storage.go`, `aesgcm_storage_helpers.go` and
`aesgcm_storage_writer.go`, and theorems about it.

Conventions of the embedding:

* A Go `string` / `[]byte` is the list of its bytes (`List Nat`, each below 256 for a
  real string).  A `rune` is its code point (`Nat`).
* `int64` values are `Int`; the 64-bit range is stated where it matters.
* The directory is an association list from file names to file contents.  File
  operations fail only for the reasons the directory itself gives (a missing
  file); permission and device errors are outside the model.
* A Go `panic` is the `panic` outcome of `Res`; `error` values are `Error`.
-/

namespace Aesgcm

/-! ## Go strings, runes and the pieces of `fmt` / `strconv` the package uses -/

/-- A Go string or byte slice: the list of its bytes. -/
abbrev GoString := List Nat

/-- The bytes of an ASCII literal. -/
def str (s : String) : GoString := s.toList.map Char.toNat

/-- The replacement rune `utf8.RuneError`. -/
def RuneError : Nat := 65533

/-- Continuation byte test of `unicode/utf8` (`locb <= b <= hicb`). -/
def isCont (b : Nat) : Bool := 128 ≤ b && b ≤ 191

/-- Go `utf8.DecodeRune` at the head of a non-empty byte list: the rune and
its width in bytes.  Invalid or truncated encodings give `(RuneError, 1)`. -/
def decodeRune : GoString → Nat × Nat
  | [] => (RuneError, 0)
  | s0 :: rest =>
    if s0 < 128 then (s0, 1)
    else if s0 < 194 then (RuneError, 1)
    else if s0 < 224 then
      match rest with
      | s1 :: _ => if isCont s1 then ((s0 % 32) * 64 + s1 % 64, 2) else (RuneError, 1)
      | _ => (RuneError, 1)
    else if s0 < 240 then
      let lo := if s0 = 224 then 160 else 128
      let hi := if s0 = 237 then 159 else 191
      match rest with
      | s1 :: s2 :: _ =>
        if lo ≤ s1 && s1 ≤ hi && isCont s2 then
          ((s0 % 16) * 4096 + (s1 % 64) * 64 + s2 % 64, 3)
        else (RuneError, 1)
      | _ => (RuneError, 1)
    else if s0 < 245 then
      let lo := if s0 = 240 then 144 else 128
      let hi := if s0 = 244 then 143 else 191
      match rest with
      | s1 :: s2 :: s3 :: _ =>
        if lo ≤ s1 && s1 ≤ hi && isCont s2 && isCont s3 then
          ((s0 % 8) * 262144 + (s1 % 64) * 4096 + (s2 % 64) * 64 + s3 % 64, 4)
        else (RuneError, 1)
      | _ => (RuneError, 1)
    else (RuneError, 1)

/-- Worker of `runes`: `skip` bytes of the rune decoded last are still to pass. -/
def runesAux : Nat → GoString → List Nat
  | _, [] => []
  | 0, b :: rest => (decodeRune (b :: rest)).1 :: runesAux ((decodeRune (b :: rest)).2 - 1) rest
  | k + 1, _ :: rest => runesAux k rest

/-- The runes a reader yields for a string (what `ss.getRune` returns, in order). -/
def runes (s : GoString) : List Nat := runesAux 0 s

/-- Go `fmt.isSpace`: the Unicode white-space table of package `fmt`. -/
def isSpace (r : Nat) : Bool :=
  (9 ≤ r && r ≤ 13) || r = 32 || r = 133 || r = 160 || r = 5760 ||
  (8192 ≤ r && r ≤ 8202) || r = 8232 || r = 8233 || r = 8239 || r = 8287 || r = 12288

/-- Go `ss.SkipSpace` for `Sscanf` (`nlIsSpace = false`): drops white space; a
newline is the error "unexpected newline" (`none`). -/
def SkipSpace : List Nat → Option (List Nat)
  | [] => some []
  | r :: rest =>
    if r = 10 then none
    else if isSpace r then SkipSpace rest
    else some (r :: rest)

/-- A rune of `decimalDigits` that is a digit. -/
def isDigit (r : Nat) : Bool := 48 ≤ r && r ≤ 57

/-- Membership in `decimalDigits = "0123456789"`, the digits `getBase` gives
`scanNumber` for the verb `%d` (the underscore belongs to `%v` only). -/
def acceptsDigit (r : Nat) : Bool := isDigit r

/-- The loop `for s.accept(digits) {}` of `scanNumber`: the accepted run and the rest. -/
def acceptRun : List Nat → List Nat × List Nat
  | [] => ([], [])
  | r :: rest =>
    if acceptsDigit r then ((r :: (acceptRun rest).1), (acceptRun rest).2)
    else ([], r :: rest)

/-- Unbounded value of a run of decimal digits, `none` on any other byte
(the digit loop of `strconv.ParseUint` in base 10). -/
def digitsValue : Nat → List Nat → Option Nat
  | acc, [] => some acc
  | acc, c :: rest => if isDigit c then digitsValue (acc * 10 + (c - 48)) rest else none

/-- Go `strconv.ParseInt(s, 10, 64)`: `some i` when it returns a nil error.
Syntax errors (empty, non-digit) and range errors are both `none`. -/
def ParseInt (s : GoString) : Option Int :=
  match s with
  | [] => none
  | c :: rest =>
    let neg := decide (c = 45)
    let body := if c = 43 ∨ c = 45 then rest else c :: rest
    match body with
    | [] => none
    | _ =>
      match digitsValue 0 body with
      | none => none
      | some un =>
        if !neg && un ≥ 2 ^ 63 then none
        else if neg && un > 2 ^ 63 then none
        else some (if neg then -(un : Int) else (un : Int))

/-- Go `ss.scanInt('d', 64)` after the caller's `SkipSpace`: skip space, fail at
end of input, accept one sign, scan the number token and convert it.  Returns
the value and the unread input. -/
def scanInt (input : List Nat) : Option (Int × List Nat) :=
  match SkipSpace input with
  | none => none
  | some [] => none
  | some (c :: rest) =>
    let sign := if c = 43 ∨ c = 45 then [c] else []
    let afterSign := if c = 43 ∨ c = 45 then rest else c :: rest
    match afterSign with
    | [] => none
    | d :: _ =>
      if acceptsDigit d then
        match ParseInt (sign ++ (acceptRun afterSign).1) with
        | none => none
        | some i => some (i, (acceptRun afterSign).2)
      else none

/-- Go `ss.token(true, notSpace)` on input that starts with a non-space rune:
the word up to the next white space, and the rest. -/
def token : List Nat → List Nat × List Nat
  | [] => ([], [])
  | r :: rest => if isSpace r then ([], r :: rest) else ((r :: (token rest).1), (token rest).2)

/-- Go `ss.convertString('s')`: skip space, fail at end of input, read one word. -/
def convertString (input : List Nat) : Option (List Nat × List Nat) :=
  match SkipSpace input with
  | none => none
  | some [] => none
  | some (c :: rest) => some (token (c :: rest))

/-- Little-endian decimal digits of a natural number (the digit loop of
`fmt.fmtInteger`), with fuel. -/
def digitsLE : Nat → Nat → List Nat
  | 0, _ => []
  | fuel + 1, n => if n < 10 then [48 + n] else (48 + n % 10) :: digitsLE fuel (n / 10)

/-- Decimal digits of a natural number, most significant first. -/
def natDigits (n : Nat) : GoString := (digitsLE (n + 1) n).reverse

/-- Go `fmt.Sprintf("%d", i)` for an `int64`. -/
def fmtInt (i : Int) : GoString :=
  if i < 0 then 45 :: natDigits i.natAbs else natDigits i.natAbs

/-- Go `fmt.Sprintf("%06d", i)` for an `int64`: zero padding to width six, the
sign counting for one column. -/
def fmtInt06 (i : Int) : GoString :=
  if i < 0 then
    45 :: (List.replicate (5 - (natDigits i.natAbs).length) 48 ++ natDigits i.natAbs)
  else List.replicate (6 - (natDigits i.natAbs).length) 48 ++ natDigits i.natAbs

/-! ## File descriptors (`storage.FileDesc`) and the name codec -/

/-- Go `storage.FileDesc`: `Type` is a `storage.FileType` (an `int`), `Num` an `int64`. -/
structure FileDesc where
  Typ : Int
  Num : Int
  deriving DecidableEq, Repr

def TypeManifest : Int := 1
def TypeJournal : Int := 2
def TypeTable : Int := 4
def TypeTemp : Int := 8

/-- Go `storage.FileDescOk`. -/
def FileDescOk (fd : FileDesc) : Bool :=
  (fd.Typ = TypeManifest || fd.Typ = TypeJournal || fd.Typ = TypeTable || fd.Typ = TypeTemp)
    && decide (0 ≤ fd.Num)

/-- Go `fsGenName`; `none` is the `panic("invalid file type")`. -/
def fsGenName (fd : FileDesc) : Option GoString :=
  if fd.Typ = TypeManifest then some (str "MANIFEST-" ++ fmtInt06 fd.Num)
  else if fd.Typ = TypeJournal then some (fmtInt06 fd.Num ++ str ".log")
  else if fd.Typ = TypeTable then some (fmtInt06 fd.Num ++ str ".ldb")
  else if fd.Typ = TypeTemp then some (fmtInt06 fd.Num ++ str ".tmp")
  else none

/-- Outcome of one `fmt.Sscanf` call with the operands `&fd.Num, &tail`: the
count `n` of operands stored, the values stored, and whether `err == nil`. -/
structure ScanResult where
  n : Nat
  num : Option Int
  tail : Option (List Nat)
  ok : Bool
  deriving DecidableEq, Repr

/-- Go `fmt.Sscanf(name, "%d.%s", &fd.Num, &tail)`. -/
def sscanfNumDotWord (name : GoString) : ScanResult :=
  match SkipSpace (runes name) with
  | none => ⟨0, none, none, false⟩
  | some s1 =>
    match scanInt s1 with
    | none => ⟨0, none, none, false⟩
    | some (i, s2) =>
      match s2 with
      | [] => ⟨1, some i, none, false⟩
      | c :: s3 =>
        if c = 46 then
          match SkipSpace s3 with
          | none => ⟨1, some i, none, false⟩
          | some s4 =>
            match convertString s4 with
            | none => ⟨1, some i, none, false⟩
            | some (w, _) => ⟨2, some i, some w, true⟩
        else ⟨1, some i, none, false⟩

/-- The literal part of a format: every rune of `lit` must be the next rune
of the input (`ss.advance`). -/
def matchLiteral : List Nat → List Nat → Option (List Nat)
  | [], input => some input
  | _ :: _, [] => none
  | f :: fs, c :: rest => if f = c then matchLiteral fs rest else none

/-- Go `fmt.Sscanf(name, "MANIFEST-%d%s", &fd.Num, &tail)`. -/
def sscanfManifest (name : GoString) : ScanResult :=
  match matchLiteral (str "MANIFEST-") (runes name) with
  | none => ⟨0, none, none, false⟩
  | some s0 =>
    match SkipSpace s0 with
    | none => ⟨0, none, none, false⟩
    | some s1 =>
      match scanInt s1 with
      | none => ⟨0, none, none, false⟩
      | some (i, s2) =>
        match SkipSpace s2 with
        | none => ⟨1, some i, none, false⟩
        | some s3 =>
          match convertString s3 with
          | none => ⟨1, some i, none, false⟩
          | some (w, _) => ⟨2, some i, some w, true⟩

/-- Go `fsParseName`: the descriptor and the `ok` flag.  `fd.Num` keeps what
the first `Sscanf` stored when the second stores nothing. -/
def fsParseName (name : GoString) : FileDesc × Bool :=
  let r1 := sscanfNumDotWord name
  if r1.ok then
    if r1.tail = some (str "log") then (⟨TypeJournal, r1.num.getD 0⟩, true)
    else if r1.tail = some (str "ldb") then (⟨TypeTable, r1.num.getD 0⟩, true)
    else if r1.tail = some (str "tmp") then (⟨TypeTemp, r1.num.getD 0⟩, true)
    else (⟨0, r1.num.getD 0⟩, false)
  else
    let r2 := sscanfManifest name
    let num := (r2.num.orElse (fun _ => r1.num)).getD 0
    if r2.n = 1 then (⟨TypeManifest, num⟩, true)
    else (⟨0, num⟩, false)

/-- Go `fsParseNamePtr` with a non-nil `fd`: the value stored in `*fd` and `ok`. -/
def fsParseNamePtr (name : GoString) : FileDesc × Bool := fsParseName name

/-- Value of a little-endian digit list. -/
def valLE : List Nat → Nat
  | [] => 0
  | c :: r => (c - 48) + 10 * valLE r

/-- The 64-bit range of an `int64`. -/
def inInt64 (i : Int) : Prop := -(2 : Int) ^ 63 ≤ i ∧ i < (2 : Int) ^ 63

instance (i : Int) : Decidable (inInt64 i) := by unfold inInt64; infer_instance

/-- A `storage.FileType` that `fsGenName` accepts. -/
def validType (t : Int) : Prop :=
  t = TypeManifest ∨ t = TypeJournal ∨ t = TypeTable ∨ t = TypeTemp

instance (t : Int) : Decidable (validType t) := by unfold validType; infer_instance

/-! ## Errors and outcomes -/

/-- The `error` values the package returns or receives. -/
inductive Error
  /-- `storage.ErrInvalidFile` -/
  | ErrInvalidFile
  /-- `storage.ErrClosed` -/
  | ErrClosed
  /-- `storage.ErrLocked` -/
  | ErrLocked
  /-- `errReadOnly` -/
  | errReadOnly
  /-- `errNonceUnavailable` -/
  | errNonceUnavailable
  /-- `os.ErrNotExist` itself -/
  | ErrNotExist
  /-- A `*storage.ErrCorrupted` (here always wrapping `errCorruptedCurrent`). -/
  | ErrCorrupted
  /-- A `*os.PathError` / `*os.LinkError` for a missing file (`os.IsNotExist` holds). -/
  | PathNotExist
  /-- A `*os.PathError` wrapping `os.ErrClosed`: use of a closed `*os.File`. -/
  | PathClosed
  /-- The error of `cipher.AEAD.Open`: "cipher: message authentication failed". -/
  | errOpen
  /-- The `aes.KeySizeError` of `aes.NewCipher`. -/
  | KeySizeError
  /-- The error "leveldb/storage: open ...: not a directory" of `OpenEncryptedFile`. -/
  | notDirectory
  /-- The error of opening a file that has the exclusive-use bit and is open
  already ("exclusive use file already open"). -/
  | exclusiveUse
  deriving DecidableEq, Repr

/-- Go `isCorrupted`: a type switch on `*storage.ErrCorrupted`. -/
def isCorrupted (err : Error) : Bool :=
  match err with
  | .ErrCorrupted => true
  | _ => false

/-- Outcome of a call: a value, an `error`, or a run-time panic. -/
inductive Res (α : Type) where
  | ok (a : α)
  | error (e : Error)
  | panic
  deriving DecidableEq, Repr

/-! ## The directory -/

/-- The storage directory: file names with their contents. -/
abbrev Dir := List (GoString × GoString)

/-- Go `ioutil.ReadFile`: the content, `none` when the file does not exist. -/
def Dir.read : Dir → GoString → Option GoString
  | [], _ => none
  | (n, c) :: rest, name => if n = name then some c else Dir.read rest name

/-- Go `os.Stat(...)` returning a nil error: the file exists. -/
def Dir.Stat (dir : Dir) (name : GoString) : Bool := (dir.read name).isSome

/-- Go `dir.Readdirnames(0)`. -/
def Dir.names (dir : Dir) : List GoString := dir.map Prod.fst

/-- The unlink of `os.Remove`, whatever the file's presence. -/
def Dir.remove (dir : Dir) (name : GoString) : Dir := dir.filter (fun e => !decide (e.1 = name))

/-- Sets the content of a file, creating it when absent. -/
def Dir.write (dir : Dir) (name data : GoString) : Dir := (name, data) :: dir.remove name

/-- One effect on the directory, the unit at which a crash can cut a run. -/
inductive Effect
  /-- `os.OpenFile(name, O_WRONLY|O_CREATE|O_TRUNC, perm)` -/
  | create (name : GoString)
  /-- One more byte of a `Write` reaches the end of the file. -/
  | append (name : GoString) (b : Nat)
  /-- `os.Remove(name)` -/
  | remove (name : GoString)
  /-- `os.Rename(old, new)`, replacing `new`. -/
  | move (old new : GoString)
  /-- `f.Sync()` / `syncDir`: no change of content. -/
  | sync
  deriving DecidableEq, Repr

/-- The directory after one effect. -/
def Effect.apply (dir : Dir) : Effect → Dir
  | .create name => dir.write name []
  | .append name b =>
    match dir.read name with
    | some c => dir.write name (c ++ [b])
    | none => dir
  | .remove name => dir.remove name
  | .move old new =>
    match dir.read old with
    | some c => (dir.remove old).write new c
    | none => dir
  | .sync => dir

/-- The directory after a sequence of effects. -/
def applyEffects (es : List Effect) (dir : Dir) : Dir := es.foldl Effect.apply dir

/-- Go `os.Remove`: fails on a missing file. -/
def osRemove (dir : Dir) (name : GoString) : Res Unit × Dir :=
  if dir.Stat name then (.ok (), Effect.apply dir (.remove name)) else (.error .PathNotExist, dir)

/-- Go `os.Rename`: fails on a missing source. -/
def osRename (dir : Dir) (old new : GoString) : Res Unit × Dir :=
  if dir.Stat old then (.ok (), Effect.apply dir (.move old new)) else (.error .PathNotExist, dir)

/-- Go `rename` (file_storage_plan9.go): remove the target when it exists, then `os.Rename`. -/
def rename (dir : Dir) (oldpath newpath : GoString) : Res Unit × Dir :=
  if dir.Stat newpath then
    match osRemove dir newpath with
    | (.ok _, dir1) => osRename dir1 oldpath newpath
    | r => r
  else osRename dir oldpath newpath

/-- The effects of the closure `writeFileSynced` of `setMeta`, in order. -/
def writeFileSyncedEffects (filename data : GoString) : List Effect :=
  Effect.create filename :: (data.map (Effect.append filename) ++ [Effect.sync])

/-- The closure `writeFileSynced` of `setMeta`: create or truncate, write, sync, close. -/
def writeFileSynced (dir : Dir) (filename data : GoString) : Res Unit × Dir :=
  (.ok (), applyEffects (writeFileSyncedEffects filename data) dir)

/-! ## The cipher and the storage handle -/

/-- A `cipher.AEAD` family: `Seal key nonce plaintext ad` and `Open key nonce
sealed ad`, `none` being the authentication error. -/
structure AEAD where
  NonceSize : Nat
  Seal : GoString → GoString → GoString → GoString → GoString
  Open : GoString → GoString → GoString → GoString → Option GoString

/-- Go `binary.MaxVarintLen64`. -/
def MaxVarintLen64 : Nat := 10

/-- Go `additionalDataLen`. -/
def additionalDataLen : Nat := 1 + MaxVarintLen64

/-- Go `binary.LittleEndian.PutUint64`: the eight bytes written. -/
def PutUint64 (v : Nat) : List Nat :=
  [v % 256, v / 256 % 256, v / 65536 % 256, v / 16777216 % 256, v / 4294967296 % 256,
   v / 1099511627776 % 256, v / 281474976710656 % 256, v / 72057594037927936 % 256]

/-- Go `fdGenAD`: `byte(fd.Type)`, the little-endian `uint64(fd.Num)`, and the
bytes of the buffer left at the zero of `make`. -/
def fdGenAD (fd : FileDesc) : GoString :=
  (fd.Typ % 256).toNat :: (PutUint64 (fd.Num % 2 ^ 64).toNat
    ++ List.replicate (additionalDataLen - 9) 0)

/-- Go `aesgcmStorage`.  `opened` is the field `open` (negative: closed);
`slock` is the identity of the lock held in the slot; `key` stands for the
keyed `cyp`; `locks` counts the lock objects allocated so far. -/
structure aesgcmStorage where
  readOnly : Bool
  slock : Option Nat
  opened : Int
  key : GoString
  locks : Nat
  deriving DecidableEq, Repr

/-- The reader `newReader(plain, fd, fs)` builds: the plaintext and the descriptor. -/
structure aesgcmReader where
  plain : GoString
  fd : FileDesc
  deriving DecidableEq, Repr

/-- Go `aesgcmWriter`: `Buffer` is the embedded `bytes.Buffer`, `off` the
offset of the file `fp`, which is the file `fsGenName fd` names. -/
structure aesgcmWriter where
  Buffer : GoString
  fd : FileDesc
  closed : Bool
  off : Nat
  deriving DecidableEq, Repr

/-- Go `(*aesgcmStorage).Open`. -/
def aesgcmStorage.Open (gcm : AEAD) (fs : aesgcmStorage) (dir : Dir) (fd : FileDesc) :
    Res aesgcmReader × aesgcmStorage :=
  if !FileDescOk fd then (.error .ErrInvalidFile, fs)
  else if fs.opened < 0 then (.error .ErrClosed, fs)
  else
    match fsGenName fd with
    | none => (.panic, fs)
    | some name =>
      match dir.read name with
      | none => (.error .PathNotExist, fs)
      | some crypt =>
        if crypt.length < gcm.NonceSize then (.panic, fs)
        else
          match gcm.Open fs.key (crypt.take gcm.NonceSize) (crypt.drop gcm.NonceSize)
              (fdGenAD fd) with
          | none => (.error .errOpen, fs)
          | some plain => (.ok ⟨plain, fd⟩, { fs with opened := fs.opened + 1 })

/-- Go `(*aesgcmStorage).Create`. -/
def aesgcmStorage.Create (fs : aesgcmStorage) (dir : Dir) (fd : FileDesc) :
    Res aesgcmWriter × aesgcmStorage × Dir :=
  if !FileDescOk fd then (.error .ErrInvalidFile, fs, dir)
  else if fs.readOnly then (.error .errReadOnly, fs, dir)
  else if fs.opened < 0 then (.error .ErrClosed, fs, dir)
  else
    match fsGenName fd with
    | none => (.panic, fs, dir)
    | some name =>
      (.ok ⟨[], fd, false, 0⟩, { fs with opened := fs.opened + 1 },
        Effect.apply dir (.create name))

/-- Go `(*bytes.Buffer).Write` through the embedding in `aesgcmWriter`. -/
def aesgcmWriter.Write (w : aesgcmWriter) (p : GoString) : aesgcmWriter :=
  { w with Buffer := w.Buffer ++ p }

/-- Go `(*os.File).Write` at offset `off` of the file `name`: the bytes
overwrite or extend the content (zero filled up to `off`). -/
def fileWriteAt (dir : Dir) (name : GoString) (off : Nat) (data : GoString) : Dir :=
  match dir.read name with
  | some c =>
    dir.write name
      (c.take off ++ List.replicate (off - c.length) 0 ++ data ++ c.drop (off + data.length))
  | none => dir

/-- Go `(*os.File).Truncate(0)` on the file `name`. -/
def fileTruncate (dir : Dir) (name : GoString) : Dir :=
  match dir.read name with
  | some _ => dir.write name []
  | none => dir

/-- Go `(*aesgcmWriter).Sync`; `rnd` is what `rand.Read` delivered. -/
def aesgcmWriter.Sync (gcm : AEAD) (fs : aesgcmStorage) (w : aesgcmWriter) (dir : Dir)
    (rnd : GoString) : Res Unit × aesgcmWriter × Dir :=
  match fsGenName w.fd with
  | none => (.panic, w, dir)
  | some name =>
    if w.closed then (.error .PathClosed, w, dir)
    else
      let dir1 := fileTruncate dir name
      let w1 := { w with off := 0 }
      if rnd.length ≠ gcm.NonceSize then (.error .errNonceUnavailable, w1, dir1)
      else
        let crypt := gcm.Seal fs.key rnd w.Buffer (fdGenAD w.fd)
        let dir2 := fileWriteAt dir1 name w1.off rnd
        let w2 := { w1 with off := w1.off + rnd.length }
        let dir3 := fileWriteAt dir2 name w2.off crypt
        let w3 := { w2 with off := w2.off + crypt.length }
        (.ok (), w3, dir3)

/-- Go `(*aesgcmWriter).Close`. -/
def aesgcmWriter.Close (gcm : AEAD) (fs : aesgcmStorage) (w : aesgcmWriter) (dir : Dir)
    (rnd : GoString) : Res Unit × aesgcmStorage × aesgcmWriter × Dir :=
  match aesgcmWriter.Sync gcm fs w dir rnd with
  | (.ok _, w1, dir1) =>
    if w1.closed then (.error .ErrClosed, fs, w1, dir1)
    else (.ok (), { fs with opened := fs.opened - 1 }, { w1 with closed := true }, dir1)
  | (.error e, w1, dir1) => (.error e, fs, w1, dir1)
  | (.panic, w1, dir1) => (.panic, fs, w1, dir1)

/-! ## The current pointer: `setMeta`, `SetMeta`, `GetMeta` -/

/-- The name `CURRENT`. -/
def CURRENT : GoString := str "CURRENT"

/-- The name `CURRENT.bak`. -/
def CURRENTbak : GoString := str "CURRENT.bak"

/-- Go `fmt.Sprintf("CURRENT.%d", num)`. -/
def pendingName (num : Int) : GoString := str "CURRENT." ++ fmtInt num

/-- The first part of `setMeta` ("Check and backup old CURRENT file"):
`Sum.inl r` makes `setMeta` return `r`, `Sum.inr dir1` lets it go on. -/
def setMetaBackup (dir : Dir) (content : GoString) : (Res Unit × Dir) ⊕ Dir :=
  if dir.Stat CURRENT then
    match dir.read CURRENT with
    | none => .inl (.error .PathNotExist, dir)
    | some b =>
      if b = content then .inl (.ok (), dir)
      else
        match writeFileSynced dir CURRENTbak b with
        | (.ok _, dir1) => .inr dir1
        | r => .inl r
  else .inr dir

/-- Go `(*aesgcmStorage).setMeta`. -/
def setMeta (dir : Dir) (fd : FileDesc) : Res Unit × Dir :=
  match fsGenName fd with
  | none => (.panic, dir)
  | some name =>
    let content := name ++ [10]
    match setMetaBackup dir content with
    | .inl r => r
    | .inr dir1 =>
      let path := pendingName fd.Num
      match writeFileSynced dir1 path content with
      | (.ok _, dir2) =>
        match rename dir2 path CURRENT with
        | (.ok _, dir3) => (.ok (), Effect.apply dir3 .sync)
        | r => r
      | r => r

/-- The effects of `setMeta dir fd` on the directory, in program order. -/
def setMetaEffects (dir : Dir) (fd : FileDesc) : List Effect :=
  match fsGenName fd with
  | none => []
  | some name =>
    let content := name ++ [10]
    let path := pendingName fd.Num
    match dir.read CURRENT with
    | none =>
      writeFileSyncedEffects path content ++ [Effect.move path CURRENT, Effect.sync]
    | some b =>
      if b = content then []
      else
        writeFileSyncedEffects CURRENTbak b ++ writeFileSyncedEffects path content
          ++ [Effect.remove CURRENT, Effect.move path CURRENT, Effect.sync]

/-- Go `(*aesgcmStorage).SetMeta`. -/
def aesgcmStorage.SetMeta (fs : aesgcmStorage) (dir : Dir) (fd : FileDesc) : Res Unit × Dir :=
  if !FileDescOk fd then (.error .ErrInvalidFile, dir)
  else if fs.readOnly then (.error .errReadOnly, dir)
  else if fs.opened < 0 then (.error .ErrClosed, dir)
  else setMeta dir fd

/-- The local type `currentFile` of `GetMeta`. -/
structure currentFile where
  name : GoString
  fd : FileDesc
  deriving DecidableEq, Repr

/-- The closure `tryCurrent` of `GetMeta`. -/
def tryCurrent (dir : Dir) (name : GoString) : Res currentFile :=
  match dir.read name with
  | none => .error .ErrNotExist
  | some b =>
    if b.length < 1 ∨ b.getLast? ≠ some 10 ∨ (fsParseNamePtr b.dropLast).2 = false then
      .error .ErrCorrupted
    else
      match fsGenName (fsParseNamePtr b.dropLast).1 with
      | none => .panic
      | some target =>
        if dir.Stat target then .ok ⟨name, (fsParseNamePtr b.dropLast).1⟩
        else .error .ErrNotExist

/-- The loop of the closure `tryCurrents`, `lastCerr` being its variable. -/
def tryCurrentsLoop (dir : Dir) : List GoString → Option Error → Res currentFile
  | [], lastCerr => .error (lastCerr.getD .ErrNotExist)
  | name :: rest, lastCerr =>
    match tryCurrent dir name with
    | .ok cur => .ok cur
    | .panic => .panic
    | .error err =>
      if err = .ErrNotExist then tryCurrentsLoop dir rest lastCerr
      else if isCorrupted err then tryCurrentsLoop dir rest (some err)
      else .error err

/-- The closure `tryCurrents` of `GetMeta`. -/
def tryCurrents (dir : Dir) (names : List GoString) : Res currentFile :=
  tryCurrentsLoop dir names none

/-- The numbers `GetMeta` collects from the directory listing ("pending rename" files). -/
def pendingNums (names : List GoString) : List Int :=
  names.filterMap (fun name =>
    if (str "CURRENT.").isPrefixOf name && name != CURRENTbak then ParseInt (name.drop 8)
    else none)

/-- Go `sort.Sort(sort.Reverse(int64Slice(nums)))`: descending order. -/
def sortDesc (nums : List Int) : List Int := nums.insertionSort (fun a b => b ≤ a)

/-- The `pendNames` of `GetMeta`. -/
def pendNames (dir : Dir) : List GoString :=
  if (pendingNums dir.names).length > 0 then (sortDesc (pendingNums dir.names)).map pendingName
  else []

/-- The pair `pendCur, pendErr` of `GetMeta` after the pending files were tried. -/
def pendTry (dir : Dir) : Res currentFile :=
  if (pendingNums dir.names).length > 0 then tryCurrents dir (pendNames dir)
  else .error .ErrNotExist

/-- The loop of `GetMeta` that removes the pending files, errors being logged only. -/
def removeAll (dir : Dir) (names : List GoString) : Dir :=
  names.foldl (fun d name => (osRemove d name).2) dir

/-- The part of `GetMeta` under "Restore CURRENT file to proper state". -/
def restoreCurrent (fs : aesgcmStorage) (dir : Dir) (curCur : currentFile) : Res FileDesc × Dir :=
  if !fs.readOnly && (curCur.name != CURRENT || (pendNames dir).length != 0) then
    match setMeta dir curCur.fd with
    | (.ok _, dir1) => (.ok curCur.fd, removeAll dir1 (pendNames dir))
    | (.error _, dir1) => (.ok curCur.fd, dir1)
    | (.panic, dir1) => (.panic, dir1)
  else (.ok curCur.fd, dir)

/-- Go `(*aesgcmStorage).GetMeta`. -/
def aesgcmStorage.GetMeta (fs : aesgcmStorage) (dir : Dir) : Res FileDesc × Dir :=
  if fs.opened < 0 then (.error .ErrClosed, dir)
  else
    match pendTry dir with
    | .panic => (.panic, dir)
    | .error pendErr =>
      if pendErr ≠ .ErrNotExist && !isCorrupted pendErr then (.error pendErr, dir)
      else
        match tryCurrents dir [CURRENT, CURRENTbak] with
        | .panic => (.panic, dir)
        | .error curErr =>
          if curErr ≠ .ErrNotExist && !isCorrupted curErr then (.error curErr, dir)
          else if isCorrupted pendErr then (.error pendErr, dir)
          else (.error curErr, dir)
        | .ok curCur => restoreCurrent fs dir curCur
    | .ok pendCur =>
      match tryCurrents dir [CURRENT, CURRENTbak] with
      | .panic => (.panic, dir)
      | .error curErr =>
        if curErr ≠ .ErrNotExist && !isCorrupted curErr then (.error curErr, dir)
        else restoreCurrent fs dir pendCur
      | .ok curCur =>
        if pendCur.fd.Num > curCur.fd.Num then restoreCurrent fs dir pendCur
        else restoreCurrent fs dir curCur

/-! ## The rest of the facade: `Remove`, `Rename`, `List`, `Lock`, `Close` -/

/-- Go `(*aesgcmStorage).Remove`. -/
def aesgcmStorage.Remove (fs : aesgcmStorage) (dir : Dir) (fd : FileDesc) : Res Unit × Dir :=
  if !FileDescOk fd then (.error .ErrInvalidFile, dir)
  else if fs.readOnly then (.error .errReadOnly, dir)
  else if fs.opened < 0 then (.error .ErrClosed, dir)
  else
    match fsGenName fd with
    | none => (.panic, dir)
    | some name => osRemove dir name

/-- Go `(*aesgcmStorage).Rename`. -/
def aesgcmStorage.Rename (fs : aesgcmStorage) (dir : Dir) (oldfd newfd : FileDesc) :
    Res Unit × Dir :=
  if !FileDescOk oldfd || !FileDescOk newfd then (.error .ErrInvalidFile, dir)
  else if oldfd = newfd then (.ok (), dir)
  else if fs.readOnly then (.error .errReadOnly, dir)
  else if fs.opened < 0 then (.error .ErrClosed, dir)
  else
    match fsGenName oldfd, fsGenName newfd with
    | some o, some n => rename dir o n
    | _, _ => (.panic, dir)

/-- Go `(*aesgcmStorage).List`; `ft` is the `storage.FileType` mask. -/
def aesgcmStorage.List (fs : aesgcmStorage) (dir : Dir) (ft : Int) : Res (List FileDesc) :=
  if fs.opened < 0 then .error .ErrClosed
  else
    .ok (dir.names.filterMap (fun name =>
      if (fsParseName name).2 && decide (Int.land (fsParseName name).1.Typ ft ≠ 0) then
        some (fsParseName name).1
      else none))

/-- Go `aesgcmStorageLock`: `id` is the identity of the object (its address),
`bound` tells whether its field `fs` is non-nil. -/
structure aesgcmStorageLock where
  id : Nat
  bound : Bool
  deriving DecidableEq, Repr

/-- Go `(*aesgcmStorage).Lock`. -/
def aesgcmStorage.Lock (fs : aesgcmStorage) : Res aesgcmStorageLock × aesgcmStorage :=
  if fs.opened < 0 then (.error .ErrClosed, fs)
  else if fs.readOnly then (.ok ⟨fs.locks, false⟩, { fs with locks := fs.locks + 1 })
  else if fs.slock ≠ none then (.error .ErrLocked, fs)
  else (.ok ⟨fs.locks, true⟩, { fs with slock := some fs.locks, locks := fs.locks + 1 })

/-- Go `(*aesgcmStorageLock).Unlock`, on the handle the lock came from. -/
def aesgcmStorageLock.Unlock (lock : aesgcmStorageLock) (fs : aesgcmStorage) : aesgcmStorage :=
  if lock.bound then
    if fs.slock = some lock.id then { fs with slock := none } else fs
  else fs

/-- The file `LOCK` of a storage directory as the host keeps it: whether it
exists, whether it has the exclusive-use bit (`os.ModeExclusive`), and the
number of descriptors open on it. -/
structure LockFile where
  present : Bool
  exclusive : Bool
  opens : Nat
  deriving DecidableEq, Repr

/-- Go `os.OpenFile(path, flag, perm)` on the file `LOCK`; `create` tells
whether `flag` has `os.O_CREATE`, `excl` whether `perm` has `os.ModeExclusive`.
A missing file is created with the bits of `perm` and opened, or is the error
for which `os.IsNotExist` holds; a file with the exclusive-use bit is open at
most once at a time, whatever the mode of the open. -/
def osOpenFile (lf : LockFile) (create excl : Bool) : Res Unit × LockFile :=
  if lf.present then
    if lf.exclusive && decide (0 < lf.opens) then (.error .exclusiveUse, lf)
    else (.ok (), { lf with opens := lf.opens + 1 })
  else if create then (.ok (), ⟨true, excl, 1⟩)
  else (.error .PathNotExist, lf)

/-- Go `newFileLock(path, readOnly)` of file_storage_plan9.go: the file is
opened, and created when it is missing; only a read-write open asks for
`os.ModeExclusive`. -/
def newFileLock (lf : LockFile) (readOnly : Bool) : Res Unit × LockFile :=
  match osOpenFile lf false (!readOnly) with
  | (.error .PathNotExist, lf1) => osOpenFile lf1 true (!readOnly)
  | r => r

/-- Go `(*plan9FileLock).release`: `fl.f.Close()`. -/
def release (lf : LockFile) : Res Unit × LockFile :=
  (.ok (), { lf with opens := lf.opens - 1 })

/-- Go `(*aesgcmStorage).Close`. -/
def aesgcmStorage.Close (fs : aesgcmStorage) (lk : LockFile) :
    Res Unit × aesgcmStorage × LockFile :=
  if fs.opened < 0 then (.error .ErrClosed, fs, lk)
  else ((release lk).1, { fs with opened := -1 }, (release lk).2)

/-! ## Opening a storage directory: `OpenEncryptedFile` -/

/-- What `os.Stat(path)` finds at the path of the storage. -/
inductive PathState
  | absent
  | file
  | directory
  deriving DecidableEq, Repr

/-- The host as `OpenEncryptedFile` sees it: what is at `path`, and the file
`LOCK` of the directory there. -/
structure Host where
  path : PathState
  lock : LockFile
  deriving DecidableEq, Repr

/-- Go `aes.NewCipher(key)` returns no error: the key has 16, 24 or 32 bytes. -/
def keyOk (key : GoString) : Bool :=
  decide (key.length = 16) || decide (key.length = 24) || decide (key.length = 32)

/-- Go `OpenEncryptedFile(path, key, readOnly)`: the handle or the error, and
the host afterwards.  `os.Stat` fails only for a missing path and `os.MkdirAll`
succeeds. -/
def OpenEncryptedFile (h : Host) (key : GoString) (readOnly : Bool) :
    Res aesgcmStorage × Host :=
  if !keyOk key then (.error .KeySizeError, h)
  else if h.path = .file then (.error .notDirectory, h)
  else if h.path = .absent ∧ readOnly = true then (.error .PathNotExist, h)
  else
    match newFileLock h.lock readOnly with
    | (.ok _, lk) => (.ok ⟨readOnly, none, 0, key, 0⟩, ⟨.directory, lk⟩)
    | (.error e, lk) => (.error e, ⟨.directory, lk⟩)
    | (.panic, lk) => (.panic, ⟨.directory, lk⟩)

/-- A call that opens or closes the file `LOCK` of the directory:
`OpenEncryptedFile`, or `Close` on the handle an earlier call returned
(handles are numbered in the order they were returned). -/
inductive HostCall
  | openFile (key : GoString) (readOnly : Bool)
  | close (i : Nat)
  deriving DecidableEq, Repr

/-- The host and the handles returned so far, after one call. -/
def hostStep (w : Host × List aesgcmStorage) : HostCall → Host × List aesgcmStorage
  | .openFile key readOnly =>
    match OpenEncryptedFile w.1 key readOnly with
    | (.ok fs, h) => (h, w.2 ++ [fs])
    | (_, h) => (h, w.2)
  | .close i =>
    match w.2[i]? with
    | none => w
    | some fs => (⟨w.1.path, (fs.Close w.1.lock).2.2⟩, w.2.set i (fs.Close w.1.lock).2.1)

/-- The host and the handles after a sequence of calls. -/
def hostRun (w : Host × List aesgcmStorage) (calls : List HostCall) :
    Host × List aesgcmStorage :=
  calls.foldl hostStep w

/-- The host before any handle was opened: there is no file `LOCK` yet. -/
def hostInit (p0 : PathState) : Host × List aesgcmStorage := (⟨p0, ⟨false, false, 0⟩⟩, [])

/-- The key of the tests (`testKey`). -/
def testKey : GoString := [0, 1, 2, 3, 4, 5, 6, 7, 8, 9, 10, 11, 12, 13, 14, 15]

/-! ## Sequences of `Lock` and `Unlock` calls on one handle -/

/-- A call of the advisory lock: `Lock()`, or `Unlock()` on a lock object. -/
inductive LockCall
  | lock
  | unlock (l : aesgcmStorageLock)
  deriving DecidableEq, Repr

/-- The handle after one call, with the locks `Lock()` has returned and that
were not yet unlocked. -/
def lockStep (st : aesgcmStorage × List aesgcmStorageLock) :
    LockCall → aesgcmStorage × List aesgcmStorageLock
  | .lock =>
    match st.1.Lock with
    | (.ok l, fs1) => (fs1, l :: st.2)
    | (_, fs1) => (fs1, st.2)
  | .unlock l => (l.Unlock st.1, st.2.filter (fun x => !decide (x = l)))

/-- The handle and its outstanding locks after a sequence of calls. -/
def lockRun (st : aesgcmStorage × List aesgcmStorageLock) (calls : List LockCall) :
    aesgcmStorage × List aesgcmStorageLock :=
  calls.foldl lockStep st

/-- The lock slot of a read-write handle holds exactly the outstanding lock. -/
def lockInv (st : aesgcmStorage × List aesgcmStorageLock) : Prop :=
  (st.1.slock = none ∧ st.2 = []) ∨
    ∃ id, id < st.1.locks ∧ st.1.slock = some id ∧ st.2 = [⟨id, true⟩]

/-! ## The vocabulary of the claims about the name codec -/

/-- The decimal representation of a natural number, as bytes. -/
def decimal (n : Nat) : GoString := (Nat.toDigits 10 n).map Char.toNat

/-- A digit string left-padded with zeros to at least six digits. -/
def zeroPad6 (ds : GoString) : GoString := List.replicate (6 - ds.length) 48 ++ ds

/-- The names `TestFileStorage_InvalidFileName` expects to be rejected
(`invalidCases` of the test file). -/
def invalidCases : List GoString :=
  [str "", str "foo", str "foo-dx-100.log", str ".log", str "", str "manifest", str "CURREN",
   str "CURRENTX", str "MANIFES", str "MANIFEST", str "MANIFEST-", str "XMANIFEST-3",
   str "MANIFEST-3x", str "LOC", str "LOCKx", str "LO", str "LOGx",
   str "18446744073709551616.log", str "184467440737095516150.log", str "100", str "100.",
   str "100.lop"]

/-- A non-empty run of decimal digits. -/
def digitRun (ds : GoString) : Bool := !ds.isEmpty && ds.all isDigit

/-- The strict reading of a file name: `MANIFEST-<digits>` or `<digits>.log`,
`<digits>.ldb`, `<digits>.tmp`, with a non-empty run of digits and nothing
before or after. -/
def exactName (s : GoString) : Bool :=
  (s.take 9 == str "MANIFEST-" && digitRun (s.drop 9)) ||
    ((s.drop (s.length - 4) == str ".log" || s.drop (s.length - 4) == str ".ldb" ||
        s.drop (s.length - 4) == str ".tmp") && digitRun (s.take (s.length - 4)))

/-- A run of white space without a newline: what `SkipSpace` passes over. -/
def blanks (ws : List Nat) : Prop := ∀ c ∈ ws, isSpace c = true ∧ c ≠ 10

/-- The runes `sign ++ ds` are a decimal numeral of value `i`: an optional
sign and at least one digit, nothing else. -/
def numeral (sign ds : List Nat) (i : Int) : Prop :=
  (sign = [] ∨ sign = [43] ∨ sign = [45]) ∧ ds ≠ [] ∧ (∀ c ∈ ds, isDigit c = true) ∧
    ∃ v : Nat, digitsValue 0 ds = some v ∧ i = if sign = [45] then -(v : Int) else (v : Int)

/-- The rune sequences in which the two `Sscanf` calls find the descriptor
`fd`: white space, a numeral, a dot, white space, the extension and then
nothing or white space and anything; or `MANIFEST-`, white space, a numeral,
white space and then nothing or a newline and anything. -/
def scannedName (rs : List Nat) (fd : FileDesc) : Prop :=
  ∃ ws sign ds ws2 rest, blanks ws ∧ blanks ws2 ∧ numeral sign ds fd.Num ∧ inInt64 fd.Num ∧
    ((∃ ext, rs = ws ++ sign ++ ds ++ 46 :: (ws2 ++ ext ++ rest) ∧
        ((ext = str "log" ∧ fd.Typ = TypeJournal) ∨ (ext = str "ldb" ∧ fd.Typ = TypeTable) ∨
          (ext = str "tmp" ∧ fd.Typ = TypeTemp)) ∧
        ∀ c ∈ rest.head?, isSpace c = true) ∨
      (rs = str "MANIFEST-" ++ (ws ++ sign ++ ds ++ ws2 ++ rest) ∧ fd.Typ = TypeManifest ∧
        (rest = [] ∨ rest.head? = some 10)))

/-! ## The vocabulary of the claims about `GetMeta` -/

/-- The descriptor a pointer file is accepted with: the file exists, its
content is a newline-terminated name that decodes, and the file so named exists. -/
def accepted (dir : Dir) (name : GoString) : Option FileDesc :=
  match dir.read name with
  | none => none
  | some b =>
    if b.getLast? = some 10 ∧ (fsParseName b.dropLast).2 = true then
      match fsGenName (fsParseName b.dropLast).1 with
      | some target => if dir.Stat target then some (fsParseName b.dropLast).1 else none
      | none => none
    else none

/-- A pointer file that exists but is structurally corrupted: empty, not
newline-terminated, or not a decodable name. -/
def structurallyCorrupted (dir : Dir) (name : GoString) : Bool :=
  match dir.read name with
  | none => false
  | some b => b = [] || b.getLast? ≠ some 10 || (fsParseName b.dropLast).2 = false

/-- The first name of a list that is accepted, with its descriptor. -/
def firstAccepted (dir : Dir) (names : List GoString) : Option currentFile :=
  names.findSome? (fun n => (accepted dir n).map (currentFile.mk n))

/-- The candidate `GetMeta` settles on: the accepted pending file when its
descriptor number is strictly greater than that of the accepted `CURRENT` /
`CURRENT.bak`, or when there is no such file; the latter otherwise. -/
def winner (dir : Dir) : Option currentFile :=
  match firstAccepted dir (pendNames dir), firstAccepted dir [CURRENT, CURRENTbak] with
  | some p, some c => if p.fd.Num > c.fd.Num then some p else some c
  | some p, none => some p
  | none, some c => some c
  | none, none => none

/-! ## Sequences of writer calls -/

/-- A call on an open writer: `Write(p)`, or `Sync()` with what `rand.Read` delivers. -/
inductive WriterOp
  | write (p : GoString)
  | sync (rnd : GoString)
  deriving DecidableEq, Repr

/-- The writer and the directory after one call, whatever the call returned. -/
def runOp (gcm : AEAD) (fs : aesgcmStorage) (s : aesgcmWriter × Dir) :
    WriterOp → aesgcmWriter × Dir
  | .write p => (s.1.Write p, s.2)
  | .sync rnd => (aesgcmWriter.Sync gcm fs s.1 s.2 rnd).2

/-- The writer and the directory after a sequence of calls. -/
def runOps (gcm : AEAD) (fs : aesgcmStorage) (s : aesgcmWriter × Dir) (ops : List WriterOp) :
    aesgcmWriter × Dir :=
  ops.foldl (runOp gcm fs) s

/-- The bytes a sequence of calls delivered to `Write`, in order. -/
def written : List WriterOp → GoString
  | [] => []
  | .write p :: rest => p ++ written rest
  | .sync _ :: rest => written rest

/-- A small AEAD to instantiate the theorems on: the sealed text is the plain
text behind a one-byte checksum of key, nonce, associated data and plain text. -/
def toyAEAD : AEAD where
  NonceSize := 2
  Seal := fun key nonce plain ad => ((key ++ nonce ++ ad ++ plain).sum % 256) :: plain
  Open := fun key nonce box ad =>
    match box with
    | [] => none
    | t :: plain => if t = (key ++ nonce ++ ad ++ plain).sum % 256 then some plain else none

/-- The pointer files `GetMeta` reads, in its order: the pending files by
descending number, then `CURRENT`, then `CURRENT.bak`. -/
def candidates (dir : Dir) : List GoString := pendNames dir ++ [CURRENT, CURRENTbak]

/-- The numbers of the pending files in the directory, in descending order:
the entries named `CURRENT.<N>` for a 64-bit number N printed as `%d` prints it. -/
def pendingFileNums (dir : Dir) : List Int :=
  sortDesc (dir.names.filterMap (fun name =>
    match ParseInt (name.drop 8) with
    | some N => if name = pendingName N then some N else none
    | none => none))

/-- The descriptor of the first pending file, in descending number, that is accepted. -/
def firstPending (dir : Dir) : Option FileDesc :=
  (pendingFileNums dir).findSome? (fun N => accepted dir (pendingName N))

/-- The descriptor of the first of `CURRENT`, `CURRENT.bak` that is accepted. -/
def firstCurrent (dir : Dir) : Option FileDesc :=
  [CURRENT, CURRENTbak].findSome? (accepted dir)

/-- The state of a writer for `D` that is still open, with its file in place. -/
def writerInv (D : FileDesc) (name buf : GoString) (s : aesgcmWriter × Dir) : Prop :=
  s.1.fd = D ∧ s.1.closed = false ∧ s.1.Buffer = buf ∧ s.2.read name ≠ none

/-! # Theorems -/

/-! ## Lemmas on the decimal codec -/

theorem decodeRune_ascii (b : Nat) (rest : GoString) (h : b < 128) :
    decodeRune (b :: rest) = (b, 1) := by
  simp [decodeRune, h]

theorem runesAux_ascii (s : GoString) (h : ∀ c ∈ s, c < 128) : runesAux 0 s = s := by
  induction s with
  | nil => rfl
  | cons b rest ih =>
    have hb : b < 128 := h b (List.mem_cons_self _ _)
    have hr : ∀ c ∈ rest, c < 128 := fun c hc => h c (List.mem_cons_of_mem _ hc)
    simp [runesAux, decodeRune_ascii b rest hb, ih hr]

theorem runes_ascii (s : GoString) (h : ∀ c ∈ s, c < 128) : runes s = s :=
  runesAux_ascii s h

theorem digitsLE_isDigit (fuel n : Nat) : ∀ c ∈ digitsLE fuel n, isDigit c = true := by
  induction fuel generalizing n with
  | zero => intro c hc; simp [digitsLE] at hc
  | succ fuel ih =>
    intro c hc
    unfold digitsLE at hc
    split at hc
    · simp at hc; subst hc; simp [isDigit]; omega
    · rcases List.mem_cons.mp hc with h | h
      · subst h; simp [isDigit]; omega
      · exact ih _ c h

theorem digitsLE_ne_nil (fuel n : Nat) : digitsLE (fuel + 1) n ≠ [] := by
  unfold digitsLE; split <;> simp

theorem valLE_digitsLE (fuel n : Nat) (h : n < fuel) : valLE (digitsLE fuel n) = n := by
  induction fuel generalizing n with
  | zero => omega
  | succ fuel ih =>
    unfold digitsLE
    split
    · simp [valLE]
    · have h2 : n / 10 < fuel := by omega
      simp [valLE, ih _ h2]; omega

theorem digitsValue_append (acc : Nat) (a b : List Nat) :
    digitsValue acc (a ++ b) = (digitsValue acc a).bind (fun v => digitsValue v b) := by
  induction a generalizing acc with
  | nil => simp [digitsValue]
  | cons c r ih =>
    simp only [List.cons_append, digitsValue]
    split
    · exact ih _
    · rfl

theorem digitsValue_reverse (acc : Nat) (l : List Nat) (h : ∀ c ∈ l, isDigit c = true) :
    digitsValue acc l.reverse = some (acc * 10 ^ l.length + valLE l) := by
  induction l generalizing acc with
  | nil => simp [digitsValue, valLE]
  | cons c r ih =>
    have hc : isDigit c = true := h c (List.mem_cons_self _ _)
    have hr : ∀ x ∈ r, isDigit x = true := fun x hx => h x (List.mem_cons_of_mem _ hx)
    rw [List.reverse_cons, digitsValue_append, ih acc hr]
    simp [digitsValue, hc, valLE, pow_succ]
    ring

theorem natDigits_isDigit (n : Nat) : ∀ c ∈ natDigits n, isDigit c = true := by
  intro c hc
  exact digitsLE_isDigit _ _ c (List.mem_reverse.mp hc)

theorem natDigits_ne_nil (n : Nat) : natDigits n ≠ [] := by
  unfold natDigits
  simpa using digitsLE_ne_nil n n

theorem digitsValue_natDigits (n : Nat) : digitsValue 0 (natDigits n) = some n := by
  unfold natDigits
  rw [digitsValue_reverse 0 _ (digitsLE_isDigit _ _), valLE_digitsLE _ _ (Nat.lt_succ_self n)]
  simp

theorem digitsValue_zeros (k : Nat) : digitsValue 0 (List.replicate k 48) = some 0 := by
  induction k with
  | zero => rfl
  | succ k ih => simp [List.replicate_succ, digitsValue, isDigit, ih]

theorem digitsValue_padded (k n : Nat) :
    digitsValue 0 (List.replicate k 48 ++ natDigits n) = some n := by
  rw [digitsValue_append, digitsValue_zeros]
  simpa using digitsValue_natDigits n

theorem padded_isDigit (k n : Nat) :
    ∀ c ∈ List.replicate k 48 ++ natDigits n, isDigit c = true := by
  intro c hc
  rcases List.mem_append.mp hc with h | h
  · rw [List.mem_replicate] at h; rw [h.2]; rfl
  · exact natDigits_isDigit n c h

theorem padded_ne_nil (k n : Nat) : List.replicate k 48 ++ natDigits n ≠ [] := by
  simp [natDigits_ne_nil]

theorem isDigit_bounds {c : Nat} (h : isDigit c = true) : 48 ≤ c ∧ c ≤ 57 := by
  simpa [isDigit] using h

theorem SkipSpace_digit (c : Nat) (rest : List Nat) (h : isDigit c = true) :
    SkipSpace (c :: rest) = some (c :: rest) := by
  have hb := isDigit_bounds h
  have h1 : c ≠ 10 := by omega
  have h2 : isSpace c = false := by simp [isSpace]; omega
  simp [SkipSpace, h1, h2]

theorem acceptRun_digits (ds rest : List Nat) (hall : ∀ c ∈ ds, isDigit c = true)
    (hrest : ∀ c ∈ rest.head?, acceptsDigit c = false) :
    acceptRun (ds ++ rest) = (ds, rest) := by
  induction ds with
  | nil =>
    cases rest with
    | nil => rfl
    | cons r rs =>
      have : acceptsDigit r = false := hrest r (by simp)
      simp [acceptRun, this]
  | cons c r ih =>
    have hc : isDigit c = true := hall c (List.mem_cons_self _ _)
    have hr : ∀ x ∈ r, isDigit x = true := fun x hx => hall x (List.mem_cons_of_mem _ hx)
    simp [acceptRun, acceptsDigit, hc, ih hr]

theorem ParseInt_digits (ds : List Nat) (v : Nat) (hne : ds ≠ [])
    (hall : ∀ c ∈ ds, isDigit c = true) (hv : digitsValue 0 ds = some v) (hlt : v < 2 ^ 63) :
    ParseInt ds = some (v : Int) := by
  cases ds with
  | nil => exact absurd rfl hne
  | cons c r =>
    have hb := isDigit_bounds (hall c (List.mem_cons_self _ _))
    have h43 : c ≠ 43 := by omega
    have h45 : c ≠ 45 := by omega
    have hlt2 : v < 9223372036854775808 := by norm_num at hlt; exact hlt
    simp [ParseInt, h43, h45, hv, hlt2]

theorem ParseInt_neg_digits (ds : List Nat) (v : Nat) (hne : ds ≠ [])
    (hv : digitsValue 0 ds = some v) (hle : v ≤ 2 ^ 63) :
    ParseInt (45 :: ds) = some (-(v : Int)) := by
  cases ds with
  | nil => exact absurd rfl hne
  | cons c r =>
    have hle2 : v ≤ 9223372036854775808 := by norm_num at hle; exact hle
    simp [ParseInt, hv, hle2]

theorem scanInt_digits (ds rest : List Nat) (v : Nat) (hne : ds ≠ [])
    (hall : ∀ c ∈ ds, isDigit c = true) (hrest : ∀ c ∈ rest.head?, acceptsDigit c = false)
    (hv : digitsValue 0 ds = some v) (hlt : v < 2 ^ 63) :
    scanInt (ds ++ rest) = some ((v : Int), rest) := by
  have hP := ParseInt_digits ds v hne hall hv hlt
  have hA := acceptRun_digits ds rest hall hrest
  cases ds with
  | nil => exact absurd rfl hne
  | cons c r =>
    have hc : isDigit c = true := hall c (List.mem_cons_self _ _)
    have hb := isDigit_bounds hc
    have h43 : c ≠ 43 := by omega
    have h45 : c ≠ 45 := by omega
    have hS := SkipSpace_digit c (r ++ rest) hc
    simp only [List.cons_append] at hA hS ⊢
    simp [scanInt, hS, h43, h45, acceptsDigit, hc, hA, hP]

theorem scanInt_neg_digits (ds rest : List Nat) (v : Nat) (hne : ds ≠ [])
    (hall : ∀ c ∈ ds, isDigit c = true) (hrest : ∀ c ∈ rest.head?, acceptsDigit c = false)
    (hv : digitsValue 0 ds = some v) (hle : v ≤ 2 ^ 63) :
    scanInt (45 :: (ds ++ rest)) = some (-(v : Int), rest) := by
  have hP := ParseInt_neg_digits ds v hne hv hle
  have hA := acceptRun_digits ds rest hall hrest
  cases ds with
  | nil => exact absurd rfl hne
  | cons c r =>
    have hc : isDigit c = true := hall c (List.mem_cons_self _ _)
    simp only [List.cons_append] at hA ⊢
    simp [scanInt, SkipSpace, isSpace, acceptsDigit, hc, hA, hP]

/-- Scanning `%d` over a number printed with `%06d`, followed by input that
does not continue the number. -/
theorem scanInt_fmtInt06 (i : Int) (rest : List Nat) (hi : inInt64 i)
    (hrest : ∀ c ∈ rest.head?, acceptsDigit c = false) :
    scanInt (fmtInt06 i ++ rest) = some (i, rest) := by
  unfold inInt64 at hi
  unfold fmtInt06
  split
  · rename_i hneg
    have h := scanInt_neg_digits
      (List.replicate (5 - (natDigits i.natAbs).length) 48 ++ natDigits i.natAbs) rest i.natAbs
      (padded_ne_nil _ _) (padded_isDigit _ _) hrest (digitsValue_padded _ _) (by omega)
    have e : -((i.natAbs : Nat) : Int) = i := by omega
    rw [e] at h
    simpa using h
  · rename_i hneg
    have h := scanInt_digits
      (List.replicate (6 - (natDigits i.natAbs).length) 48 ++ natDigits i.natAbs) rest i.natAbs
      (padded_ne_nil _ _) (padded_isDigit _ _) hrest (digitsValue_padded _ _) (by omega)
    have e : ((i.natAbs : Nat) : Int) = i := by omega
    rw [e] at h
    simpa using h

theorem fmtInt06_ascii (i : Int) : ∀ c ∈ fmtInt06 i, c < 128 := by
  intro c hc
  unfold fmtInt06 at hc
  split at hc
  · rcases List.mem_cons.mp hc with h | h
    · omega
    · have := isDigit_bounds (padded_isDigit _ _ c h); omega
  · have := isDigit_bounds (padded_isDigit _ _ c hc); omega

/-- First rune of a `%06d` rendering: a digit or the minus sign. -/
theorem fmtInt06_head (i : Int) :
    ∃ c r, fmtInt06 i = c :: r ∧ (isDigit c = true ∨ c = 45) := by
  unfold fmtInt06
  split
  · exact ⟨45, _, rfl, Or.inr rfl⟩
  · cases h : List.replicate (6 - (natDigits i.natAbs).length) 48 ++ natDigits i.natAbs with
    | nil => exact absurd h (padded_ne_nil _ _)
    | cons c r =>
      refine ⟨c, r, rfl, Or.inl ?_⟩
      exact padded_isDigit _ _ c (by rw [h]; exact List.mem_cons_self _ _)

theorem SkipSpace_fmtInt06 (i : Int) (rest : List Nat) :
    SkipSpace (fmtInt06 i ++ rest) = some (fmtInt06 i ++ rest) := by
  obtain ⟨c, r, e, h⟩ := fmtInt06_head i
  rw [e]
  rcases h with h | h
  · exact SkipSpace_digit c (r ++ rest) h
  · subst h; simp [SkipSpace, isSpace]

theorem str_manifest : str "MANIFEST-" = [77, 65, 78, 73, 70, 69, 83, 84, 45] := by decide
theorem str_log : str "log" = [108, 111, 103] := by decide
theorem str_ldb : str "ldb" = [108, 100, 98] := by decide
theorem str_tmp : str "tmp" = [116, 109, 112] := by decide
theorem str_dot_log : str ".log" = 46 :: [108, 111, 103] := by decide
theorem str_dot_ldb : str ".ldb" = 46 :: [108, 100, 98] := by decide
theorem str_dot_tmp : str ".tmp" = 46 :: [116, 109, 112] := by decide

/-- The first `Sscanf` of `fsParseName` on `<%06d>.<ext>`. -/
theorem sscanfNumDotWord_gen (i : Int) (ext : List Nat) (hi : inInt64 i)
    (hascii : ∀ c ∈ ext, c < 128) (hskip : SkipSpace ext = some ext)
    (hconv : convertString ext = some (ext, [])) :
    sscanfNumDotWord (fmtInt06 i ++ 46 :: ext) = ⟨2, some i, some ext, true⟩ := by
  have hA : ∀ c ∈ fmtInt06 i ++ 46 :: ext, c < 128 := by
    intro c hc
    rcases List.mem_append.mp hc with h | h
    · exact fmtInt06_ascii i c h
    · rcases List.mem_cons.mp h with h | h
      · omega
      · exact hascii c h
  have hS := scanInt_fmtInt06 i (46 :: ext) hi (by simp [acceptsDigit, isDigit])
  simp [sscanfNumDotWord, runes_ascii _ hA, SkipSpace_fmtInt06, hS, hskip, hconv]

/-- The first `Sscanf` of `fsParseName` stores nothing on a `MANIFEST-` name. -/
theorem sscanfNumDotWord_manifest (rest : List Nat) (hascii : ∀ c ∈ rest, c < 128) :
    sscanfNumDotWord (str "MANIFEST-" ++ rest) = ⟨0, none, none, false⟩ := by
  have hA : ∀ c ∈ str "MANIFEST-" ++ rest, c < 128 := by
    intro c hc
    rcases List.mem_append.mp hc with h | h
    · rw [str_manifest] at h; simp at h; omega
    · exact hascii c h
  rw [sscanfNumDotWord, runes_ascii _ hA, str_manifest]
  simp [SkipSpace, isSpace, scanInt, acceptsDigit, isDigit]

/-- The second `Sscanf` of `fsParseName` on `MANIFEST-<%06d>`. -/
theorem sscanfManifest_gen (i : Int) (hi : inInt64 i) :
    sscanfManifest (str "MANIFEST-" ++ fmtInt06 i) = ⟨1, some i, none, false⟩ := by
  have hA : ∀ c ∈ str "MANIFEST-" ++ fmtInt06 i, c < 128 := by
    intro c hc
    rcases List.mem_append.mp hc with h | h
    · rw [str_manifest] at h; simp at h; omega
    · exact fmtInt06_ascii i c h
  have hS := scanInt_fmtInt06 i [] hi (by simp)
  have hK := SkipSpace_fmtInt06 i []
  simp only [List.append_nil] at hS hK
  have hM : matchLiteral (str "MANIFEST-") (str "MANIFEST-" ++ fmtInt06 i) = some (fmtInt06 i) := by
    rw [str_manifest]; simp [matchLiteral]
  simp [sscanfManifest, runes_ascii _ hA, hM, hK, hS, SkipSpace, convertString]

/-- Decoding inverts encoding on every descriptor with a valid type and a
64-bit number (negative numbers included). -/
theorem fsParseName_fsGenName (fd : FileDesc) (ht : validType fd.Typ) (hi : inInt64 fd.Num) :
    ∃ name, fsGenName fd = some name ∧ fsParseName name = (fd, true) := by
  obtain ⟨t, i⟩ := fd
  simp only at ht hi
  rcases ht with h | h | h | h <;> subst h
  · refine ⟨str "MANIFEST-" ++ fmtInt06 i, by simp [fsGenName], ?_⟩
    simp [fsParseName, sscanfNumDotWord_manifest _ (fmtInt06_ascii i), sscanfManifest_gen i hi]
  · refine ⟨fmtInt06 i ++ str ".log", by simp [fsGenName, TypeJournal, TypeManifest], ?_⟩
    rw [str_dot_log]
    have h := sscanfNumDotWord_gen i [108, 111, 103] hi (by decide) (by decide) (by decide)
    simp [fsParseName, h, str_log]
  · refine ⟨fmtInt06 i ++ str ".ldb",
      by simp [fsGenName, TypeJournal, TypeManifest, TypeTable], ?_⟩
    rw [str_dot_ldb]
    have h := sscanfNumDotWord_gen i [108, 100, 98] hi (by decide) (by decide) (by decide)
    simp [fsParseName, h, str_log, str_ldb]
  · refine ⟨fmtInt06 i ++ str ".tmp",
      by simp [fsGenName, TypeJournal, TypeManifest, TypeTable, TypeTemp], ?_⟩
    rw [str_dot_tmp]
    have h := sscanfNumDotWord_gen i [116, 109, 112] hi (by decide) (by decide) (by decide)
    simp [fsParseName, h, str_log, str_ldb, str_tmp]

theorem FileDescOk_iff (fd : FileDesc) :
    FileDescOk fd = true ↔ validType fd.Typ ∧ 0 ≤ fd.Num := by
  simp [FileDescOk, validType, or_assoc]

theorem PutUint64_inj (v w : Nat) (hv : v < 2 ^ 64) (hw : w < 2 ^ 64)
    (h : PutUint64 v = PutUint64 w) : v = w := by
  simp only [PutUint64, List.cons.injEq, and_true] at h
  obtain ⟨h0, h1, h2, h3, h4, h5, h6, h7⟩ := h
  norm_num at hv hw
  omega

/-- The associated data determines a descriptor with a valid type and a
non-negative 64-bit number. -/
theorem fdGenAD_inj (d1 d2 : FileDesc) (h1 : FileDescOk d1 = true) (h2 : FileDescOk d2 = true)
    (m1 : d1.Num ≤ 2 ^ 63 - 1) (m2 : d2.Num ≤ 2 ^ 63 - 1) (h : fdGenAD d1 = fdGenAD d2) :
    d1 = d2 := by
  obtain ⟨t1, n1⟩ := d1
  obtain ⟨t2, n2⟩ := d2
  rw [FileDescOk_iff] at h1 h2
  simp only at h1 h2 m1 m2
  simp only [fdGenAD, List.cons.injEq, List.append_cancel_right_eq] at h
  obtain ⟨ht, hn⟩ := h
  have hb1 : (n1 % 2 ^ 64).toNat < 2 ^ 64 := by norm_num at m1 ⊢; omega
  have hb2 : (n2 % 2 ^ 64).toNat < 2 ^ 64 := by norm_num at m2 ⊢; omega
  have hn2 := PutUint64_inj _ _ hb1 hb2 hn
  have e1 : t1 = t2 := by
    rcases h1.1 with a | a | a | a <;> rcases h2.1 with b | b | b | b <;>
      simp only [a, b, TypeManifest, TypeJournal, TypeTable, TypeTemp] at ht ⊢ <;>
      first | rfl | (exfalso; revert ht; decide)
  have e2 : n1 = n2 := by norm_num at m1 m2 hn2; omega
  rw [e1, e2]

/-! ## Lemmas on the directory -/

theorem read_remove (dir : Dir) (n m : GoString) :
    (dir.remove n).read m = if m = n then none else dir.read m := by
  induction dir with
  | nil => simp [Dir.remove, Dir.read]
  | cons e rest ih =>
    obtain ⟨a, c⟩ := e
    simp only [Dir.remove] at ih ⊢
    by_cases h : a = n
    · subst h
      by_cases hm : m = a
      · subst hm; simp [List.filter, Dir.read, ih]
      · have hm2 : ¬ a = m := fun e => hm e.symm
        simp [List.filter, Dir.read, ih, hm, hm2]
    · by_cases hm : m = n
      · subst hm; simp [List.filter, Dir.read, ih, h]
      · simp [List.filter, Dir.read, ih, h, hm]

theorem read_write (dir : Dir) (n x m : GoString) :
    (dir.write n x).read m = if m = n then some x else dir.read m := by
  by_cases h : m = n
  · subst h; simp [Dir.write, Dir.read]
  · have h2 : ¬ n = m := fun e => h e.symm
    simp [Dir.write, Dir.read, read_remove, h, h2]

theorem mem_names_iff (dir : Dir) (m : GoString) : m ∈ dir.names ↔ dir.read m ≠ none := by
  induction dir with
  | nil => simp [Dir.names, Dir.read]
  | cons e rest ih =>
    obtain ⟨a, c⟩ := e
    simp only [Dir.names, List.map_cons, List.mem_cons] at ih ⊢
    by_cases h : a = m
    · subst h; simp [Dir.read]
    · have h2 : ¬ m = a := fun e => h e.symm
      simp [Dir.read, h, h2, ih]

theorem Stat_eq (dir : Dir) (m : GoString) : dir.Stat m = (dir.read m).isSome := rfl

theorem applyEffects_append (a b : List Effect) (dir : Dir) :
    applyEffects (a ++ b) dir = applyEffects b (applyEffects a dir) := by
  simp [applyEffects, List.foldl_append]

theorem applyEffects_cons (e : Effect) (es : List Effect) (dir : Dir) :
    applyEffects (e :: es) dir = applyEffects es (Effect.apply dir e) := rfl

theorem applyEffects_nil (dir : Dir) : applyEffects [] dir = dir := rfl

/-- Appending bytes one at a time to an existing file. -/
theorem read_appends (name : GoString) (data : GoString) (dir : Dir) (c : GoString)
    (h : dir.read name = some c) (m : GoString) :
    (applyEffects (data.map (Effect.append name)) dir).read m =
      if m = name then some (c ++ data) else dir.read m := by
  induction data generalizing dir c with
  | nil => by_cases hm : m = name <;> simp [applyEffects_nil, hm, h]
  | cons b r ih =>
    simp only [List.map_cons, applyEffects_cons]
    have h1 : (Effect.apply dir (.append name b)).read name = some (c ++ [b]) := by
      simp [Effect.apply, h, read_write]
    rw [ih _ _ h1]
    by_cases hm : m = name
    · simp [hm]
    · simp [hm, Effect.apply, h, read_write]

/-- What a crash leaves of `writeFileSynced`: after `k + 1` of its effects the
file holds the first `k` bytes of the data. -/
theorem read_writeFileSynced_take (name data : GoString) (dir : Dir) (k : Nat) (m : GoString) :
    (applyEffects ((writeFileSyncedEffects name data).take (k + 1)) dir).read m =
      if m = name then some (data.take k) else dir.read m := by
  have h0 : (dir.write name []).read name = some [] := by simp [read_write]
  have hd : Effect.apply dir (.create name) = dir.write name [] := rfl
  simp only [writeFileSyncedEffects, List.take_succ_cons, applyEffects_cons, hd]
  by_cases hk : k ≤ data.length
  · have e : (data.map (Effect.append name) ++ [Effect.sync]).take k
        = (data.take k).map (Effect.append name) := by
      rw [List.take_append_of_le_length (by simpa using hk), List.map_take]
    rw [e, read_appends name _ _ [] h0]
    by_cases hm : m = name
    · simp [hm]
    · simp [hm, read_write]
  · have hk2 : data.length + 1 ≤ k := by omega
    have e : (data.map (Effect.append name) ++ [Effect.sync]).take k
        = data.map (Effect.append name) ++ [Effect.sync] := by
      apply List.take_of_length_le; simpa using hk2
    have hs : ∀ d : Dir, Effect.apply d .sync = d := fun _ => rfl
    rw [e, applyEffects_append, applyEffects_cons, applyEffects_nil, hs,
      read_appends name _ _ [] h0, List.take_of_length_le (by omega)]
    by_cases hm : m = name
    · simp [hm]
    · simp [hm, read_write]

theorem read_writeFileSynced (name data : GoString) (dir : Dir) (m : GoString) :
    (applyEffects (writeFileSyncedEffects name data) dir).read m =
      if m = name then some data else dir.read m := by
  have h := read_writeFileSynced_take name data dir (data.length + 1) m
  rw [List.take_of_length_le (by simp [writeFileSyncedEffects]),
    List.take_of_length_le (by omega)] at h
  exact h

/-! ## What `fsParseName` accepts has a valid type and a 64-bit number -/

theorem ParseInt_inInt64 (s : GoString) (i : Int) (h : ParseInt s = some i) : inInt64 i := by
  unfold ParseInt at h
  split at h
  · simp at h
  · rename_i c rest
    simp only at h
    split at h
    · simp at h
    · split at h
      · simp at h
      · rename_i un hun
        by_cases hneg : c = 45
        · simp only [hneg, decide_True, Bool.not_true, Bool.false_and, Bool.true_and,
            ite_true, Bool.false_eq_true, ite_false] at h
          split at h
          · simp at h
          · rename_i hle
            simp only [Option.some.injEq] at h
            subst h
            simp only [gt_iff_lt, decide_eq_true_eq, not_lt] at hle
            unfold inInt64
            norm_num at hle ⊢
            omega
        · simp only [hneg, decide_False, Bool.not_false, Bool.true_and, Bool.false_and,
            Bool.false_eq_true, ite_false] at h
          split at h
          · simp at h
          · rename_i hle
            simp only [Option.some.injEq] at h
            subst h
            simp only [ge_iff_le, decide_eq_true_eq, not_le] at hle
            unfold inInt64
            norm_num at hle ⊢
            omega

theorem scanInt_inInt64 (input rest : List Nat) (i : Int) (h : scanInt input = some (i, rest)) :
    inInt64 i := by
  unfold scanInt at h
  split at h
  · simp at h
  · simp at h
  · simp only at h
    split at h
    · simp at h
    · split at h
      · split at h
        · simp at h
        · rename_i j hj
          simp only [Option.some.injEq, Prod.mk.injEq] at h
          rw [← h.1]
          exact ParseInt_inInt64 _ _ hj
      · simp at h

theorem sscanfNumDotWord_num (name : GoString) (i : Int)
    (h : (sscanfNumDotWord name).num = some i) : inInt64 i := by
  unfold sscanfNumDotWord at h
  split at h
  · simp at h
  · split at h
    · simp at h
    · rename_i j s2 hj
      have hr := scanInt_inInt64 _ _ _ hj
      have e : j = i := by
        split at h
        · simpa using h
        · split at h
          · split at h
            · simpa using h
            · split at h <;> simpa using h
          · simpa using h
      rw [← e]; exact hr

theorem sscanfNumDotWord_ok (name : GoString) (h : (sscanfNumDotWord name).ok = true) :
    ∃ i, (sscanfNumDotWord name).num = some i := by
  unfold sscanfNumDotWord at h ⊢
  split
  · simp_all
  · split
    · simp_all
    · split
      · simp_all
      · split
        · split
          · simp_all
          · split <;> simp_all
        · simp_all

theorem sscanfManifest_num (name : GoString) (i : Int)
    (h : (sscanfManifest name).num = some i) : inInt64 i := by
  unfold sscanfManifest at h
  split at h
  · simp at h
  · split at h
    · simp at h
    · split at h
      · simp at h
      · rename_i j s2 hj
        have hr := scanInt_inInt64 _ _ _ hj
        have e : j = i := by
          split at h
          · simpa using h
          · split at h <;> simpa using h
        rw [← e]; exact hr

theorem sscanfManifest_one (name : GoString) (h : (sscanfManifest name).n = 1) :
    ∃ i, (sscanfManifest name).num = some i := by
  unfold sscanfManifest at h ⊢
  split
  · simp_all
  · split
    · simp_all
    · split
      · simp_all
      · split
        · simp_all
        · split <;> simp_all

/-- Every descriptor `fsParseName` reports as ok has one of the four types and
a number within the 64-bit range. -/
theorem fsParseName_ok (name : GoString) (fd : FileDesc) (h : fsParseName name = (fd, true)) :
    validType fd.Typ ∧ inInt64 fd.Num := by
  unfold fsParseName at h
  simp only at h
  split at h
  · rename_i hok
    obtain ⟨i, hi⟩ := sscanfNumDotWord_ok name hok
    have hr := sscanfNumDotWord_num name i hi
    split at h
    · simp only [Prod.mk.injEq, and_true] at h; subst h
      simp [validType, hi, hr]
    · split at h
      · simp only [Prod.mk.injEq, and_true] at h; subst h
        simp [validType, hi, hr]
      · split at h
        · simp only [Prod.mk.injEq, and_true] at h; subst h
          simp [validType, hi, hr]
        · simp at h
  · split at h
    · rename_i hn
      obtain ⟨i, hi⟩ := sscanfManifest_one name hn
      have hr := sscanfManifest_num name i hi
      simp only [Prod.mk.injEq, and_true] at h; subst h
      simp [validType, hi, hr]
    · simp at h

theorem fsGenName_isSome (fd : FileDesc) (h : validType fd.Typ) :
    ∃ name, fsGenName fd = some name := by
  unfold fsGenName
  rcases h with h | h | h | h <;> simp [h, TypeManifest, TypeJournal, TypeTable, TypeTemp]

/-! ## The closures of `GetMeta` -/

theorem tryCurrent_eq (dir : Dir) (name : GoString) :
    tryCurrent dir name =
      match accepted dir name with
      | some fd => .ok ⟨name, fd⟩
      | none =>
        if structurallyCorrupted dir name then .error .ErrCorrupted else .error .ErrNotExist := by
  unfold tryCurrent accepted structurallyCorrupted fsParseNamePtr
  cases hb : dir.read name with
  | none => simp
  | some b =>
    simp only
    by_cases h1 : b = []
    · subst h1; simp
    · have hlen : ¬ b.length < 1 := by
        cases b with
        | nil => exact absurd rfl h1
        | cons x xs => simp
      by_cases h2 : b.getLast? = some 10
      · by_cases h3 : (fsParseName b.dropLast).2 = true
        · have hp : fsParseName b.dropLast = ((fsParseName b.dropLast).1, true) := by
            rw [← h3]
          obtain ⟨target, ht⟩ := fsGenName_isSome _ (fsParseName_ok _ _ hp).1
          by_cases h4 : dir.Stat target = true
          · simp [h1, hlen, h2, h3, ht, h4]
          · simp [h1, hlen, h2, h3, ht, h4]
        · simp [h1, h2, h3]
      · simp [h1, h2]

theorem firstAccepted_cons (dir : Dir) (name : GoString) (rest : List GoString) :
    firstAccepted dir (name :: rest) =
      match accepted dir name with
      | some fd => some ⟨name, fd⟩
      | none => firstAccepted dir rest := by
  unfold firstAccepted
  cases h : accepted dir name <;> simp [List.findSome?, h]

theorem tryCurrentsLoop_eq (dir : Dir) (names : List GoString) (last : Option Error) :
    tryCurrentsLoop dir names last =
      match firstAccepted dir names with
      | some c => .ok c
      | none =>
        .error (if names.any (structurallyCorrupted dir) then .ErrCorrupted
          else last.getD .ErrNotExist) := by
  induction names generalizing last with
  | nil => simp [tryCurrentsLoop, firstAccepted]
  | cons name rest ih =>
    rw [firstAccepted_cons]
    unfold tryCurrentsLoop
    rw [tryCurrent_eq]
    cases ha : accepted dir name with
    | some fd => simp
    | none =>
      by_cases hc : structurallyCorrupted dir name = true
      · simp only [hc, ite_true, List.any_cons, Bool.true_or]
        rw [ih (some .ErrCorrupted)]
        cases firstAccepted dir rest <;> simp [isCorrupted]
      · simp only [hc, List.any_cons, Bool.false_or]
        rw [ih last]
        cases firstAccepted dir rest <;> simp

theorem tryCurrents_eq (dir : Dir) (names : List GoString) :
    tryCurrents dir names =
      match firstAccepted dir names with
      | some c => .ok c
      | none =>
        .error (if names.any (structurallyCorrupted dir) then .ErrCorrupted else .ErrNotExist) := by
  unfold tryCurrents
  rw [tryCurrentsLoop_eq]
  rfl

/-! ## Names of the pointer files -/

theorem CURRENT_eq : CURRENT = [67, 85, 82, 82, 69, 78, 84] := by decide

theorem CURRENTbak_eq : CURRENTbak = [67, 85, 82, 82, 69, 78, 84, 46, 98, 97, 107] := by decide

theorem pendingName_eq (n : Int) :
    pendingName n = 67 :: 85 :: 82 :: 82 :: 69 :: 78 :: 84 :: 46 :: fmtInt n := by
  have e : str "CURRENT." = [67, 85, 82, 82, 69, 78, 84, 46] := by decide
  simp [pendingName, e]

theorem natDigits_head (n : Nat) : ∃ c r, natDigits n = c :: r ∧ isDigit c = true := by
  cases h : natDigits n with
  | nil => exact absurd h (natDigits_ne_nil n)
  | cons c r => exact ⟨c, r, rfl, natDigits_isDigit n c (by rw [h]; exact List.mem_cons_self _ _)⟩

theorem fmtInt_head (n : Int) : ∃ c r, fmtInt n = c :: r ∧ (isDigit c = true ∨ c = 45) := by
  unfold fmtInt
  split
  · exact ⟨45, _, rfl, Or.inr rfl⟩
  · obtain ⟨c, r, e, h⟩ := natDigits_head n.natAbs
    exact ⟨c, r, e, Or.inl h⟩

theorem pendingName_ne_CURRENT (n : Int) : pendingName n ≠ CURRENT := by
  rw [pendingName_eq, CURRENT_eq]; simp

theorem pendingName_ne_CURRENTbak (n : Int) : pendingName n ≠ CURRENTbak := by
  obtain ⟨c, r, e, h⟩ := fmtInt_head n
  rw [pendingName_eq, CURRENTbak_eq, e]
  intro heq
  simp only [List.cons.injEq, true_and] at heq
  rcases h with h | h
  · have := isDigit_bounds h; omega
  · omega

theorem CURRENT_ne_CURRENTbak : CURRENT ≠ CURRENTbak := by decide

/-- A generated file name starts with `M`, a digit or a minus sign, never with `C`. -/
theorem fsGenName_head (fd : FileDesc) (name : GoString) (h : fsGenName fd = some name) :
    ∃ c r, name = c :: r ∧ c ≠ 67 := by
  unfold fsGenName at h
  obtain ⟨c, r, e, hc⟩ := fmtInt06_head fd.Num
  have hc2 : c ≠ 67 := by
    rcases hc with hc | hc
    · have := isDigit_bounds hc; omega
    · omega
  split at h
  · simp only [Option.some.injEq] at h; subst h
    exact ⟨77, _, by rw [str_manifest]; rfl, by decide⟩
  · split at h
    · simp only [Option.some.injEq] at h; subst h
      exact ⟨c, r ++ str ".log", by rw [e]; rfl, hc2⟩
    · split at h
      · simp only [Option.some.injEq] at h; subst h
        exact ⟨c, r ++ str ".ldb", by rw [e]; rfl, hc2⟩
      · split at h
        · simp only [Option.some.injEq] at h; subst h
          exact ⟨c, r ++ str ".tmp", by rw [e]; rfl, hc2⟩
        · simp at h

theorem fsGenName_ne_CURRENT (fd : FileDesc) (name : GoString) (h : fsGenName fd = some name) :
    name ≠ CURRENT := by
  obtain ⟨c, r, e, hc⟩ := fsGenName_head fd name h
  rw [e, CURRENT_eq]; intro heq; simp only [List.cons.injEq] at heq; omega

theorem fsGenName_ne_CURRENTbak (fd : FileDesc) (name : GoString) (h : fsGenName fd = some name) :
    name ≠ CURRENTbak := by
  obtain ⟨c, r, e, hc⟩ := fsGenName_head fd name h
  rw [e, CURRENTbak_eq]; intro heq; simp only [List.cons.injEq] at heq; omega

theorem fsGenName_ne_pendingName (fd : FileDesc) (name : GoString) (n : Int)
    (h : fsGenName fd = some name) : name ≠ pendingName n := by
  obtain ⟨c, r, e, hc⟩ := fsGenName_head fd name h
  rw [e, pendingName_eq]; intro heq; simp only [List.cons.injEq] at heq; omega

theorem ParseInt_fmtInt (n : Int) (h : inInt64 n) : ParseInt (fmtInt n) = some n := by
  unfold inInt64 at h
  unfold fmtInt
  split
  · have := ParseInt_neg_digits (natDigits n.natAbs) n.natAbs (natDigits_ne_nil _)
      (digitsValue_natDigits _) (by omega)
    rw [this]; congr 1; omega
  · have := ParseInt_digits (natDigits n.natAbs) n.natAbs (natDigits_ne_nil _)
      (natDigits_isDigit _) (digitsValue_natDigits _) (by omega)
    rw [this]; congr 1; omega

/-- `GetMeta` collects the number of every file named `CURRENT.<n>` in `%d` form. -/
theorem mem_pendingNums_of_pendingName (names : List GoString) (n : Int) (hn : inInt64 n)
    (h : pendingName n ∈ names) : n ∈ pendingNums names := by
  unfold pendingNums
  rw [List.mem_filterMap]
  refine ⟨pendingName n, h, ?_⟩
  have hb : (pendingName n != CURRENTbak) = true := by
    simpa using pendingName_ne_CURRENTbak n
  have hp : (str "CURRENT.").isPrefixOf (pendingName n) = true := by
    simp [pendingName]
  have hd : (pendingName n).drop 8 = fmtInt n := by
    rw [pendingName_eq]; rfl
  simp only [hp, hb, Bool.and_self, ite_true, hd]
  exact ParseInt_fmtInt n hn

theorem inInt64_of_mem_pendingNums (names : List GoString) (n : Int)
    (h : n ∈ pendingNums names) : inInt64 n := by
  unfold pendingNums at h
  rw [List.mem_filterMap] at h
  obtain ⟨name, _, hx⟩ := h
  split at hx
  · exact ParseInt_inInt64 _ _ hx
  · simp at hx

theorem mem_sortDesc (l : List Int) (n : Int) : n ∈ sortDesc l ↔ n ∈ l := by
  unfold sortDesc
  exact (List.perm_insertionSort _ l).mem_iff

theorem mem_pendNames (dir : Dir) (x : GoString) :
    x ∈ pendNames dir ↔ ∃ n ∈ pendingNums dir.names, x = pendingName n := by
  unfold pendNames
  split
  · simp only [List.mem_map, mem_sortDesc]
    constructor
    · rintro ⟨n, hn, rfl⟩; exact ⟨n, hn, rfl⟩
    · rintro ⟨n, hn, rfl⟩; exact ⟨n, hn, rfl⟩
  · rename_i h
    have : pendingNums dir.names = [] := by
      cases hl : pendingNums dir.names with
      | nil => rfl
      | cons a l => rw [hl] at h; simp at h
    simp [this]

/-! ## `setMeta` -/

theorem opt_cases {α : Type} (o : Option α) : o = none ∨ ∃ x, o = some x := by
  cases o with
  | none => exact Or.inl rfl
  | some x => exact Or.inr ⟨x, rfl⟩

theorem writeFileSynced_eq (dir : Dir) (name data : GoString) :
    writeFileSynced dir name data = (.ok (), applyEffects (writeFileSyncedEffects name data) dir) :=
  rfl

/-- `setMeta` succeeds on a descriptor with a name, and its directory is the
one its effects give. -/
theorem setMeta_eq (dir : Dir) (fd : FileDesc) (name : GoString) (h : fsGenName fd = some name) :
    setMeta dir fd = (.ok (), applyEffects (setMetaEffects dir fd) dir) := by
  unfold setMeta setMetaEffects setMetaBackup
  simp only [h, Stat_eq]
  have hpc : pendingName fd.Num ≠ CURRENT := pendingName_ne_CURRENT _
  have hcp : CURRENT ≠ pendingName fd.Num := fun e => hpc e.symm
  rcases opt_cases (dir.read CURRENT) with hc | ⟨b, hc⟩
  · simp only [hc, Option.isSome_none, Bool.false_eq_true, ite_false, writeFileSynced_eq]
    have h2 : (applyEffects (writeFileSyncedEffects (pendingName fd.Num) (name ++ [10])) dir).read
        CURRENT = none := by
      rw [read_writeFileSynced]; simp [hcp, hc]
    have h3 : (applyEffects (writeFileSyncedEffects (pendingName fd.Num) (name ++ [10])) dir).read
        (pendingName fd.Num) = some (name ++ [10]) := by
      rw [read_writeFileSynced]; simp
    simp only [rename, Stat_eq, h2, Option.isSome_none, Bool.false_eq_true, ite_false, osRename,
      h3, Option.isSome_some, ite_true, applyEffects_append, applyEffects_cons, applyEffects_nil]
  · simp only [hc, Option.isSome_some, ite_true]
    by_cases hb : b = name ++ [10]
    · simp [hb, applyEffects_nil]
    · simp only [hb, ite_false, writeFileSynced_eq]
      have hbc : CURRENTbak ≠ CURRENT := fun e => CURRENT_ne_CURRENTbak e.symm
      have h2 : (applyEffects (writeFileSyncedEffects (pendingName fd.Num) (name ++ [10]))
          (applyEffects (writeFileSyncedEffects CURRENTbak b) dir)).read CURRENT = some b := by
        rw [read_writeFileSynced, read_writeFileSynced]
        simp [hcp, CURRENT_ne_CURRENTbak, hc]
      have h3 : ((applyEffects (writeFileSyncedEffects (pendingName fd.Num) (name ++ [10]))
          (applyEffects (writeFileSyncedEffects CURRENTbak b) dir)).remove CURRENT).read
          (pendingName fd.Num) = some (name ++ [10]) := by
        rw [read_remove, read_writeFileSynced]
        simp [hpc]
      simp only [rename, Stat_eq, h2, Option.isSome_some, ite_true, osRemove, Effect.apply,
        osRename, h3, applyEffects_append, applyEffects_cons, applyEffects_nil]

/-- The directory `setMeta` leaves, file by file. -/
theorem read_setMeta (dir : Dir) (fd : FileDesc) (name : GoString) (h : fsGenName fd = some name)
    (m : GoString) :
    (setMeta dir fd).2.read m =
      if dir.read CURRENT = some (name ++ [10]) then dir.read m
      else if m = CURRENT then some (name ++ [10])
      else if m = pendingName fd.Num then none
      else if m = CURRENTbak then (dir.read CURRENT).orElse (fun _ => dir.read CURRENTbak)
      else dir.read m := by
  rw [setMeta_eq dir fd name h]
  unfold setMetaEffects
  simp only [h]
  have hpc : pendingName fd.Num ≠ CURRENT := pendingName_ne_CURRENT _
  have hpb : pendingName fd.Num ≠ CURRENTbak := pendingName_ne_CURRENTbak _
  have hbc : CURRENTbak ≠ CURRENT := fun e => CURRENT_ne_CURRENTbak e.symm
  have hs : ∀ d : Dir, Effect.apply d .sync = d := fun _ => rfl
  rcases opt_cases (dir.read CURRENT) with hc | ⟨b, hc⟩
  · simp only [hc, applyEffects_append, applyEffects_cons, applyEffects_nil, hs, Effect.apply,
      read_writeFileSynced, ite_true]
    by_cases h1 : m = CURRENT
    · subst h1; simp [read_write]
    · by_cases h2 : m = pendingName fd.Num
      · subst h2; simp [read_write, read_remove, h1]
      · by_cases h3 : m = CURRENTbak
        · subst h3; simp [read_write, read_remove, read_writeFileSynced, h1, h2]
        · simp [read_write, read_remove, read_writeFileSynced, h1, h2, h3]
  · simp only [hc]
    by_cases hb : b = name ++ [10]
    · simp [hb, applyEffects_nil]
    · have hb2 : ¬ some b = some (name ++ [10]) := by simpa using hb
      have hx : (Dir.remove (applyEffects (writeFileSyncedEffects (pendingName fd.Num)
          (name ++ [10])) (applyEffects (writeFileSyncedEffects CURRENTbak b) dir)) CURRENT).read
          (pendingName fd.Num) = some (name ++ [10]) := by
        rw [read_remove, read_writeFileSynced]; simp [hpc]
      simp only [hb, ite_false, applyEffects_append, applyEffects_cons, applyEffects_nil, hs,
        Effect.apply, hx, Option.some.injEq]
      by_cases h1 : m = CURRENT
      · subst h1; simp [read_write]
      · by_cases h2 : m = pendingName fd.Num
        · subst h2; simp [read_write, read_remove, h1]
        · by_cases h3 : m = CURRENTbak
          · subst h3; simp [read_write, read_remove, read_writeFileSynced, h1, h2]
          · simp [read_write, read_remove, read_writeFileSynced, h1, h2, h3]

/-! ## `GetMeta` -/

theorem accepted_spec (dir : Dir) (name : GoString) (fd : FileDesc)
    (h : accepted dir name = some fd) :
    ∃ s target, dir.read name = some (s ++ [10]) ∧ fsParseName s = (fd, true) ∧
      fsGenName fd = some target ∧ dir.Stat target = true := by
  unfold accepted at h
  split at h
  · simp at h
  · rename_i b hb
    split at h
    · rename_i hcond
      split at h
      · rename_i target ht
        split at h
        · rename_i hst
          simp only [Option.some.injEq] at h
          refine ⟨b.dropLast, target, ?_, ?_, ?_, hst⟩
          · rw [hb]
            congr 1
            have hne : b ≠ [] := by
              intro e; rw [e] at hcond; simp at hcond
            have := List.dropLast_append_getLast? 10 (by
              rw [Option.mem_def]; exact hcond.1)
            exact this.symm
          · rw [← h, ← hcond.2]
          · rw [← h]; exact ht
        · simp at h
      · simp at h
    · simp at h

theorem accepted_valid (dir : Dir) (name : GoString) (fd : FileDesc)
    (h : accepted dir name = some fd) : validType fd.Typ ∧ inInt64 fd.Num := by
  obtain ⟨s, _, _, hp, _, _⟩ := accepted_spec dir name fd h
  exact fsParseName_ok s fd hp

theorem firstAccepted_some (dir : Dir) (names : List GoString) (c : currentFile)
    (h : firstAccepted dir names = some c) : c.name ∈ names ∧ accepted dir c.name = some c.fd := by
  induction names with
  | nil => simp [firstAccepted] at h
  | cons n rest ih =>
    rw [firstAccepted_cons] at h
    cases ha : accepted dir n with
    | some fd =>
      simp only [ha, Option.some.injEq] at h
      subst h
      exact ⟨List.mem_cons_self _ _, ha⟩
    | none =>
      simp only [ha] at h
      exact ⟨List.mem_cons_of_mem _ (ih h).1, (ih h).2⟩

theorem firstAccepted_none (dir : Dir) (names : List GoString)
    (h : firstAccepted dir names = none) : ∀ n ∈ names, accepted dir n = none := by
  induction names with
  | nil => simp
  | cons n rest ih =>
    rw [firstAccepted_cons] at h
    cases ha : accepted dir n with
    | some fd => simp [ha] at h
    | none =>
      simp only [ha] at h
      intro x hx
      rcases List.mem_cons.mp hx with e | e
      · rw [e]; exact ha
      · exact ih h x e

theorem pendTry_eq (dir : Dir) : pendTry dir = tryCurrents dir (pendNames dir) := by
  unfold pendTry pendNames
  split
  · rfl
  · simp [tryCurrents, tryCurrentsLoop]

theorem restoreCurrent_fst (fs : aesgcmStorage) (dir : Dir) (cur : currentFile)
    (h : validType cur.fd.Typ) : (restoreCurrent fs dir cur).1 = .ok cur.fd := by
  obtain ⟨name, hn⟩ := fsGenName_isSome _ h
  unfold restoreCurrent
  split
  · rw [setMeta_eq dir cur.fd name hn]
  · rfl

/-- `GetMeta` on an open handle: the winner is restored and returned; without a
winner the error is `ErrCorrupted` when some candidate was structurally
corrupted and `os.ErrNotExist` otherwise. -/
theorem GetMeta_eq (fs : aesgcmStorage) (dir : Dir) (hopen : 0 ≤ fs.opened) :
    fs.GetMeta dir =
      match winner dir with
      | some w => restoreCurrent fs dir w
      | none =>
        (.error (if (candidates dir).any (structurallyCorrupted dir)
          then .ErrCorrupted else .ErrNotExist), dir) := by
  have hno : ¬ fs.opened < 0 := by omega
  unfold aesgcmStorage.GetMeta winner candidates
  rw [pendTry_eq, tryCurrents_eq, tryCurrents_eq]
  simp only [hno, ite_false]
  cases hp : firstAccepted dir (pendNames dir) with
  | some p =>
    cases hc : firstAccepted dir [CURRENT, CURRENTbak] with
    | some c => simp only []; split <;> rfl
    | none =>
      simp only []
      by_cases hx : List.any [CURRENT, CURRENTbak] (structurallyCorrupted dir) = true
      · simp [hx, isCorrupted]
      · simp [hx, isCorrupted]
  | none =>
    cases hc : firstAccepted dir [CURRENT, CURRENTbak] with
    | some c =>
      simp only []
      by_cases hx : List.any (pendNames dir) (structurallyCorrupted dir) = true
      · simp [hx, isCorrupted]
      · simp [hx, isCorrupted]
    | none =>
      simp only [List.any_append]
      by_cases hx : List.any (pendNames dir) (structurallyCorrupted dir) = true
      · by_cases hy : List.any [CURRENT, CURRENTbak] (structurallyCorrupted dir) = true
        · simp [hx, hy, isCorrupted]
        · simp [hx, hy, isCorrupted]
      · by_cases hy : List.any [CURRENT, CURRENTbak] (structurallyCorrupted dir) = true
        · simp [hx, hy, isCorrupted]
        · simp [hx, hy, isCorrupted]

theorem winner_valid (dir : Dir) (w : currentFile) (h : winner dir = some w) :
    accepted dir w.name = some w.fd ∧ (w.name ∈ pendNames dir ∨ w.name = CURRENT ∨
      w.name = CURRENTbak) := by
  unfold winner at h
  cases hp : firstAccepted dir (pendNames dir) with
  | some p =>
    have hp2 := firstAccepted_some _ _ _ hp
    cases hc : firstAccepted dir [CURRENT, CURRENTbak] with
    | some c =>
      have hc2 := firstAccepted_some _ _ _ hc
      simp only [hp, hc] at h
      split at h
      · simp only [Option.some.injEq] at h; subst h; exact ⟨hp2.2, Or.inl hp2.1⟩
      · simp only [Option.some.injEq] at h; subst h
        refine ⟨hc2.2, Or.inr ?_⟩
        simpa using hc2.1
    | none =>
      simp only [hp, hc, Option.some.injEq] at h; subst h; exact ⟨hp2.2, Or.inl hp2.1⟩
  | none =>
    cases hc : firstAccepted dir [CURRENT, CURRENTbak] with
    | some c =>
      have hc2 := firstAccepted_some _ _ _ hc
      simp only [hp, hc, Option.some.injEq] at h; subst h
      refine ⟨hc2.2, Or.inr ?_⟩
      simpa using hc2.1
    | none => simp [hp, hc] at h

/-- The value `GetMeta` returns on an open handle. -/
theorem GetMeta_fst (fs : aesgcmStorage) (dir : Dir) (hopen : 0 ≤ fs.opened) :
    (fs.GetMeta dir).1 =
      match winner dir with
      | some w => .ok w.fd
      | none =>
        .error (if (candidates dir).any (structurallyCorrupted dir)
          then .ErrCorrupted else .ErrNotExist) := by
  rw [GetMeta_eq fs dir hopen]
  cases h : winner dir with
  | some w =>
    simp only []
    exact restoreCurrent_fst fs dir w (accepted_valid _ _ _ (winner_valid dir w h).1).1
  | none => rfl

/-! ## The writer -/

theorem toyAEAD_open_seal (key n p ad : GoString) :
    toyAEAD.Open key n (toyAEAD.Seal key n p ad) ad = some p := by
  simp [toyAEAD]

theorem read_fileTruncate (dir : Dir) (name : GoString) (h : dir.read name ≠ none) :
    (fileTruncate dir name).read name = some [] := by
  unfold fileTruncate
  rcases opt_cases (dir.read name) with e | ⟨c, e⟩
  · exact absurd e h
  · simp [e, read_write]

theorem read_fileWriteAt (dir : Dir) (name c data : GoString) (off : Nat)
    (h : dir.read name = some c) :
    (fileWriteAt dir name off data).read name =
      some (c.take off ++ List.replicate (off - c.length) 0 ++ data ++
        c.drop (off + data.length)) := by
  unfold fileWriteAt
  simp [h, read_write]

/-- A `Sync` that succeeds leaves exactly nonce and sealed buffer in the file. -/
theorem Sync_ok (gcm : AEAD) (fs : aesgcmStorage) (D : FileDesc) (name buf : GoString)
    (s : aesgcmWriter × Dir) (rnd : GoString) (hn : fsGenName D = some name)
    (hinv : writerInv D name buf s) (hlen : rnd.length = gcm.NonceSize) :
    (aesgcmWriter.Sync gcm fs s.1 s.2 rnd).1 = .ok () ∧
    writerInv D name buf (aesgcmWriter.Sync gcm fs s.1 s.2 rnd).2 ∧
    (aesgcmWriter.Sync gcm fs s.1 s.2 rnd).2.2.read name =
      some (rnd ++ gcm.Seal fs.key rnd buf (fdGenAD D)) := by
  obtain ⟨hfd, hcl, hbuf, hex⟩ := hinv
  have h1 := read_fileTruncate s.2 name hex
  have h2 := read_fileWriteAt (fileTruncate s.2 name) name [] rnd 0 h1
  simp only [List.take_nil, List.length_nil, Nat.sub_self, List.replicate_zero, List.append_nil,
    List.nil_append, List.drop_nil] at h2
  have h3 := read_fileWriteAt _ name rnd (gcm.Seal fs.key rnd buf (fdGenAD D)) (0 + rnd.length) h2
  have e1 : rnd.take (0 + rnd.length) = rnd := by simp
  have e2 : rnd.drop (0 + rnd.length + (gcm.Seal fs.key rnd buf (fdGenAD D)).length) = [] := by
    apply List.drop_of_length_le; omega
  rw [e1, e2] at h3
  simp only [Nat.zero_add, Nat.sub_self, List.replicate_zero, List.append_nil] at h3
  rw [hlen] at h3
  unfold aesgcmWriter.Sync
  simp only [hfd, hn, hcl, Bool.false_eq_true, ite_false, hlen, ne_eq, not_true_eq_false,
    hbuf, true_and, Nat.zero_add]
  refine ⟨?_, ?_⟩
  · refine ⟨rfl, rfl, rfl, ?_⟩
    show Dir.read _ name ≠ none
    rw [h3]; simp
  · exact h3

/-- Any `Sync` keeps the writer open and its file in place. -/
theorem Sync_inv (gcm : AEAD) (fs : aesgcmStorage) (D : FileDesc) (name buf : GoString)
    (s : aesgcmWriter × Dir) (rnd : GoString) (hn : fsGenName D = some name)
    (hinv : writerInv D name buf s) :
    writerInv D name buf (aesgcmWriter.Sync gcm fs s.1 s.2 rnd).2 := by
  by_cases hlen : rnd.length = gcm.NonceSize
  · exact (Sync_ok gcm fs D name buf s rnd hn hinv hlen).2.1
  · obtain ⟨hfd, hcl, hbuf, hex⟩ := hinv
    have h1 := read_fileTruncate s.2 name hex
    unfold aesgcmWriter.Sync
    simp only [hfd, hn, hcl, Bool.false_eq_true, ite_false, ne_eq, hlen, not_false_eq_true,
      ite_true]
    refine ⟨rfl, rfl, hbuf, ?_⟩
    show Dir.read _ name ≠ none
    rw [h1]; simp

theorem runOps_inv (gcm : AEAD) (fs : aesgcmStorage) (D : FileDesc) (name : GoString)
    (hn : fsGenName D = some name) (ops : List WriterOp) :
    ∀ (buf : GoString) (s : aesgcmWriter × Dir), writerInv D name buf s →
      writerInv D name (buf ++ written ops) (runOps gcm fs s ops) := by
  induction ops with
  | nil => intro buf s h; simpa [runOps, written] using h
  | cons op rest ih =>
    intro buf s h
    have hstep : runOps gcm fs s (op :: rest) = runOps gcm fs (runOp gcm fs s op) rest := rfl
    rw [hstep]
    cases op with
    | write p =>
      have h2 : writerInv D name (buf ++ p) (runOp gcm fs s (.write p)) := by
        obtain ⟨hfd, hcl, hbuf, hex⟩ := h
        exact ⟨hfd, hcl, by simp [runOp, aesgcmWriter.Write, hbuf], hex⟩
      have := ih (buf ++ p) _ h2
      simpa [written, List.append_assoc] using this
    | sync rnd =>
      have h2 : writerInv D name buf (runOp gcm fs s (.sync rnd)) :=
        Sync_inv gcm fs D name buf s rnd hn h
      have := ih buf _ h2
      simpa [written] using this

theorem Create_ok (fs fs1 : aesgcmStorage) (dir dir1 : Dir) (D : FileDesc) (w : aesgcmWriter)
    (h : fs.Create dir D = (.ok w, fs1, dir1)) :
    FileDescOk D = true ∧ fs1.key = fs.key ∧
      ∃ name, fsGenName D = some name ∧ writerInv D name [] (w, dir1) := by
  unfold aesgcmStorage.Create at h
  split at h
  · simp at h
  · rename_i hok
    split at h
    · simp at h
    · split at h
      · simp at h
      · split at h
        · simp at h
        · rename_i name hn
          simp only [Prod.mk.injEq, Res.ok.injEq] at h
          obtain ⟨hw, hfs, hd⟩ := h
          refine ⟨by simpa using hok, by rw [← hfs], name, hn, ?_⟩
          rw [← hw, ← hd]
          exact ⟨rfl, rfl, rfl, by simp [Effect.apply, read_write]⟩

/-! ## Accepting a pointer file -/

theorem accepted_of (dir : Dir) (x s target : GoString) (fd : FileDesc)
    (hr : dir.read x = some (s ++ [10])) (hp : fsParseName s = (fd, true))
    (hn : fsGenName fd = some target) (hs : dir.Stat target = true) :
    accepted dir x = some fd := by
  unfold accepted
  simp [hr, hp, hn, hs]

theorem accepted_none_of_read (dir : Dir) (x : GoString) (h : dir.read x = none) :
    accepted dir x = none := by
  unfold accepted; simp [h]

theorem firstAccepted_eq_none (dir : Dir) (names : List GoString)
    (h : ∀ n ∈ names, accepted dir n = none) : firstAccepted dir names = none := by
  induction names with
  | nil => rfl
  | cons n rest ih =>
    rw [firstAccepted_cons, h n (List.mem_cons_self _ _)]
    exact ih (fun x hx => h x (List.mem_cons_of_mem _ hx))

/-- With at most one name of a list accepted, the first accepted name is that one. -/
theorem firstAccepted_unique (dir : Dir) (names : List GoString) (x : GoString)
    (hother : ∀ n ∈ names, n ≠ x → accepted dir n = none)
    (hmem : accepted dir x ≠ none → x ∈ names) :
    firstAccepted dir names = (accepted dir x).map (currentFile.mk x) := by
  induction names with
  | nil =>
    have : accepted dir x = none := by
      by_contra hne; exact absurd (hmem hne) (List.not_mem_nil _)
    simp [firstAccepted, this]
  | cons n rest ih =>
    rw [firstAccepted_cons]
    by_cases hnx : n = x
    · subst hnx
      cases ha : accepted dir n with
      | some fd => simp
      | none =>
        simp only [Option.map_none']
        exact firstAccepted_eq_none dir rest (fun y hy => by
          by_cases hyn : y = n
          · rw [hyn]; exact ha
          · exact hother y (List.mem_cons_of_mem _ hy) hyn)
    · rw [hother n (List.mem_cons_self _ _) hnx]
      simp only []
      apply ih (fun y hy => hother y (List.mem_cons_of_mem _ hy))
      intro hne
      rcases List.mem_cons.mp (hmem hne) with e | e
      · exact absurd e.symm hnx
      · exact e

theorem mem_pendNames_of_read (dir : Dir) (n : Int) (hn : inInt64 n)
    (h : dir.read (pendingName n) ≠ none) : pendingName n ∈ pendNames dir := by
  rw [mem_pendNames]
  exact ⟨n, mem_pendingNums_of_pendingName _ n hn ((mem_names_iff _ _).mpr h), rfl⟩

theorem pendNames_inInt64 (dir : Dir) (x : GoString) (h : x ∈ pendNames dir) :
    ∃ n, inInt64 n ∧ x = pendingName n := by
  rw [mem_pendNames] at h
  obtain ⟨n, hn, e⟩ := h
  exact ⟨n, inInt64_of_mem_pendingNums _ n hn, e⟩

/-- No pending file in the directory: no pending file is accepted. -/
theorem firstAccepted_pendNames_none (dir : Dir)
    (h : ∀ N, inInt64 N → dir.read (pendingName N) = none) :
    firstAccepted dir (pendNames dir) = none := by
  apply firstAccepted_eq_none
  intro x hx
  obtain ⟨n, hn, e⟩ := pendNames_inInt64 dir x hx
  rw [e]
  exact accepted_none_of_read dir _ (h n hn)

/-- With at most the pending file `CURRENT.<b>` in the directory, the pending
file accepted is that one, when it is accepted. -/
theorem firstAccepted_pendNames_unique (dir : Dir) (b : Int) (hb : inInt64 b)
    (h : ∀ N, inInt64 N → pendingName N ≠ pendingName b → dir.read (pendingName N) = none) :
    firstAccepted dir (pendNames dir) =
      (accepted dir (pendingName b)).map (currentFile.mk (pendingName b)) := by
  apply firstAccepted_unique
  · intro x hx hne
    obtain ⟨n, hn, e⟩ := pendNames_inInt64 dir x hx
    rw [e] at hne ⊢
    exact accepted_none_of_read dir _ (h n hn hne)
  · intro hne
    apply mem_pendNames_of_read dir b hb
    intro hr
    exact hne (accepted_none_of_read dir _ hr)

theorem winner_of_current (dir : Dir) (A : FileDesc)
    (hp : firstAccepted dir (pendNames dir) = none) (hc : accepted dir CURRENT = some A) :
    winner dir = some ⟨CURRENT, A⟩ := by
  unfold winner
  rw [hp, firstAccepted_cons, hc]

theorem read_osRemove (dir : Dir) (name m : GoString) :
    (osRemove dir name).2.read m = if m = name then none else dir.read m := by
  unfold osRemove
  by_cases h : dir.Stat name = true
  · simp [h, Effect.apply, read_remove]
  · simp only [h, Bool.false_eq_true, ite_false]
    by_cases hm : m = name
    · subst hm
      rw [Stat_eq] at h
      simpa using h
    · simp [hm]

theorem read_removeAll (names : List GoString) (dir : Dir) (m : GoString) :
    (removeAll dir names).read m = if m ∈ names then none else dir.read m := by
  induction names generalizing dir with
  | nil => simp [removeAll]
  | cons n rest ih =>
    have e : removeAll dir (n :: rest) = removeAll (osRemove dir n).2 rest := rfl
    rw [e, ih, read_osRemove]
    by_cases h1 : m ∈ rest
    · simp [h1]
    · by_cases h2 : m = n
      · simp [h2]
      · simp [h1, h2]

theorem Close_ok (gcm : AEAD) (fs : aesgcmStorage) (w : aesgcmWriter) (dir : Dir) (rnd : GoString)
    (h : (aesgcmWriter.Close gcm fs w dir rnd).1 = .ok ()) :
    (aesgcmWriter.Sync gcm fs w dir rnd).1 = .ok () ∧
      (aesgcmWriter.Close gcm fs w dir rnd).2.2.2 = (aesgcmWriter.Sync gcm fs w dir rnd).2.2 := by
  unfold aesgcmWriter.Close at h ⊢
  split at h
  · rename_i u w1 dir1 heq
    rw [heq]
    split at h
    · simp at h
    · rename_i hcl
      simp [hcl]
  · simp at h
  · simp at h

theorem Sync_ok_length (gcm : AEAD) (fs : aesgcmStorage) (w : aesgcmWriter) (dir : Dir)
    (rnd : GoString) (h : (aesgcmWriter.Sync gcm fs w dir rnd).1 = .ok ()) :
    rnd.length = gcm.NonceSize := by
  unfold aesgcmWriter.Sync at h
  split at h
  · simp at h
  · split at h
    · simp at h
    · by_contra hne
      simp [hne] at h

/-- A successful `Sync` on a writer reached from `Create` writes exactly the
nonce followed by the sealed bytes written so far. -/
theorem Sync_content (gcm : AEAD) (fs : aesgcmStorage) (D : FileDesc) (name : GoString)
    (w : aesgcmWriter) (dir1 : Dir) (hn : fsGenName D = some name)
    (hinv : writerInv D name [] (w, dir1)) (ops : List WriterOp) (r : GoString)
    (h : (aesgcmWriter.Sync gcm fs (runOps gcm fs (w, dir1) ops).1
      (runOps gcm fs (w, dir1) ops).2 r).1 = .ok ()) :
    (aesgcmWriter.Sync gcm fs (runOps gcm fs (w, dir1) ops).1
      (runOps gcm fs (w, dir1) ops).2 r).2.2.read name =
      some (r ++ gcm.Seal fs.key r (written ops) (fdGenAD D)) := by
  have hlen := Sync_ok_length gcm fs _ _ r h
  have hi := runOps_inv gcm fs D name hn ops [] (w, dir1) hinv
  simp only [List.nil_append] at hi
  exact (Sync_ok gcm fs D name (written ops) _ r hn hi hlen).2.2

theorem Open_of_content (gcm : AEAD) (fs : aesgcmStorage) (dir : Dir) (D : FileDesc)
    (name nonce box plain : GoString) (hok : FileDescOk D = true) (hopen : 0 ≤ fs.opened)
    (hn : fsGenName D = some name) (hr : dir.read name = some (nonce ++ box))
    (hlen : nonce.length = gcm.NonceSize)
    (hdec : gcm.Open fs.key nonce box (fdGenAD D) = some plain) :
    (aesgcmStorage.Open gcm fs dir D).1 = .ok ⟨plain, D⟩ := by
  have hno : ¬ fs.opened < 0 := by omega
  have h1 : ¬ (nonce ++ box).length < gcm.NonceSize := by simp; omega
  have h2 : (nonce ++ box).take gcm.NonceSize = nonce := by rw [← hlen]; simp
  have h3 : (nonce ++ box).drop gcm.NonceSize = box := by rw [← hlen]; simp
  unfold aesgcmStorage.Open
  simp only [hok, Bool.not_true, Bool.false_eq_true, ite_false, hno, hn, hr, h1, h2, h3, hdec]

/-- The round trip of the name codec on a valid descriptor. -/
theorem parse_gen_valid (d : FileDesc) (hok : FileDescOk d = true)
    (hmax : d.Num ≤ 2 ^ 63 - 1) :
    ∃ name, fsGenName d = some name ∧ fsParseName name = (d, true) := by
  rw [FileDescOk_iff] at hok
  apply fsParseName_fsGenName d hok.1
  unfold inInt64
  constructor
  · have := hok.2; norm_num; omega
  · omega

/-! ## The claims -/

/-- C1: for every valid descriptor d (kind Manifest, Journal, Table or Temp,
number between 0 and 2^63-1), `fsParseName (fsGenName d)` reports ok and
returns exactly d. -/
theorem C1_parse_of_gen (d : FileDesc) (hok : FileDescOk d = true) (hmax : d.Num ≤ 2 ^ 63 - 1) :
    ∃ name, fsGenName d = some name ∧ fsParseName name = (d, true) :=
  parse_gen_valid d hok hmax

theorem C1_parse_of_gen_witness :
    ∃ name, fsGenName ⟨TypeJournal, 100⟩ = some name ∧
      fsParseName name = (⟨TypeJournal, 100⟩, true) :=
  C1_parse_of_gen ⟨TypeJournal, 100⟩ (by decide) (by decide)

/-- C2: the bytes delivered to the writer of `Create(D)` by any sequence of
`Write` and `Sync` calls are what `Open(D)` under the same key decrypts once
`Close` has succeeded, for an AEAD with `Open (Seal p) = p`; the file then
holds exactly nonce ++ Seal(all bytes written), and so does it after every
`Sync` that succeeds on the way (the whole file is replaced, nothing appended). -/
theorem C2_write_close_open (gcm : AEAD) (fs fs1 fsR : aesgcmStorage) (dir dir1 : Dir)
    (D : FileDesc) (w : aesgcmWriter) (ops : List WriterOp) (rnd : GoString)
    (haead : ∀ n p ad, gcm.Open fs.key n (gcm.Seal fs.key n p ad) ad = some p)
    (hcreate : fs.Create dir D = (.ok w, fs1, dir1))
    (hclose : (aesgcmWriter.Close gcm fs1 (runOps gcm fs1 (w, dir1) ops).1
      (runOps gcm fs1 (w, dir1) ops).2 rnd).1 = .ok ())
    (hkey : fsR.key = fs.key) (hR : 0 ≤ fsR.opened) :
    (aesgcmStorage.Open gcm fsR (aesgcmWriter.Close gcm fs1 (runOps gcm fs1 (w, dir1) ops).1
      (runOps gcm fs1 (w, dir1) ops).2 rnd).2.2.2 D).1 = .ok ⟨written ops, D⟩ ∧
    ∃ name, fsGenName D = some name ∧
      (aesgcmWriter.Close gcm fs1 (runOps gcm fs1 (w, dir1) ops).1
        (runOps gcm fs1 (w, dir1) ops).2 rnd).2.2.2.read name =
        some (rnd ++ gcm.Seal fs.key rnd (written ops) (fdGenAD D)) ∧
      ∀ (pre : List WriterOp) (r : GoString),
        (aesgcmWriter.Sync gcm fs1 (runOps gcm fs1 (w, dir1) pre).1
          (runOps gcm fs1 (w, dir1) pre).2 r).1 = .ok () →
        (aesgcmWriter.Sync gcm fs1 (runOps gcm fs1 (w, dir1) pre).1
          (runOps gcm fs1 (w, dir1) pre).2 r).2.2.read name =
          some (r ++ gcm.Seal fs.key r (written pre) (fdGenAD D)) := by
  obtain ⟨hok, hk1, name, hn, hinv⟩ := Create_ok fs fs1 dir dir1 D w hcreate
  obtain ⟨hs, hd⟩ := Close_ok gcm fs1 _ _ rnd hclose
  have hc := Sync_content gcm fs1 D name w dir1 hn hinv ops rnd hs
  rw [hk1] at hc
  have hlen := Sync_ok_length gcm fs1 _ _ rnd hs
  rw [hd]
  refine ⟨?_, name, hn, hc, ?_⟩
  · apply Open_of_content gcm fsR _ D name rnd _ (written ops) hok hR hn hc hlen
    rw [hkey]; exact haead _ _ _
  · intro pre r hpre
    have := Sync_content gcm fs1 D name w dir1 hn hinv pre r hpre
    rw [hk1] at this
    exact this

theorem C2_write_close_open_witness :
    (aesgcmStorage.Open toyAEAD ⟨true, none, 0, [1, 2], 0⟩
      (aesgcmWriter.Close toyAEAD ⟨false, none, 1, [1, 2], 0⟩
        (runOps toyAEAD ⟨false, none, 1, [1, 2], 0⟩
          (⟨[], ⟨TypeJournal, 7⟩, false, 0⟩, [(str "000007.log", [])])
          [.write [10, 11], .sync [3, 4], .write [12]]).1
        (runOps toyAEAD ⟨false, none, 1, [1, 2], 0⟩
          (⟨[], ⟨TypeJournal, 7⟩, false, 0⟩, [(str "000007.log", [])])
          [.write [10, 11], .sync [3, 4], .write [12]]).2 [5, 6]).2.2.2
      ⟨TypeJournal, 7⟩).1 = .ok ⟨[10, 11, 12], ⟨TypeJournal, 7⟩⟩ :=
  (C2_write_close_open toyAEAD ⟨false, none, 0, [1, 2], 0⟩ ⟨false, none, 1, [1, 2], 0⟩
    ⟨true, none, 0, [1, 2], 0⟩ [] [(str "000007.log", [])] ⟨TypeJournal, 7⟩
    ⟨[], ⟨TypeJournal, 7⟩, false, 0⟩ [.write [10, 11], .sync [3, 4], .write [12]] [5, 6]
    (fun n p ad => toyAEAD_open_seal _ n p ad) (by decide) (by decide) rfl (by decide)).1

/-- C3, as the code has it: when the AEAD rejects the stored bytes inside
`Open(fd)`, `Open` returns no reader and hands back the cipher's own error
unchanged, which is not a `*storage.ErrCorrupted` (`isCorrupted` is false on
it); the handle is left as it was. -/
theorem C3_open_auth_failure (gcm : AEAD) (fs : aesgcmStorage) (dir : Dir) (fd : FileDesc)
    (name crypt : GoString) (hok : FileDescOk fd = true) (hopen : 0 ≤ fs.opened)
    (hn : fsGenName fd = some name) (hr : dir.read name = some crypt)
    (hlen : gcm.NonceSize ≤ crypt.length)
    (hauth : gcm.Open fs.key (crypt.take gcm.NonceSize) (crypt.drop gcm.NonceSize)
      (fdGenAD fd) = none) :
    aesgcmStorage.Open gcm fs dir fd = (.error .errOpen, fs) ∧ isCorrupted .errOpen = false := by
  have hno : ¬ fs.opened < 0 := by omega
  have h1 : ¬ crypt.length < gcm.NonceSize := by omega
  refine ⟨?_, rfl⟩
  unfold aesgcmStorage.Open
  simp only [hok, Bool.not_true, Bool.false_eq_true, ite_false, hno, hn, hr, h1, hauth]

theorem C3_open_auth_failure_witness :
    aesgcmStorage.Open toyAEAD ⟨false, none, 0, [1, 2], 0⟩
        [(str "000007.log", [3, 4, 0, 10, 11])] ⟨TypeJournal, 7⟩
      = (.error .errOpen, ⟨false, none, 0, [1, 2], 0⟩) ∧ isCorrupted .errOpen = false :=
  C3_open_auth_failure toyAEAD ⟨false, none, 0, [1, 2], 0⟩
    [(str "000007.log", [3, 4, 0, 10, 11])] ⟨TypeJournal, 7⟩ (str "000007.log")
    [3, 4, 0, 10, 11] (by decide) (by decide) (by decide) (by decide) (by decide) (by decide)

/-- C3 fails as stated: the file of Journal 7 holds bytes sealed for Journal 8
(nonce 3 4, plain text 10 11); the AEAD rejects them in `Open(Journal 7)`, no
reader is returned, and the error returned is not of the Corrupted class. -/
theorem C3_counterexample :
    toyAEAD.Open [1, 2] [3, 4] (toyAEAD.Seal [1, 2] [3, 4] [10, 11] (fdGenAD ⟨TypeJournal, 8⟩))
        (fdGenAD ⟨TypeJournal, 7⟩) = none ∧
    ∃ e, (aesgcmStorage.Open toyAEAD ⟨false, none, 0, [1, 2], 0⟩
        [(str "000007.log",
          [3, 4] ++ toyAEAD.Seal [1, 2] [3, 4] [10, 11] (fdGenAD ⟨TypeJournal, 8⟩))]
        ⟨TypeJournal, 7⟩).1 = .error e ∧ isCorrupted e = false :=
  ⟨by decide, .errOpen, by decide, by decide⟩

/-- C4: `fdGenAD` is injective on valid descriptors: two valid descriptors that
differ in kind or in number have different associated data. -/
theorem C4_fdGenAD_injective (d1 d2 : FileDesc) (h1 : FileDescOk d1 = true)
    (h2 : FileDescOk d2 = true) (m1 : d1.Num ≤ 2 ^ 63 - 1) (m2 : d2.Num ≤ 2 ^ 63 - 1)
    (hne : d1 ≠ d2) : fdGenAD d1 ≠ fdGenAD d2 :=
  fun h => hne (fdGenAD_inj d1 d2 h1 h2 m1 m2 h)

theorem C4_fdGenAD_injective_witness :
    fdGenAD ⟨TypeManifest, 256⟩ ≠ fdGenAD ⟨TypeManifest, 1⟩ :=
  C4_fdGenAD_injective ⟨TypeManifest, 256⟩ ⟨TypeManifest, 1⟩ (by decide) (by decide)
    (by decide) (by decide) (by decide)

theorem SetMeta_ok (fs : aesgcmStorage) (dir dir1 : Dir) (fd : FileDesc)
    (h : fs.SetMeta dir fd = (.ok (), dir1)) :
    FileDescOk fd = true ∧ fs.readOnly = false ∧ 0 ≤ fs.opened ∧ setMeta dir fd = (.ok (), dir1) := by
  unfold aesgcmStorage.SetMeta at h
  split at h
  · simp at h
  · rename_i hok
    split at h
    · simp at h
    · rename_i hro
      split at h
      · simp at h
      · rename_i ho
        exact ⟨by simpa using hok, by simpa using hro, by omega, h⟩

theorem read_CURRENT_setMeta (dir : Dir) (fd : FileDesc) (name : GoString)
    (h : fsGenName fd = some name) : (setMeta dir fd).2.read CURRENT = some (name ++ [10]) := by
  rw [read_setMeta dir fd name h]
  by_cases hc : dir.read CURRENT = some (name ++ [10])
  · simp [hc]
  · simp [hc]

theorem setMeta_noop (dir : Dir) (fd : FileDesc) (name : GoString)
    (h : fsGenName fd = some name) (hc : dir.read CURRENT = some (name ++ [10])) :
    setMeta dir fd = (.ok (), dir) ∧ setMetaEffects dir fd = [] := by
  unfold setMeta setMetaBackup setMetaEffects
  simp [h, hc, Stat_eq]

/-- C7: a second `SetMeta(fd)` right after a successful `SetMeta(fd)` returns
nil, has no effect on the file system, and leaves the directory unchanged. -/
theorem C7_SetMeta_idempotent (fs : aesgcmStorage) (dir dir1 : Dir) (fd : FileDesc)
    (h : fs.SetMeta dir fd = (.ok (), dir1)) :
    fs.SetMeta dir1 fd = (.ok (), dir1) ∧ setMetaEffects dir1 fd = [] := by
  obtain ⟨hok, hro, hopen, hset⟩ := SetMeta_ok fs dir dir1 fd h
  obtain ⟨name, hn⟩ := fsGenName_isSome fd ((FileDescOk_iff fd).mp hok).1
  have hc := read_CURRENT_setMeta dir fd name hn
  rw [hset] at hc
  have hno : ¬ fs.opened < 0 := by omega
  obtain ⟨e1, e2⟩ := setMeta_noop dir1 fd name hn hc
  refine ⟨?_, e2⟩
  unfold aesgcmStorage.SetMeta
  simp only [hok, Bool.not_true, Bool.false_eq_true, ite_false, hro, hno, e1]

theorem C7_SetMeta_idempotent_witness :
    aesgcmStorage.SetMeta ⟨false, none, 0, [], 0⟩
        (aesgcmStorage.SetMeta ⟨false, none, 0, [], 0⟩ [(str "MANIFEST-000003", [1])]
          ⟨TypeManifest, 3⟩).2 ⟨TypeManifest, 3⟩
      = (.ok (), (aesgcmStorage.SetMeta ⟨false, none, 0, [], 0⟩ [(str "MANIFEST-000003", [1])]
          ⟨TypeManifest, 3⟩).2) ∧
    setMetaEffects (aesgcmStorage.SetMeta ⟨false, none, 0, [], 0⟩ [(str "MANIFEST-000003", [1])]
          ⟨TypeManifest, 3⟩).2 ⟨TypeManifest, 3⟩ = [] :=
  C7_SetMeta_idempotent ⟨false, none, 0, [], 0⟩ [(str "MANIFEST-000003", [1])] _
    ⟨TypeManifest, 3⟩ (by decide)

/-- `GetMeta` on an open handle returns the descriptor of `CURRENT` when that
file is accepted and no pending file is. -/
theorem GetMeta_of_current (fs : aesgcmStorage) (dir : Dir) (A : FileDesc)
    (hopen : 0 ≤ fs.opened) (hp : firstAccepted dir (pendNames dir) = none)
    (hc : accepted dir CURRENT = some A) : (fs.GetMeta dir).1 = .ok A := by
  rw [GetMeta_fst fs dir hopen, winner_of_current dir A hp hc]

theorem read_pending_setMeta (dir : Dir) (fd : FileDesc) (name : GoString)
    (h : fsGenName fd = some name) (N : Int) (hN : dir.read (pendingName N) = none) :
    (setMeta dir fd).2.read (pendingName N) = none := by
  rw [read_setMeta dir fd name h]
  by_cases hc : dir.read CURRENT = some (name ++ [10])
  · simp [hc, hN]
  · simp [hc, hN, pendingName_ne_CURRENT, pendingName_ne_CURRENTbak]

theorem read_file_setMeta (dir : Dir) (fd fd2 : FileDesc) (name target : GoString)
    (h : fsGenName fd = some name) (ht : fsGenName fd2 = some target) :
    (setMeta dir fd).2.read target = dir.read target := by
  rw [read_setMeta dir fd name h]
  simp [fsGenName_ne_CURRENT fd2 target ht, fsGenName_ne_CURRENTbak fd2 target ht,
    fsGenName_ne_pendingName fd2 target fd.Num ht]

/-- C6: on a directory without pending `CURRENT.<N>` files and for a descriptor
fd whose file exists, when `SetMeta(fd)` returns nil the next `GetMeta`
returns fd with no error, whatever `CURRENT` named before. -/
theorem C6_SetMeta_then_GetMeta (fs : aesgcmStorage) (dir dir1 : Dir) (fd : FileDesc)
    (name : GoString) (hpend : ∀ N, inInt64 N → dir.read (pendingName N) = none)
    (hmax : fd.Num ≤ 2 ^ 63 - 1) (hname : fsGenName fd = some name)
    (hfile : dir.Stat name = true) (hset : fs.SetMeta dir fd = (.ok (), dir1)) :
    (fs.GetMeta dir1).1 = .ok fd := by
  obtain ⟨hok, hro, hopen, hsm⟩ := SetMeta_ok fs dir dir1 fd hset
  have hd : dir1 = (setMeta dir fd).2 := by rw [hsm]
  obtain ⟨name2, hn2, hparse⟩ := parse_gen_valid fd hok hmax
  have e : name2 = name := by rw [hn2] at hname; exact Option.some.inj hname
  subst e
  apply GetMeta_of_current fs dir1 fd hopen
  · apply firstAccepted_pendNames_none
    intro N hN
    rw [hd]
    exact read_pending_setMeta dir fd name2 hn2 N (hpend N hN)
  · apply accepted_of dir1 CURRENT name2 name2 fd _ hparse hn2
    · rw [hd, Stat_eq, read_file_setMeta dir fd fd name2 name2 hn2 hn2, ← Stat_eq]
      exact hfile
    · rw [hd]; exact read_CURRENT_setMeta dir fd name2 hn2

theorem C6_SetMeta_then_GetMeta_witness :
    (aesgcmStorage.GetMeta ⟨false, none, 0, [], 0⟩
      (aesgcmStorage.SetMeta ⟨false, none, 0, [], 0⟩
        [(str "MANIFEST-000003", [1]), (str "CURRENT", str "MANIFEST-000009\n"),
          (str "MANIFEST-000009", [1])] ⟨TypeManifest, 3⟩).2).1 = .ok ⟨TypeManifest, 3⟩ :=
  C6_SetMeta_then_GetMeta ⟨false, none, 0, [], 0⟩
    [(str "MANIFEST-000003", [1]), (str "CURRENT", str "MANIFEST-000009\n"),
      (str "MANIFEST-000009", [1])] _ ⟨TypeManifest, 3⟩ (str "MANIFEST-000003")
    (by
      intro N _
      simp only [Dir.read]
      rw [if_neg (fsGenName_ne_pendingName ⟨TypeManifest, 3⟩ _ N (by decide)),
        if_neg (fun e => pendingName_ne_CURRENT N e.symm),
        if_neg (fsGenName_ne_pendingName ⟨TypeManifest, 9⟩ _ N (by decide))])
    (by decide) (by decide) (by decide) (by decide)

/-- C9: when `GetMeta` accepts no candidate pointer file, it returns a
Corrupted error exactly when some candidate it read exists and is structurally
corrupted (empty, not newline-terminated, or not a decodable name), and
`os.ErrNotExist` otherwise. -/
theorem C9_GetMeta_no_candidate (fs : aesgcmStorage) (dir : Dir) (hopen : 0 ≤ fs.opened)
    (hnone : ∀ x ∈ candidates dir, accepted dir x = none) :
    ((∃ x ∈ candidates dir, structurallyCorrupted dir x = true) →
      (fs.GetMeta dir).1 = .error .ErrCorrupted) ∧
    ((¬ ∃ x ∈ candidates dir, structurallyCorrupted dir x = true) →
      (fs.GetMeta dir).1 = .error .ErrNotExist) ∧
    ((∃ e, (fs.GetMeta dir).1 = .error e ∧ isCorrupted e = true) ↔
      ∃ x ∈ candidates dir, structurallyCorrupted dir x = true) := by
  have hw : winner dir = none := by
    unfold winner
    rw [firstAccepted_eq_none dir (pendNames dir)
        (fun x hx => hnone x (by unfold candidates; exact List.mem_append_left _ hx)),
      firstAccepted_eq_none dir [CURRENT, CURRENTbak]
        (fun x hx => hnone x (by unfold candidates; exact List.mem_append_right _ hx))]
  have hg := GetMeta_fst fs dir hopen
  rw [hw] at hg
  simp only [List.any_eq_true] at hg
  by_cases hx : ∃ x ∈ candidates dir, structurallyCorrupted dir x = true
  · simp only [hx, ite_true] at hg
    refine ⟨fun _ => hg, fun h => absurd hx h, ?_⟩
    constructor
    · intro _; exact hx
    · intro _; exact ⟨.ErrCorrupted, hg, rfl⟩
  · simp only [hx, ite_false] at hg
    refine ⟨fun h => absurd h hx, fun _ => hg, ?_⟩
    constructor
    · rintro ⟨e, he, hc⟩
      rw [hg] at he
      simp only [Res.error.injEq] at he
      rw [← he] at hc
      simp [isCorrupted] at hc
    · intro h; exact absurd h hx

theorem C9_GetMeta_no_candidate_witness :
    (aesgcmStorage.GetMeta ⟨false, none, 0, [], 0⟩
      [(str "CURRENT.4", str "MANIFEST-0000"), (str "CURRENT", str "MANIFEST-000006\n")]).1
      = .error .ErrCorrupted :=
  (C9_GetMeta_no_candidate ⟨false, none, 0, [], 0⟩
    [(str "CURRENT.4", str "MANIFEST-0000"), (str "CURRENT", str "MANIFEST-000006\n")]
    (by decide) (by decide)).1 ⟨str "CURRENT.4", by decide, by decide⟩

theorem GetMeta_ok_open (fs : aesgcmStorage) (dir dir1 : Dir) (d : FileDesc)
    (h : fs.GetMeta dir = (.ok d, dir1)) : 0 ≤ fs.opened := by
  by_contra hneg
  have hlt : fs.opened < 0 := by omega
  unfold aesgcmStorage.GetMeta at h
  simp [hlt] at h

/-- What `GetMeta` leaves on a writable handle when it returns a descriptor:
`CURRENT` names it, and no file `CURRENT.<N>`, N a 64-bit number in `%d` form,
is left. -/
theorem restoreCurrent_normalizes (fs : aesgcmStorage) (dir dir1 : Dir) (w : currentFile)
    (d : FileDesc) (hw : fs.readOnly = false) (hacc : accepted dir w.name = some w.fd)
    (h : restoreCurrent fs dir w = (.ok d, dir1)) :
    (∃ s, dir1.read CURRENT = some (s ++ [10]) ∧ fsParseName s = (d, true)) ∧
      ∀ N, inInt64 N → dir1.read (pendingName N) = none := by
  obtain ⟨hvt, hvn⟩ := accepted_valid dir w.name w.fd hacc
  obtain ⟨name, hn, hparse⟩ := fsParseName_fsGenName w.fd hvt hvn
  unfold restoreCurrent at h
  rw [setMeta_eq dir w.fd name hn] at h
  split at h
  · simp only [Prod.mk.injEq, Res.ok.injEq] at h
    obtain ⟨hd, hdir⟩ := h
    subst hd
    have hsm : applyEffects (setMetaEffects dir w.fd) dir = (setMeta dir w.fd).2 := by
      rw [setMeta_eq dir w.fd name hn]
    rw [hsm] at hdir
    constructor
    · refine ⟨name, ?_, hparse⟩
      rw [← hdir, read_removeAll]
      have hnot : CURRENT ∉ pendNames dir := by
        intro hmem
        obtain ⟨n, _, e⟩ := pendNames_inInt64 dir CURRENT hmem
        exact pendingName_ne_CURRENT n e.symm
      simp only [hnot, ite_false]
      exact read_CURRENT_setMeta dir w.fd name hn
    · intro N hN
      rw [← hdir, read_removeAll]
      by_cases hmem : pendingName N ∈ pendNames dir
      · simp [hmem]
      · simp only [hmem, ite_false]
        apply read_pending_setMeta dir w.fd name hn N
        by_contra hr
        exact hmem (mem_pendNames_of_read dir N hN hr)
  · rename_i hcond
    simp only [Prod.mk.injEq, Res.ok.injEq] at h
    obtain ⟨hd, hdir⟩ := h
    subst hd
    subst hdir
    simp only [hw, Bool.not_false, Bool.true_and, Bool.or_eq_true, bne_iff_ne, ne_eq,
      not_or, not_not] at hcond
    obtain ⟨hname, hlen⟩ := hcond
    have hnil : pendNames dir = [] := by
      cases hp : pendNames dir with
      | nil => rfl
      | cons a l => rw [hp] at hlen; simp at hlen
    constructor
    · obtain ⟨s, target, hr, hp, _, _⟩ := accepted_spec dir w.name w.fd hacc
      rw [hname] at hr
      exact ⟨s, hr, hp⟩
    · intro N hN
      by_contra hr
      have := mem_pendNames_of_read dir N hN hr
      rw [hnil] at this
      exact absurd this (List.not_mem_nil _)

/-- C10, as the code has it: when `GetMeta` on a writable handle returns a
descriptor d without error, then afterwards `CURRENT` decodes to d and the
directory holds no entry named `CURRENT.<N>` for a signed 64-bit number N
spelled as `%d` prints it. -/
theorem C10_GetMeta_normalizes (fs : aesgcmStorage) (dir dir1 : Dir) (d : FileDesc)
    (hw : fs.readOnly = false) (h : fs.GetMeta dir = (.ok d, dir1)) :
    (∃ s, dir1.read CURRENT = some (s ++ [10]) ∧ fsParseName s = (d, true)) ∧
      ∀ N, inInt64 N → dir1.read (pendingName N) = none := by
  have hopen := GetMeta_ok_open fs dir dir1 d h
  rw [GetMeta_eq fs dir hopen] at h
  cases hwin : winner dir with
  | none => simp [hwin] at h
  | some w =>
    simp only [hwin] at h
    exact restoreCurrent_normalizes fs dir dir1 w d hw (winner_valid dir w hwin).1 h

theorem C10_GetMeta_normalizes_witness :
    (∃ s, (aesgcmStorage.GetMeta ⟨false, none, 0, [], 0⟩
        [(str "CURRENT.5", str "MANIFEST-000005\n"), (str "CURRENT", str "MANIFEST-000002\n"),
          (str "MANIFEST-000005", [1]), (str "MANIFEST-000002", [1])]).2.read CURRENT
        = some (s ++ [10]) ∧ fsParseName s = (⟨TypeManifest, 5⟩, true)) ∧
      ∀ N, inInt64 N → (aesgcmStorage.GetMeta ⟨false, none, 0, [], 0⟩
        [(str "CURRENT.5", str "MANIFEST-000005\n"), (str "CURRENT", str "MANIFEST-000002\n"),
          (str "MANIFEST-000005", [1]), (str "MANIFEST-000002", [1])]).2.read (pendingName N)
        = none :=
  C10_GetMeta_normalizes ⟨false, none, 0, [], 0⟩
    [(str "CURRENT.5", str "MANIFEST-000005\n"), (str "CURRENT", str "MANIFEST-000002\n"),
      (str "MANIFEST-000005", [1]), (str "MANIFEST-000002", [1])] _ ⟨TypeManifest, 5⟩
    (by decide) (by decide)

/-! ## The pending files in descending order -/

theorem sortDesc_pairwise (l : List Int) : (sortDesc l).Pairwise (fun a b => b ≤ a) := by
  haveI : IsTotal Int (fun a b => b ≤ a) := ⟨fun a b => le_total b a⟩
  haveI : IsTrans Int (fun a b => b ≤ a) := ⟨fun _ _ _ hab hbc => le_trans hbc hab⟩
  exact List.sorted_insertionSort (fun a b => b ≤ a) l

/-- In a list in descending order the first element a search accepts is the
greatest element it accepts. -/
theorem findSome_desc {β : Type} (f : Int → Option β) (L : List Int)
    (hs : L.Pairwise (fun a b => b ≤ a)) (b : β) (h : L.findSome? f = some b) :
    ∃ m ∈ L, f m = some b ∧ ∀ x ∈ L, f x ≠ none → x ≤ m := by
  induction L with
  | nil => simp at h
  | cons a rest ih =>
    rw [List.pairwise_cons] at hs
    rw [List.findSome?_cons] at h
    cases hfa : f a with
    | some v =>
      simp only [hfa, Option.some.injEq] at h
      subst h
      refine ⟨a, List.mem_cons_self _ _, hfa, ?_⟩
      intro x hx _
      rcases List.mem_cons.mp hx with e | e
      · rw [e]
      · exact hs.1 x e
    | none =>
      simp only [hfa] at h
      obtain ⟨m, hm, hfm, hmax⟩ := ih hs.2 h
      refine ⟨m, List.mem_cons_of_mem _ hm, hfm, ?_⟩
      intro x hx hne
      rcases List.mem_cons.mp hx with e | e
      · rw [e] at hne; exact absurd hfa hne
      · exact hmax x e hne

/-- Two lists in descending order that hold the same accepted elements give
the same first accepted element. -/
theorem findSome_desc_agree {β : Type} (f : Int → Option β) (L1 L2 : List Int)
    (h1 : L1.Pairwise (fun a b => b ≤ a)) (h2 : L2.Pairwise (fun a b => b ≤ a))
    (hag : ∀ N, f N ≠ none → (N ∈ L1 ↔ N ∈ L2)) : L1.findSome? f = L2.findSome? f := by
  cases e1 : L1.findSome? f with
  | none =>
    cases e2 : L2.findSome? f with
    | none => rfl
    | some b2 =>
      obtain ⟨m, hm, hfm, _⟩ := findSome_desc f L2 h2 b2 e2
      have hne : f m ≠ none := by rw [hfm]; simp
      have := (List.findSome?_eq_none_iff.mp e1) m ((hag m hne).mpr hm)
      exact absurd this hne
  | some b1 =>
    obtain ⟨m1, hm1, hf1, hmax1⟩ := findSome_desc f L1 h1 b1 e1
    have hne1 : f m1 ≠ none := by rw [hf1]; simp
    cases e2 : L2.findSome? f with
    | none =>
      have := (List.findSome?_eq_none_iff.mp e2) m1 ((hag m1 hne1).mp hm1)
      exact absurd this hne1
    | some b2 =>
      obtain ⟨m2, hm2, hf2, hmax2⟩ := findSome_desc f L2 h2 b2 e2
      have hne2 : f m2 ≠ none := by rw [hf2]; simp
      have ha : m1 ≤ m2 := hmax2 m1 ((hag m1 hne1).mp hm1) hne1
      have hb : m2 ≤ m1 := hmax1 m2 ((hag m2 hne2).mpr hm2) hne2
      have e : m1 = m2 := le_antisymm ha hb
      rw [e, hf2] at hf1
      exact hf1.symm

theorem pendNames_eq_map (dir : Dir) :
    pendNames dir = (sortDesc (pendingNums dir.names)).map pendingName := by
  unfold pendNames
  split
  · rfl
  · rename_i h
    have : pendingNums dir.names = [] := by
      cases hl : pendingNums dir.names with
      | nil => rfl
      | cons a l => rw [hl] at h; simp at h
    rw [this]; rfl

theorem firstAccepted_map_fd (dir : Dir) (L : List Int) :
    (firstAccepted dir (L.map pendingName)).map currentFile.fd =
      L.findSome? (fun N => accepted dir (pendingName N)) := by
  induction L with
  | nil => rfl
  | cons a rest ih =>
    rw [List.map_cons, firstAccepted_cons, List.findSome?_cons]
    cases h : accepted dir (pendingName a) with
    | some fd => rfl
    | none => simpa using ih

theorem mem_pendingFileNums (dir : Dir) (N : Int) :
    N ∈ pendingFileNums dir ↔ inInt64 N ∧ pendingName N ∈ dir.names := by
  unfold pendingFileNums
  rw [mem_sortDesc, List.mem_filterMap]
  constructor
  · rintro ⟨name, hmem, hx⟩
    split at hx
    · rename_i M hM
      split at hx
      · rename_i hname
        simp only [Option.some.injEq] at hx
        subst hx
        exact ⟨ParseInt_inInt64 _ _ hM, by rw [← hname]; exact hmem⟩
      · simp at hx
    · simp at hx
  · rintro ⟨hN, hmem⟩
    refine ⟨pendingName N, hmem, ?_⟩
    have hd : (pendingName N).drop 8 = fmtInt N := by rw [pendingName_eq]; rfl
    rw [hd, ParseInt_fmtInt N hN]
    simp

/-- The pending file `GetMeta` accepts is the first pending file of the
directory, in descending number, that is accepted. -/
theorem firstAccepted_pendNames_fd (dir : Dir) :
    (firstAccepted dir (pendNames dir)).map currentFile.fd = firstPending dir := by
  rw [pendNames_eq_map, firstAccepted_map_fd]
  unfold firstPending
  apply findSome_desc_agree _ _ _ (sortDesc_pairwise _)
  · unfold pendingFileNums; exact sortDesc_pairwise _
  · intro N hne
    have hread : dir.read (pendingName N) ≠ none := by
      intro hr; exact hne (accepted_none_of_read dir _ hr)
    have hmem : pendingName N ∈ dir.names := (mem_names_iff _ _).mpr hread
    rw [mem_sortDesc, mem_pendingFileNums]
    constructor
    · intro h; exact ⟨inInt64_of_mem_pendingNums _ N h, hmem⟩
    · intro h; exact mem_pendingNums_of_pendingName _ N h.1 hmem

theorem firstAccepted_current_fd (dir : Dir) :
    (firstAccepted dir [CURRENT, CURRENTbak]).map currentFile.fd = firstCurrent dir := by
  unfold firstCurrent
  rw [firstAccepted_cons, firstAccepted_cons]
  cases h1 : accepted dir CURRENT with
  | some fd => simp [List.findSome?, h1]
  | none =>
    cases h2 : accepted dir CURRENTbak with
    | some fd => simp [List.findSome?, h1, h2]
    | none => simp [List.findSome?, h1, h2, firstAccepted]

/-- The descriptor of the winner, from the first accepted pending file and the
first accepted of `CURRENT`, `CURRENT.bak`. -/
theorem winner_fd (dir : Dir) :
    (winner dir).map currentFile.fd =
      match firstPending dir, firstCurrent dir with
      | some p, some c => if p.Num > c.Num then some p else some c
      | some p, none => some p
      | none, some c => some c
      | none, none => none := by
  rw [← firstAccepted_pendNames_fd, ← firstAccepted_current_fd]
  unfold winner
  cases firstAccepted dir (pendNames dir) with
  | some p =>
    cases firstAccepted dir [CURRENT, CURRENTbak] with
    | some c =>
      simp only [Option.map_some']
      split <;> rfl
    | none => rfl
  | none =>
    cases firstAccepted dir [CURRENT, CURRENTbak] with
    | some c => rfl
    | none => rfl

theorem GetMeta_fst_of_winner_fd (fs : aesgcmStorage) (dir : Dir) (hopen : 0 ≤ fs.opened)
    (d : FileDesc) (h : (winner dir).map currentFile.fd = some d) :
    (fs.GetMeta dir).1 = .ok d := by
  rw [GetMeta_fst fs dir hopen]
  cases hw : winner dir with
  | none => simp [hw] at h
  | some w =>
    simp only [hw, Option.map_some', Option.some.injEq] at h
    simp [h]

/-- C8, as the code has it: let P be the first pending file, among the entries
named `CURRENT.<N>` for a 64-bit N in `%d` form and taken in descending N,
whose content is a newline-terminated decodable name of an existing file, and
C the first of `CURRENT`, `CURRENT.bak` with that property.  With P and no C,
or P's descriptor number strictly greater than C's, `GetMeta` returns P's
descriptor; with C and no P, or P's number at most C's, it returns C's. -/
theorem C8_GetMeta_precedence (fs : aesgcmStorage) (dir : Dir) (hopen : 0 ≤ fs.opened) :
    (∀ p, firstPending dir = some p →
      (firstCurrent dir = none ∨ ∃ c, firstCurrent dir = some c ∧ c.Num < p.Num) →
      (fs.GetMeta dir).1 = .ok p) ∧
    (∀ c, firstCurrent dir = some c →
      (firstPending dir = none ∨ ∃ p, firstPending dir = some p ∧ p.Num ≤ c.Num) →
      (fs.GetMeta dir).1 = .ok c) := by
  have hw := winner_fd dir
  constructor
  · intro p hp hc
    apply GetMeta_fst_of_winner_fd fs dir hopen
    rw [hw, hp]
    rcases hc with hc | ⟨c, hc, hlt⟩
    · rw [hc]
    · rw [hc]
      simp only [gt_iff_lt, hlt, ite_true]
  · intro c hc hp
    apply GetMeta_fst_of_winner_fd fs dir hopen
    rw [hw, hc]
    rcases hp with hp | ⟨p, hp, hle⟩
    · rw [hp]
    · rw [hp]
      have : ¬ c.Num < p.Num := by omega
      simp only [gt_iff_lt, this, ite_false]

theorem C8_GetMeta_precedence_witness :
    (aesgcmStorage.GetMeta ⟨false, none, 0, [], 0⟩
      [(str "CURRENT.5", str "MANIFEST-000005\n"), (str "CURRENT", str "MANIFEST-000002\n"),
        (str "MANIFEST-000005", [1]), (str "MANIFEST-000002", [1])]).1
      = .ok ⟨TypeManifest, 5⟩ :=
  (C8_GetMeta_precedence ⟨false, none, 0, [], 0⟩
    [(str "CURRENT.5", str "MANIFEST-000005\n"), (str "CURRENT", str "MANIFEST-000002\n"),
      (str "MANIFEST-000005", [1]), (str "MANIFEST-000002", [1])] (by decide)).1
    ⟨TypeManifest, 5⟩ (by decide) (Or.inr ⟨⟨TypeManifest, 2⟩, by decide, by decide⟩)

/-- C8 fails as stated.  In each of two directories a pending file holds the
newline-terminated name of the existing MANIFEST-000009 and `CURRENT` names
the existing MANIFEST-000001, so P exists with number 9 > 1; `GetMeta`
returns descriptor 1, not P's descriptor.  The first pending file is
`CURRENT.9223372036854775808` (its number exceeds the `int64` range), the
second `CURRENT.007` (read by `GetMeta` under the name `CURRENT.7`). -/
theorem C8_counterexample :
    (accepted
        [(str "CURRENT.9223372036854775808", str "MANIFEST-000009\n"),
          (str "CURRENT", str "MANIFEST-000001\n"),
          (str "MANIFEST-000009", [1]), (str "MANIFEST-000001", [1])]
        (str "CURRENT.9223372036854775808") = some ⟨TypeManifest, 9⟩ ∧
      accepted
        [(str "CURRENT.9223372036854775808", str "MANIFEST-000009\n"),
          (str "CURRENT", str "MANIFEST-000001\n"),
          (str "MANIFEST-000009", [1]), (str "MANIFEST-000001", [1])]
        CURRENT = some ⟨TypeManifest, 1⟩ ∧
      (aesgcmStorage.GetMeta ⟨false, none, 0, [], 0⟩
        [(str "CURRENT.9223372036854775808", str "MANIFEST-000009\n"),
          (str "CURRENT", str "MANIFEST-000001\n"),
          (str "MANIFEST-000009", [1]), (str "MANIFEST-000001", [1])]).1
        = .ok ⟨TypeManifest, 1⟩) ∧
    (accepted
        [(str "CURRENT.007", str "MANIFEST-000009\n"), (str "CURRENT", str "MANIFEST-000001\n"),
          (str "MANIFEST-000009", [1]), (str "MANIFEST-000001", [1])]
        (str "CURRENT.007") = some ⟨TypeManifest, 9⟩ ∧
      accepted
        [(str "CURRENT.007", str "MANIFEST-000009\n"), (str "CURRENT", str "MANIFEST-000001\n"),
          (str "MANIFEST-000009", [1]), (str "MANIFEST-000001", [1])]
        CURRENT = some ⟨TypeManifest, 1⟩ ∧
      (aesgcmStorage.GetMeta ⟨false, none, 0, [], 0⟩
        [(str "CURRENT.007", str "MANIFEST-000009\n"), (str "CURRENT", str "MANIFEST-000001\n"),
          (str "MANIFEST-000009", [1]), (str "MANIFEST-000001", [1])]).1
        = .ok ⟨TypeManifest, 1⟩) := by
  refine ⟨⟨by decide, by decide, by decide⟩, ⟨by decide, by decide, by decide⟩⟩

/-- C10 fails as stated.  With the entry `CURRENT.9223372036854775808` beside
a valid `CURRENT`, `GetMeta` on a writable handle returns descriptor 1 without
error, no file operation fails, and the directory is left as it was, that
entry included.  With the entry `CURRENT.007`, `GetMeta` returns descriptor 1
and the entry is still there afterwards (the file looked for and removed is
`CURRENT.7`). -/
theorem C10_counterexample :
    aesgcmStorage.GetMeta ⟨false, none, 0, [], 0⟩
      [(str "CURRENT.9223372036854775808", str "MANIFEST-000001\n"),
        (str "CURRENT", str "MANIFEST-000001\n"), (str "MANIFEST-000001", [1])]
      = (.ok ⟨TypeManifest, 1⟩,
        [(str "CURRENT.9223372036854775808", str "MANIFEST-000001\n"),
          (str "CURRENT", str "MANIFEST-000001\n"), (str "MANIFEST-000001", [1])]) ∧
    (aesgcmStorage.GetMeta ⟨false, none, 0, [], 0⟩
      [(str "CURRENT.007", str "MANIFEST-000001\n"),
        (str "CURRENT", str "MANIFEST-000001\n"), (str "MANIFEST-000001", [1])]).1
      = .ok ⟨TypeManifest, 1⟩ ∧
    (aesgcmStorage.GetMeta ⟨false, none, 0, [], 0⟩
      [(str "CURRENT.007", str "MANIFEST-000001\n"),
        (str "CURRENT", str "MANIFEST-000001\n"), (str "MANIFEST-000001", [1])]).2.Stat
      (str "CURRENT.007") = true := by
  refine ⟨by decide, by decide, by decide⟩

/-! ## A crash inside `setMeta` -/

theorem read_writeFileSynced_prefix (name data : GoString) (dir : Dir) (k : Nat) (m : GoString) :
    (applyEffects ((writeFileSyncedEffects name data).take k) dir).read m =
      if m = name ∧ 0 < k then some (data.take (k - 1)) else dir.read m := by
  cases k with
  | zero => simp [applyEffects_nil]
  | succ j =>
    rw [read_writeFileSynced_take]
    by_cases hm : m = name <;> simp [hm]

theorem fmtInt06_no_newline (i : Int) : (10 : Nat) ∉ fmtInt06 i := by
  intro h
  have := fmtInt06_ascii i
  unfold fmtInt06 at h
  split at h
  · rcases List.mem_cons.mp h with e | e
    · omega
    · have := isDigit_bounds (padded_isDigit _ _ 10 e); omega
  · have := isDigit_bounds (padded_isDigit _ _ 10 h); omega

theorem fsGenName_no_newline (fd : FileDesc) (name : GoString) (h : fsGenName fd = some name) :
    (10 : Nat) ∉ name := by
  have hi := fmtInt06_no_newline fd.Num
  unfold fsGenName at h
  split at h
  · simp only [Option.some.injEq] at h; subst h
    rw [str_manifest]; intro hm
    rcases List.mem_append.mp hm with e | e
    · simp at e
    · exact hi e
  · split at h
    · simp only [Option.some.injEq] at h; subst h
      rw [str_dot_log]; intro hm
      rcases List.mem_append.mp hm with e | e
      · exact hi e
      · simp at e
    · split at h
      · simp only [Option.some.injEq] at h; subst h
        rw [str_dot_ldb]; intro hm
        rcases List.mem_append.mp hm with e | e
        · exact hi e
        · simp at e
      · split at h
        · simp only [Option.some.injEq] at h; subst h
          rw [str_dot_tmp]; intro hm
          rcases List.mem_append.mp hm with e | e
          · exact hi e
          · simp at e
        · simp at h

/-- A prefix of a pointer content that ends in a newline is the whole content. -/
theorem pointer_prefix (name s : GoString) (j : Nat) (hnl : (10 : Nat) ∉ name)
    (h : (name ++ [10]).take j = s ++ [10]) : s = name := by
  by_cases hj : j ≤ name.length
  · rw [List.take_append_of_le_length hj] at h
    have hm : (10 : Nat) ∈ name.take j := by rw [h]; simp
    exact absurd (List.mem_of_mem_take hm) hnl
  · rw [List.take_of_length_le (by simp; omega)] at h
    exact (List.append_cancel_right h).symm

/-- `GetMeta` with `CURRENT` or `CURRENT.bak` accepted with A and no pending
file accepted with anything but B returns A or B. -/
theorem GetMeta_A_or_B (fs : aesgcmStorage) (dir : Dir) (A B : FileDesc) (c : currentFile)
    (hopen : 0 ≤ fs.opened) (hc : firstAccepted dir [CURRENT, CURRENTbak] = some c)
    (hcA : c.fd = A)
    (hp : ∀ p, firstAccepted dir (pendNames dir) = some p → p.fd = B) :
    (fs.GetMeta dir).1 = .ok A ∨ (fs.GetMeta dir).1 = .ok B := by
  rw [GetMeta_fst fs dir hopen]
  unfold winner
  rw [hc]
  cases hpe : firstAccepted dir (pendNames dir) with
  | none => left; simp [hcA]
  | some p =>
    have := hp p hpe
    simp only []
    by_cases hgt : p.fd.Num > c.fd.Num
    · right; rw [if_pos hgt]; simp only [this]
    · left; rw [if_neg hgt]; simp only [hcA]

/-- The pending file of `setMeta dir B`, whatever part of it is written, is
accepted with B or not at all. -/
theorem accepted_partial (d : Dir) (B fd : FileDesc) (nameB x : GoString) (j : Nat)
    (hB : FileDescOk B = true) (hBmax : B.Num ≤ 2 ^ 63 - 1) (hBname : fsGenName B = some nameB)
    (hr : d.read x = some ((nameB ++ [10]).take j)) (h : accepted d x = some fd) : fd = B := by
  obtain ⟨s, target, hrs, hp, _, _⟩ := accepted_spec d x fd h
  rw [hr] at hrs
  have e := pointer_prefix nameB s j (fsGenName_no_newline B nameB hBname)
    (Option.some.inj hrs)
  obtain ⟨n2, hn2, hparse⟩ := parse_gen_valid B hB hBmax
  rw [hBname] at hn2
  have e2 : n2 = nameB := (Option.some.inj hn2).symm
  rw [e2, ← e, hp] at hparse
  exact (Prod.mk.inj hparse).1

/-- Before the rename of `setMeta dir B` is complete: the old pointer is
accepted with A from `CURRENT` or `CURRENT.bak`, and the only pending file is
that of B, whole or cut short.  `GetMeta` returns A or B. -/
theorem crash_A_or_B (fs : aesgcmStorage) (d : Dir) (A B : FileDesc) (nameB : GoString)
    (c : currentFile) (hopen : 0 ≤ fs.opened)
    (hc : firstAccepted d [CURRENT, CURRENTbak] = some c) (hcA : c.fd = A)
    (hB : FileDescOk B = true) (hBmax : B.Num ≤ 2 ^ 63 - 1) (hBname : fsGenName B = some nameB)
    (hO : ∀ N, inInt64 N → pendingName N ≠ pendingName B.Num → d.read (pendingName N) = none)
    (hP : d.read (pendingName B.Num) = none ∨
      ∃ j, d.read (pendingName B.Num) = some ((nameB ++ [10]).take j)) :
    (fs.GetMeta d).1 = .ok A ∨ (fs.GetMeta d).1 = .ok B := by
  have hBin : inInt64 B.Num := by
    have := ((FileDescOk_iff B).mp hB).2
    unfold inInt64; constructor
    · norm_num; omega
    · omega
  apply GetMeta_A_or_B fs d A B c hopen hc hcA
  intro p hp
  rw [firstAccepted_pendNames_unique d B.Num hBin hO] at hp
  cases ha : accepted d (pendingName B.Num) with
  | none => simp [ha] at hp
  | some fd =>
    simp only [ha, Option.map_some', Option.some.injEq] at hp
    rw [← hp]
    simp only []
    rcases hP with hP | ⟨j, hP⟩
    · rw [accepted_none_of_read d _ hP] at ha; simp at ha
    · exact accepted_partial d B fd nameB _ j hB hBmax hBname hP ha

/-- After the rename of `setMeta dir B`: `CURRENT` names B and no pending file
is left.  `GetMeta` returns B. -/
theorem crash_B (fs : aesgcmStorage) (d : Dir) (B : FileDesc) (nameB : GoString)
    (hopen : 0 ≤ fs.opened) (hB : FileDescOk B = true) (hBmax : B.Num ≤ 2 ^ 63 - 1)
    (hBname : fsGenName B = some nameB) (hst : d.Stat nameB = true)
    (hC : d.read CURRENT = some (nameB ++ [10]))
    (hO : ∀ N, inInt64 N → d.read (pendingName N) = none) :
    (fs.GetMeta d).1 = .ok B := by
  obtain ⟨n2, hn2, hparse⟩ := parse_gen_valid B hB hBmax
  rw [hBname] at hn2
  have e2 : n2 = nameB := (Option.some.inj hn2).symm
  rw [e2] at hparse
  exact GetMeta_of_current fs d B hopen (firstAccepted_pendNames_none d hO)
    (accepted_of d CURRENT nameB nameB B hC hparse hBname hst)

/-- The directory after the first `k` effects of the two `writeFileSynced`
calls of `setMeta`, file by file. -/
theorem read_crash_writes (dir : Dir) (b content pend : GoString) (k : Nat) (m : GoString) :
    (applyEffects ((writeFileSyncedEffects CURRENTbak b ++
        writeFileSyncedEffects pend content).take k) dir).read m =
      if m = pend ∧ 0 < k - (b.length + 2) then some (content.take (k - (b.length + 2) - 1))
      else if m = CURRENTbak ∧ 0 < k then some (b.take (k - 1))
      else dir.read m := by
  have hl : (writeFileSyncedEffects CURRENTbak b).length = b.length + 2 := by
    simp [writeFileSyncedEffects]
  rw [List.take_append_eq_append_take, applyEffects_append, hl,
    read_writeFileSynced_prefix, read_writeFileSynced_prefix]

theorem setMetaEffects_eq (dir : Dir) (B : FileDesc) (nameB b : GoString)
    (hBname : fsGenName B = some nameB) (hcur : dir.read CURRENT = some b) :
    setMetaEffects dir B =
      if b = nameB ++ [10] then []
      else (writeFileSyncedEffects CURRENTbak b ++
        writeFileSyncedEffects (pendingName B.Num) (nameB ++ [10])) ++
          [Effect.remove CURRENT, Effect.move (pendingName B.Num) CURRENT, Effect.sync] := by
  unfold setMetaEffects
  simp only [hBname, hcur]

theorem read_both_writes (dir : Dir) (b content pend : GoString) (m : GoString) :
    (applyEffects (writeFileSyncedEffects CURRENTbak b ++ writeFileSyncedEffects pend content)
        dir).read m =
      if m = pend then some content
      else if m = CURRENTbak then some b
      else dir.read m := by
  rw [applyEffects_append, read_writeFileSynced, read_writeFileSynced]

/-- C5: from a directory where `CURRENT` is a well-formed pointer to A, A's
file exists and no pending file `CURRENT.<N>` exists, and for a valid B whose
file exists: after any prefix of the file-system effects of `setMeta(B)` (the
writes cut at any byte), `GetMeta` succeeds and returns A or B, and it returns
B once the rename is done.  The whole sequence of effects is what `setMeta`
does. -/
theorem C5_setMeta_crash_consistent (fs : aesgcmStorage) (dir : Dir) (A B : FileDesc)
    (sA nameA nameB : GoString) (k : Nat) (hopen : 0 ≤ fs.opened)
    (hcur : dir.read CURRENT = some (sA ++ [10])) (hA : fsParseName sA = (A, true))
    (hAname : fsGenName A = some nameA) (hAfile : dir.Stat nameA = true)
    (hpend : ∀ N, inInt64 N → dir.read (pendingName N) = none)
    (hB : FileDescOk B = true) (hBmax : B.Num ≤ 2 ^ 63 - 1)
    (hBname : fsGenName B = some nameB) (hBfile : dir.Stat nameB = true) :
    setMeta dir B = (.ok (), applyEffects (setMetaEffects dir B) dir) ∧
    ((fs.GetMeta (applyEffects ((setMetaEffects dir B).take k) dir)).1 = .ok A ∨
      (fs.GetMeta (applyEffects ((setMetaEffects dir B).take k) dir)).1 = .ok B) ∧
    ((setMetaEffects dir B).length ≤ k + 1 →
      (fs.GetMeta (applyEffects ((setMetaEffects dir B).take k) dir)).1 = .ok B) := by
  refine ⟨setMeta_eq dir B nameB hBname, ?_⟩
  have hBin : inInt64 B.Num := by
    have := ((FileDescOk_iff B).mp hB).2
    unfold inInt64; constructor
    · norm_num; omega
    · omega
  have hpc : pendingName B.Num ≠ CURRENT := pendingName_ne_CURRENT _
  have hcp : CURRENT ≠ pendingName B.Num := fun e => hpc e.symm
  have hpb : pendingName B.Num ≠ CURRENTbak := pendingName_ne_CURRENTbak _
  have hcb : CURRENT ≠ CURRENTbak := CURRENT_ne_CURRENTbak
  have hbc : CURRENTbak ≠ CURRENT := fun e => hcb e.symm
  have hAp : nameA ≠ pendingName B.Num := fsGenName_ne_pendingName A nameA _ hAname
  have hAb : nameA ≠ CURRENTbak := fsGenName_ne_CURRENTbak A nameA hAname
  have hAc : nameA ≠ CURRENT := fsGenName_ne_CURRENT A nameA hAname
  have hBp : nameB ≠ pendingName B.Num := fsGenName_ne_pendingName B nameB _ hBname
  have hBb : nameB ≠ CURRENTbak := fsGenName_ne_CURRENTbak B nameB hBname
  have hBc : nameB ≠ CURRENT := fsGenName_ne_CURRENT B nameB hBname
  rw [setMetaEffects_eq dir B nameB _ hBname hcur]
  by_cases heq : sA ++ [10] = nameB ++ [10]
  · simp only [heq, ite_true, List.take_nil, applyEffects_nil]
    have hsA : sA = nameB := List.append_cancel_right heq
    obtain ⟨n2, hn2, hparse⟩ := parse_gen_valid B hB hBmax
    rw [hBname] at hn2
    have e2 : n2 = nameB := (Option.some.inj hn2).symm
    rw [e2, ← hsA, hA] at hparse
    have hAB : A = B := (Prod.mk.inj hparse).1
    have hres : (fs.GetMeta dir).1 = .ok A :=
      GetMeta_of_current fs dir A hopen (firstAccepted_pendNames_none dir hpend)
        (accepted_of dir CURRENT sA nameA A hcur hA hAname hAfile)
    exact ⟨Or.inl hres, fun _ => hAB ▸ hres⟩
  · simp only [heq, ite_false]
    have hlen12 : (writeFileSyncedEffects CURRENTbak (sA ++ [10]) ++
        writeFileSyncedEffects (pendingName B.Num) (nameB ++ [10])).length =
        ((sA ++ [10]).length + 2) + ((nameB ++ [10]).length + 2) := by
      simp [writeFileSyncedEffects]; omega
    have hlenE : ((writeFileSyncedEffects CURRENTbak (sA ++ [10]) ++
        writeFileSyncedEffects (pendingName B.Num) (nameB ++ [10])) ++
        [Effect.remove CURRENT, Effect.move (pendingName B.Num) CURRENT, Effect.sync]).length =
        ((sA ++ [10]).length + 2) + ((nameB ++ [10]).length + 2) + 3 := by
      rw [List.length_append, hlen12]; rfl
    by_cases hk : k ≤ ((sA ++ [10]).length + 2) + ((nameB ++ [10]).length + 2)
    · rw [List.take_append_of_le_length (by rw [hlen12]; exact hk)]
      have hR := read_crash_writes dir (sA ++ [10]) (nameB ++ [10]) (pendingName B.Num) k
      constructor
      · apply crash_A_or_B fs _ A B nameB ⟨CURRENT, A⟩ hopen ?_ rfl hB hBmax hBname ?_ ?_
        · rw [firstAccepted_cons, accepted_of _ CURRENT sA nameA A ?_ hA hAname ?_]
          · rw [hR]; simp [hcp, hcb, hcur]
          · rw [Stat_eq, hR]; simp only [hAp, hAb, false_and, ite_false]
            rw [← Stat_eq]; exact hAfile
        · intro N hN hne
          rw [hR]
          simp only [hne, pendingName_ne_CURRENTbak N, false_and, ite_false]
          exact hpend N hN
        · rw [hR]
          by_cases h0 : 0 < k - ((sA ++ [10]).length + 2)
          · right
            exact ⟨k - ((sA ++ [10]).length + 2) - 1, by simp only [h0, and_self, ite_true]⟩
          · left
            simp only [h0, and_false, ite_false, hpb, false_and]
            exact hpend _ hBin
      · intro hl
        rw [hlenE] at hl
        omega
    · have hk2 : ((sA ++ [10]).length + 2) + ((nameB ++ [10]).length + 2) < k := by omega
      rw [List.take_append_eq_append_take, List.take_of_length_le (by rw [hlen12]; omega),
        applyEffects_append, hlen12]
      have hR := read_both_writes dir (sA ++ [10]) (nameB ++ [10]) (pendingName B.Num)
      obtain ⟨n, hn⟩ : ∃ n, k - (((sA ++ [10]).length + 2) + ((nameB ++ [10]).length + 2))
          = n + 1 := ⟨k - (((sA ++ [10]).length + 2) + ((nameB ++ [10]).length + 2)) - 1, by omega⟩
      rw [hn]
      cases n with
      | zero =>
        simp only [Nat.zero_add, List.take_succ_cons, List.take_zero, applyEffects_cons,
          applyEffects_nil, Effect.apply]
        have hRr : ∀ m, (Dir.remove (applyEffects (writeFileSyncedEffects CURRENTbak (sA ++ [10])
            ++ writeFileSyncedEffects (pendingName B.Num) (nameB ++ [10])) dir) CURRENT).read m
            = if m = CURRENT then none else if m = pendingName B.Num then some (nameB ++ [10])
              else if m = CURRENTbak then some (sA ++ [10]) else dir.read m := by
          intro m; rw [read_remove, hR]
        constructor
        · apply crash_A_or_B fs _ A B nameB ⟨CURRENTbak, A⟩ hopen ?_ rfl hB hBmax hBname ?_ ?_
          · rw [firstAccepted_cons, accepted_none_of_read _ CURRENT (by rw [hRr]; simp)]
            simp only []
            rw [firstAccepted_cons, accepted_of _ CURRENTbak sA nameA A ?_ hA hAname ?_]
            · rw [hRr]; simp [hbc, hpb.symm]
            · rw [Stat_eq, hRr]; simp only [hAc, hAp, hAb, ite_false]
              rw [← Stat_eq]; exact hAfile
          · intro N hN hne
            rw [hRr]
            simp only [pendingName_ne_CURRENT N, hne, pendingName_ne_CURRENTbak N, ite_false]
            exact hpend N hN
          · right
            refine ⟨(nameB ++ [10]).length, ?_⟩
            rw [hRr, List.take_length]
            simp [hpc]
        · intro hl
          rw [hlenE] at hl
          omega
      | succ n2 =>
        have hsync : ∀ d : Dir, applyEffects (List.take n2 [Effect.sync]) d = d := by
          intro d
          cases n2 with
          | zero => rfl
          | succ _ => simp [applyEffects, Effect.apply]
        simp only [List.take_succ_cons, applyEffects_cons, hsync]
        have hst : (Dir.remove (applyEffects (writeFileSyncedEffects CURRENTbak (sA ++ [10])
            ++ writeFileSyncedEffects (pendingName B.Num) (nameB ++ [10])) dir) CURRENT).read
            (pendingName B.Num) = some (nameB ++ [10]) := by
          rw [read_remove, hR]; simp [hpc]
        have hRm : ∀ m, (Effect.apply (Effect.apply (applyEffects
            (writeFileSyncedEffects CURRENTbak (sA ++ [10])
            ++ writeFileSyncedEffects (pendingName B.Num) (nameB ++ [10])) dir)
            (Effect.remove CURRENT)) (Effect.move (pendingName B.Num) CURRENT)).read m
            = if m = CURRENT then some (nameB ++ [10]) else if m = pendingName B.Num then none
              else if m = CURRENTbak then some (sA ++ [10]) else dir.read m := by
          intro m
          simp only [Effect.apply, hst, read_write, read_remove, hR]
          by_cases h1 : m = CURRENT
          · simp [h1]
          · by_cases h2 : m = pendingName B.Num
            · simp [h1, h2]
            · simp [h1, h2]
        have hres : (fs.GetMeta (Effect.apply (Effect.apply (applyEffects
            (writeFileSyncedEffects CURRENTbak (sA ++ [10])
            ++ writeFileSyncedEffects (pendingName B.Num) (nameB ++ [10])) dir)
            (Effect.remove CURRENT)) (Effect.move (pendingName B.Num) CURRENT))).1 = .ok B := by
          apply crash_B fs _ B nameB hopen hB hBmax hBname
          · rw [Stat_eq, hRm]; simp only [hBc, hBp, hBb, ite_false]
            rw [← Stat_eq]; exact hBfile
          · rw [hRm]; simp
          · intro N hN
            rw [hRm]
            simp only [pendingName_ne_CURRENT N, pendingName_ne_CURRENTbak N, ite_false]
            by_cases h2 : pendingName N = pendingName B.Num
            · simp [h2]
            · simp only [h2, ite_false]; exact hpend N hN
        exact ⟨Or.inr hres, fun _ => hres⟩

theorem C5_setMeta_crash_consistent_witness :
    (aesgcmStorage.GetMeta ⟨true, none, 0, [], 0⟩
        (applyEffects ((setMetaEffects
          [(str "CURRENT", str "MANIFEST-000002\n"), (str "MANIFEST-000002", [1]),
            (str "MANIFEST-000005", [1])] ⟨TypeManifest, 5⟩).take 25)
          [(str "CURRENT", str "MANIFEST-000002\n"), (str "MANIFEST-000002", [1]),
            (str "MANIFEST-000005", [1])])).1 = .ok ⟨TypeManifest, 2⟩ ∨
    (aesgcmStorage.GetMeta ⟨true, none, 0, [], 0⟩
        (applyEffects ((setMetaEffects
          [(str "CURRENT", str "MANIFEST-000002\n"), (str "MANIFEST-000002", [1]),
            (str "MANIFEST-000005", [1])] ⟨TypeManifest, 5⟩).take 25)
          [(str "CURRENT", str "MANIFEST-000002\n"), (str "MANIFEST-000002", [1]),
            (str "MANIFEST-000005", [1])])).1 = .ok ⟨TypeManifest, 5⟩ :=
  (C5_setMeta_crash_consistent ⟨true, none, 0, [], 0⟩
    [(str "CURRENT", str "MANIFEST-000002\n"), (str "MANIFEST-000002", [1]),
      (str "MANIFEST-000005", [1])] ⟨TypeManifest, 2⟩ ⟨TypeManifest, 5⟩
    (str "MANIFEST-000002") (str "MANIFEST-000002") (str "MANIFEST-000005") 25
    (by decide) (by decide) (by decide) (by decide) (by decide)
    (by
      intro N _
      simp only [Dir.read]
      rw [if_neg (fun e => pendingName_ne_CURRENT N e.symm),
        if_neg (fsGenName_ne_pendingName ⟨TypeManifest, 2⟩ _ N (by decide)),
        if_neg (fsGenName_ne_pendingName ⟨TypeManifest, 5⟩ _ N (by decide))])
    (by decide) (by decide) (by decide) (by decide)).2.1

/-! ## Claims on the facade -/

theorem GetMeta_ok_winner (fs : aesgcmStorage) (dir : Dir) (d : FileDesc)
    (h : (fs.GetMeta dir).1 = .ok d) : ∃ w, winner dir = some w ∧ w.fd = d := by
  have hopen : 0 ≤ fs.opened := by
    by_contra hneg
    have hlt : fs.opened < 0 := by omega
    unfold aesgcmStorage.GetMeta at h
    simp [hlt] at h
  rw [GetMeta_fst fs dir hopen] at h
  cases hw : winner dir with
  | none => simp [hw] at h
  | some w =>
    simp only [hw, Res.ok.injEq] at h
    exact ⟨w, rfl, h⟩

/-- C17, as the code has it: on a read-only handle `Remove(fd)` for a valid fd
and `Rename(old, new)` for valid old ≠ new fail with `errReadOnly`, and
`Rename(fd, fd)` returns nil; the directory is unchanged in each case. -/
theorem C17_readOnly_mutations (fs : aesgcmStorage) (dir : Dir) (fd old new : FileDesc)
    (hro : fs.readOnly = true) (hfd : FileDescOk fd = true) (hold : FileDescOk old = true)
    (hnew : FileDescOk new = true) :
    fs.Remove dir fd = (.error .errReadOnly, dir) ∧
    (old ≠ new → fs.Rename dir old new = (.error .errReadOnly, dir)) ∧
    fs.Rename dir fd fd = (.ok (), dir) := by
  refine ⟨?_, ?_, ?_⟩
  · simp [aesgcmStorage.Remove, hfd, hro]
  · intro hne
    simp [aesgcmStorage.Rename, hold, hnew, hne, hro]
  · simp [aesgcmStorage.Rename, hfd]

theorem C17_readOnly_mutations_witness :
    aesgcmStorage.Remove ⟨true, none, 0, [], 0⟩ [(str "000005.log", [1])] ⟨TypeJournal, 5⟩
      = (.error .errReadOnly, [(str "000005.log", [1])]) :=
  (C17_readOnly_mutations ⟨true, none, 0, [], 0⟩ [(str "000005.log", [1])] ⟨TypeJournal, 5⟩
    ⟨TypeJournal, 5⟩ ⟨TypeJournal, 6⟩ (by decide) (by decide) (by decide) (by decide)).1

/-- C17 fails as stated: on a read-only handle `Rename(old, new)` with the
valid descriptors old = new = Journal 5 returns nil, not the ReadOnly error. -/
theorem C17_counterexample :
    FileDescOk ⟨TypeJournal, 5⟩ = true ∧
    aesgcmStorage.Rename ⟨true, none, 0, [], 0⟩ [(str "000005.log", [1])]
      ⟨TypeJournal, 5⟩ ⟨TypeJournal, 5⟩ = (.ok (), [(str "000005.log", [1])]) := by
  refine ⟨by decide, by decide⟩

/-- C18: for a descriptor that fails validation (kind not one of the four, or
number negative) `Open`, `Create`, `Remove`, `SetMeta` and `Rename` with it in
either position return `storage.ErrInvalidFile`, whatever the read-only or
closed status of the handle, and leave directory and handle unchanged. -/
theorem C18_invalid_descriptor (gcm : AEAD) (fs : aesgcmStorage) (dir : Dir)
    (fd other : FileDesc) (hbad : ¬ validType fd.Typ ∨ fd.Num < 0) :
    aesgcmStorage.Open gcm fs dir fd = (.error .ErrInvalidFile, fs) ∧
    fs.Create dir fd = (.error .ErrInvalidFile, fs, dir) ∧
    fs.Remove dir fd = (.error .ErrInvalidFile, dir) ∧
    fs.SetMeta dir fd = (.error .ErrInvalidFile, dir) ∧
    fs.Rename dir fd other = (.error .ErrInvalidFile, dir) ∧
    fs.Rename dir other fd = (.error .ErrInvalidFile, dir) := by
  have hno : FileDescOk fd = false := by
    cases h : FileDescOk fd with
    | false => rfl
    | true =>
      rw [FileDescOk_iff] at h
      rcases hbad with hb | hb
      · exact absurd h.1 hb
      · omega
  refine ⟨?_, ?_, ?_, ?_, ?_, ?_⟩
  · simp [aesgcmStorage.Open, hno]
  · simp [aesgcmStorage.Create, hno]
  · simp [aesgcmStorage.Remove, hno]
  · simp [aesgcmStorage.SetMeta, hno]
  · simp [aesgcmStorage.Rename, hno]
  · simp [aesgcmStorage.Rename, hno]

theorem C18_invalid_descriptor_witness :
    aesgcmStorage.Open toyAEAD ⟨true, some 4, -1, [], 5⟩ [(str "000005.log", [1])]
      ⟨TypeJournal, -5⟩ = (.error .ErrInvalidFile, ⟨true, some 4, -1, [], 5⟩) :=
  (C18_invalid_descriptor toyAEAD ⟨true, some 4, -1, [], 5⟩ [(str "000005.log", [1])]
    ⟨TypeJournal, -5⟩ ⟨TypeJournal, 5⟩ (Or.inr (by decide))).1

/-- `Open` on a file shorter than the nonce panics at the slice
`crypt[fs.cyp.NonceSize():]`. -/
theorem Open_short_file (gcm : AEAD) (fs : aesgcmStorage) (dir : Dir) (fd : FileDesc)
    (name crypt : GoString) (hok : FileDescOk fd = true) (hopen : 0 ≤ fs.opened)
    (hn : fsGenName fd = some name) (hr : dir.read name = some crypt)
    (hlen : crypt.length < gcm.NonceSize) :
    aesgcmStorage.Open gcm fs dir fd = (.panic, fs) := by
  have hno : ¬ fs.opened < 0 := by omega
  simp [aesgcmStorage.Open, hok, hno, hn, hr, hlen]

/-- C20, the code at the failing input: `Create(Journal 7)` on an empty
directory leaves an empty file, and `Open(Journal 7)` on the open handle then
panics instead of returning a reader or an error. -/
theorem C20_open_after_create_panics :
    (aesgcmStorage.Create ⟨false, none, 0, [1, 2], 0⟩ [] ⟨TypeJournal, 7⟩).2.2
      = [(str "000007.log", [])] ∧
    aesgcmStorage.Open toyAEAD (aesgcmStorage.Create ⟨false, none, 0, [1, 2], 0⟩ []
        ⟨TypeJournal, 7⟩).2.1
      (aesgcmStorage.Create ⟨false, none, 0, [1, 2], 0⟩ [] ⟨TypeJournal, 7⟩).2.2
      ⟨TypeJournal, 7⟩ = (.panic, ⟨false, none, 1, [1, 2], 0⟩) := by
  refine ⟨by decide, by decide⟩

/-! ## The advisory lock -/

theorem lockStep_frame (st : aesgcmStorage × List aesgcmStorageLock) (c : LockCall) :
    (lockStep st c).1.readOnly = st.1.readOnly ∧ (lockStep st c).1.opened = st.1.opened := by
  cases c with
  | lock =>
    simp only [lockStep, aesgcmStorage.Lock]
    split_ifs <;> simp
  | unlock l =>
    simp only [lockStep, aesgcmStorageLock.Unlock]
    split_ifs <;> simp

theorem lockRun_frame (calls : List LockCall) :
    ∀ st : aesgcmStorage × List aesgcmStorageLock,
      (lockRun st calls).1.readOnly = st.1.readOnly ∧ (lockRun st calls).1.opened = st.1.opened := by
  induction calls with
  | nil => intro st; exact ⟨rfl, rfl⟩
  | cons c rest ih =>
    intro st
    have e : lockRun st (c :: rest) = lockRun (lockStep st c) rest := rfl
    rw [e]
    obtain ⟨h1, h2⟩ := ih (lockStep st c)
    obtain ⟨h3, h4⟩ := lockStep_frame st c
    exact ⟨h1.trans h3, h2.trans h4⟩

theorem lockStep_inv (st : aesgcmStorage × List aesgcmStorageLock) (c : LockCall)
    (hrw : st.1.readOnly = false) (hopen : 0 ≤ st.1.opened) (h : lockInv st) :
    lockInv (lockStep st c) := by
  have hno : ¬ st.1.opened < 0 := by omega
  cases c with
  | lock =>
    rcases h with ⟨hs, ho⟩ | ⟨id, hlt, hs, ho⟩
    · right
      refine ⟨st.1.locks, ?_⟩
      simp [lockStep, aesgcmStorage.Lock, hno, hrw, hs, ho]
    · right
      refine ⟨id, ?_⟩
      simp [lockStep, aesgcmStorage.Lock, hno, hrw, hs, ho, hlt]
  | unlock l =>
    rcases h with ⟨hs, ho⟩ | ⟨id, hlt, hs, ho⟩
    · left
      simp only [lockStep, aesgcmStorageLock.Unlock, hs, ho]
      split_ifs <;> simp_all
    · by_cases hl : l = ⟨id, true⟩
      · left
        subst hl
        simp [lockStep, aesgcmStorageLock.Unlock, hs, ho]
      · right
        refine ⟨id, ?_⟩
        have hne : ¬ ((⟨id, true⟩ : aesgcmStorageLock) = l) := fun e => hl e.symm
        obtain ⟨lid, lb⟩ := l
        cases lb with
        | false => simp [lockStep, aesgcmStorageLock.Unlock, hs, ho, hlt]
        | true =>
          have hid : ¬ id = lid := by
            intro e; apply hl; rw [e]
          simp [lockStep, aesgcmStorageLock.Unlock, hs, ho, hlt, hid]

theorem lockRun_inv (calls : List LockCall) :
    ∀ st : aesgcmStorage × List aesgcmStorageLock, st.1.readOnly = false → 0 ≤ st.1.opened →
      lockInv st → lockInv (lockRun st calls) := by
  induction calls with
  | nil => intro st _ _ h; exact h
  | cons c rest ih =>
    intro st hrw hopen h
    have e : lockRun st (c :: rest) = lockRun (lockStep st c) rest := rfl
    rw [e]
    obtain ⟨h3, h4⟩ := lockStep_frame st c
    exact ih _ (h3.trans hrw) (by rw [h4]; exact hopen) (lockStep_inv st c hrw hopen h)

/-- C15, as the code has it: on an open read-write handle there is at most
one outstanding lock: `Lock()` succeeds exactly when no lock returned earlier
is still not unlocked, it fails with `ErrLocked` while one is outstanding, and
after `Unlock()` of the outstanding lock a new `Lock()` succeeds.  On an open
read-only handle every `Lock()` succeeds and returns a lock that is not bound
to the handle: the lock slot stays as it was and `Unlock()` of that lock does
nothing. -/
theorem C15_advisory_lock (fs0 : aesgcmStorage) (calls : List LockCall)
    (hopen : 0 ≤ fs0.opened) (hfresh : fs0.slock = none) :
    (fs0.readOnly = false →
      (lockRun (fs0, []) calls).2.length ≤ 1 ∧
      ((∃ l, (lockRun (fs0, []) calls).1.Lock.1 = .ok l) ↔ (lockRun (fs0, []) calls).2 = []) ∧
      ((lockRun (fs0, []) calls).2 ≠ [] →
        (lockRun (fs0, []) calls).1.Lock.1 = .error .ErrLocked) ∧
      (∀ l ∈ (lockRun (fs0, []) calls).2,
        ∃ l2, (l.Unlock (lockRun (fs0, []) calls).1).Lock.1 = .ok l2)) ∧
    (fs0.readOnly = true →
      ∃ l, (lockRun (fs0, []) calls).1.Lock.1 = .ok l ∧ l.bound = false ∧
        (lockRun (fs0, []) calls).1.Lock.2.slock = (lockRun (fs0, []) calls).1.slock ∧
        l.Unlock (lockRun (fs0, []) calls).1.Lock.2 = (lockRun (fs0, []) calls).1.Lock.2) := by
  obtain ⟨hro, hop⟩ := lockRun_frame calls (fs0, [])
  simp only at hro hop
  have hno : ¬ (lockRun (fs0, []) calls).1.opened < 0 := by rw [hop]; omega
  constructor
  · intro hrw
    have hinv := lockRun_inv calls (fs0, []) hrw hopen (Or.inl ⟨hfresh, rfl⟩)
    have hrw2 : (lockRun (fs0, []) calls).1.readOnly = false := by rw [hro]; exact hrw
    rcases hinv with ⟨hs, ho⟩ | ⟨id, hlt, hs, ho⟩
    · refine ⟨by simp [ho], ?_, ?_, ?_⟩
      · simp [ho, aesgcmStorage.Lock, hno, hrw2, hs]
      · intro h; exact absurd ho h
      · intro l hl; rw [ho] at hl; exact absurd hl (List.not_mem_nil _)
    · refine ⟨by simp [ho], ?_, ?_, ?_⟩
      · simp [ho, aesgcmStorage.Lock, hno, hrw2, hs]
      · intro _; simp [aesgcmStorage.Lock, hno, hrw2, hs]
      · intro l hl
        rw [ho] at hl
        simp only [List.mem_singleton] at hl
        subst hl
        simp [aesgcmStorageLock.Unlock, aesgcmStorage.Lock, hs, hno, hrw2]
  · intro hr
    have hr2 : (lockRun (fs0, []) calls).1.readOnly = true := by rw [hro]; exact hr
    refine ⟨⟨(lockRun (fs0, []) calls).1.locks, false⟩, ?_, rfl, ?_, ?_⟩
    · simp [aesgcmStorage.Lock, hno, hr2]
    · simp [aesgcmStorage.Lock, hno, hr2]
    · simp [aesgcmStorageLock.Unlock]

theorem C15_advisory_lock_witness :
    (lockRun (⟨false, none, 0, [], 0⟩, []) [.lock, .lock, .unlock ⟨0, true⟩, .lock]).1.Lock.1
      = .error .ErrLocked :=
  ((C15_advisory_lock ⟨false, none, 0, [], 0⟩ [.lock, .lock, .unlock ⟨0, true⟩, .lock]
    (by decide) (by decide)).1 (by decide)).2.2.1 (by decide)

/-- C15 fails as stated: on an open read-only handle a second `Lock()` succeeds
while the lock the first returned is still not unlocked. -/
theorem C15_counterexample :
    (aesgcmStorage.Lock ⟨true, none, 0, [], 0⟩).1 = .ok ⟨0, false⟩ ∧
    (aesgcmStorage.Lock (aesgcmStorage.Lock ⟨true, none, 0, [], 0⟩).2).1 = .ok ⟨1, false⟩ := by
  refine ⟨by decide, by decide⟩

/-! ## Closing the handle -/

theorem writer_Close_keeps_closed (gcm : AEAD) (c : aesgcmStorage) (w : aesgcmWriter) (dir : Dir)
    (rnd : GoString) (hc : c.opened < 0) :
    (aesgcmWriter.Close gcm c w dir rnd).2.1.opened < 0 := by
  unfold aesgcmWriter.Close
  split
  · split
    · exact hc
    · simp only; omega
  · exact hc
  · exact hc

/-- C16, as the code has it: the first `Close` of a handle succeeds whatever
the number of files still open and leaves the handle closed.  On a closed
handle, with valid descriptors, `Open`, `List`, `Lock`, `GetMeta` and `Close`
fail with `ErrClosed`; `Create`, `Remove`, `SetMeta` and `Rename(old, new)`
with old ≠ new fail with `ErrClosed` on a read-write handle and with
`errReadOnly` on a read-only one; `Rename(fd, fd)` returns nil.  None of them
changes the directory or the handle, and closing a writer later leaves the
handle closed. -/
theorem C16_close_permanent (gcm : AEAD) (fs c : aesgcmStorage) (lk : LockFile) (dir : Dir)
    (fd old new : FileDesc) (ft : Int) (w : aesgcmWriter) (rnd : GoString)
    (hopen : 0 ≤ fs.opened) (hc : c.opened < 0) (hfd : FileDescOk fd = true)
    (hold : FileDescOk old = true) (hnew : FileDescOk new = true) (hne : old ≠ new) :
    ((fs.Close lk).1 = .ok () ∧ (fs.Close lk).2.1.opened < 0) ∧
    (aesgcmStorage.Open gcm c dir fd = (.error .ErrClosed, c) ∧
      c.List dir ft = .error .ErrClosed ∧
      c.Lock = (.error .ErrClosed, c) ∧
      c.GetMeta dir = (.error .ErrClosed, dir) ∧
      c.Close lk = (.error .ErrClosed, c, lk)) ∧
    (c.readOnly = false →
      c.Create dir fd = (.error .ErrClosed, c, dir) ∧
      c.Remove dir fd = (.error .ErrClosed, dir) ∧
      c.SetMeta dir fd = (.error .ErrClosed, dir) ∧
      c.Rename dir old new = (.error .ErrClosed, dir)) ∧
    (c.readOnly = true →
      c.Create dir fd = (.error .errReadOnly, c, dir) ∧
      c.Remove dir fd = (.error .errReadOnly, dir) ∧
      c.SetMeta dir fd = (.error .errReadOnly, dir) ∧
      c.Rename dir old new = (.error .errReadOnly, dir)) ∧
    c.Rename dir fd fd = (.ok (), dir) ∧
    (aesgcmWriter.Close gcm c w dir rnd).2.1.opened < 0 := by
  have hno : ¬ fs.opened < 0 := by omega
  refine ⟨⟨?_, ?_⟩, ⟨?_, ?_, ?_, ?_, ?_⟩, ?_, ?_, ?_, ?_⟩
  · simp [aesgcmStorage.Close, hno, release]
  · simp [aesgcmStorage.Close, hno]
  · simp [aesgcmStorage.Open, hfd, hc]
  · simp [aesgcmStorage.List, hc]
  · simp [aesgcmStorage.Lock, hc]
  · simp [aesgcmStorage.GetMeta, hc]
  · simp [aesgcmStorage.Close, hc]
  · intro hrw
    refine ⟨?_, ?_, ?_, ?_⟩
    · simp [aesgcmStorage.Create, hfd, hrw, hc]
    · simp [aesgcmStorage.Remove, hfd, hrw, hc]
    · simp [aesgcmStorage.SetMeta, hfd, hrw, hc]
    · simp [aesgcmStorage.Rename, hold, hnew, hne, hrw, hc]
  · intro hro
    refine ⟨?_, ?_, ?_, ?_⟩
    · simp [aesgcmStorage.Create, hfd, hro]
    · simp [aesgcmStorage.Remove, hfd, hro]
    · simp [aesgcmStorage.SetMeta, hfd, hro]
    · simp [aesgcmStorage.Rename, hold, hnew, hne, hro]
  · simp [aesgcmStorage.Rename, hfd]
  · exact writer_Close_keeps_closed gcm c w dir rnd hc

theorem C16_close_permanent_witness :
    aesgcmStorage.GetMeta
        (aesgcmStorage.Close ⟨false, none, 3, [], 0⟩ ⟨true, true, 1⟩).2.1
        [(str "CURRENT", str "MANIFEST-000001\n"), (str "MANIFEST-000001", [1])]
      = (.error .ErrClosed,
        [(str "CURRENT", str "MANIFEST-000001\n"), (str "MANIFEST-000001", [1])]) :=
  (C16_close_permanent toyAEAD ⟨false, none, 3, [], 0⟩
    (aesgcmStorage.Close ⟨false, none, 3, [], 0⟩ ⟨true, true, 1⟩).2.1 ⟨true, true, 1⟩
    [(str "CURRENT", str "MANIFEST-000001\n"), (str "MANIFEST-000001", [1])]
    ⟨TypeManifest, 1⟩ ⟨TypeManifest, 1⟩ ⟨TypeManifest, 2⟩ 15
    ⟨[], ⟨TypeManifest, 1⟩, false, 0⟩ [] (by decide) (by decide) (by decide) (by decide)
    (by decide) (by decide)).2.1.2.2.2.1

/-- C16 fails as stated: after `Close`, `Create` with a valid descriptor on a
read-only handle fails with `errReadOnly`, not with Closed, and
`Rename(fd, fd)` on a closed read-write handle returns nil. -/
theorem C16_counterexample :
    ((aesgcmStorage.Close ⟨true, none, 0, [], 0⟩ ⟨true, false, 1⟩).1 = .ok () ∧
      (aesgcmStorage.Create (aesgcmStorage.Close ⟨true, none, 0, [], 0⟩ ⟨true, false, 1⟩).2.1 []
        ⟨TypeJournal, 5⟩).1 = .error .errReadOnly) ∧
    ((aesgcmStorage.Close ⟨false, none, 0, [], 0⟩ ⟨true, true, 1⟩).1 = .ok () ∧
      (aesgcmStorage.Rename (aesgcmStorage.Close ⟨false, none, 0, [], 0⟩ ⟨true, true, 1⟩).2.1 []
        ⟨TypeJournal, 5⟩ ⟨TypeJournal, 5⟩).1 = .ok ()) := by
  refine ⟨⟨by decide, by decide⟩, ⟨by decide, by decide⟩⟩

/-! ## The names `fsGenName` prints -/

theorem digitChar_toNat (m : Nat) (h : m < 10) : (Nat.digitChar m).toNat = 48 + m := by
  interval_cases m <;> rfl

theorem toDigitsCore_map (fuel : Nat) : ∀ (n : Nat) (ds : List Char),
    (Nat.toDigitsCore 10 fuel n ds).map Char.toNat =
      (digitsLE fuel n).reverse ++ ds.map Char.toNat := by
  induction fuel with
  | zero => intro n ds; simp [Nat.toDigitsCore, digitsLE]
  | succ fuel ih =>
    intro n ds
    have hd : (Nat.digitChar (n % 10)).toNat = 48 + n % 10 :=
      digitChar_toNat (n % 10) (Nat.mod_lt _ (by decide))
    unfold Nat.toDigitsCore digitsLE
    by_cases hn : n < 10
    · have h0 : n / 10 = 0 := by omega
      have hm : n % 10 = n := by omega
      rw [hm] at hd
      simp [h0, hn, hd, hm]
    · have h0 : ¬ n / 10 = 0 := by omega
      simp only [h0, ite_false, hn]
      rw [ih]
      simp [hd]

theorem natDigits_eq_decimal (n : Nat) : natDigits n = decimal n := by
  unfold natDigits decimal Nat.toDigits
  rw [toDigitsCore_map]
  simp

theorem fmtInt06_nonneg (n : Int) (hn : 0 ≤ n) : fmtInt06 n = zeroPad6 (decimal n.toNat) := by
  have hnot : ¬ n < 0 := by omega
  have e : n.natAbs = n.toNat := by omega
  unfold fmtInt06 zeroPad6
  simp only [hnot, ite_false, natDigits_eq_decimal, e]

/-- C14: for a valid kind and a number n ≥ 0, `fsGenName` returns the decimal
representation of n left-padded with zeros to at least six digits, behind
`MANIFEST-` for Manifest, or followed by `.log`, `.ldb`, `.tmp` for Journal,
Table, Temp; so Journal 100 gives `000100.log`, Manifest 2 gives
`MANIFEST-000002` and Journal 9223372036854775807 gives
`9223372036854775807.log`. -/
theorem C14_fsGenName_format (n : Int) (hn : 0 ≤ n) :
    (fsGenName ⟨TypeManifest, n⟩ = some (str "MANIFEST-" ++ zeroPad6 (decimal n.toNat)) ∧
      fsGenName ⟨TypeJournal, n⟩ = some (zeroPad6 (decimal n.toNat) ++ str ".log") ∧
      fsGenName ⟨TypeTable, n⟩ = some (zeroPad6 (decimal n.toNat) ++ str ".ldb") ∧
      fsGenName ⟨TypeTemp, n⟩ = some (zeroPad6 (decimal n.toNat) ++ str ".tmp")) ∧
    6 ≤ (zeroPad6 (decimal n.toNat)).length ∧
    fsGenName ⟨TypeJournal, 100⟩ = some (str "000100.log") ∧
    fsGenName ⟨TypeManifest, 2⟩ = some (str "MANIFEST-000002") ∧
    fsGenName ⟨TypeJournal, 9223372036854775807⟩ = some (str "9223372036854775807.log") := by
  have h := fmtInt06_nonneg n hn
  refine ⟨⟨?_, ?_, ?_, ?_⟩, ?_, by decide, by decide, by decide⟩
  · simp [fsGenName, h]
  · simp [fsGenName, h, TypeJournal, TypeManifest]
  · simp [fsGenName, h, TypeJournal, TypeManifest, TypeTable]
  · simp [fsGenName, h, TypeJournal, TypeManifest, TypeTable, TypeTemp]
  · simp only [zeroPad6, List.length_append, List.length_replicate]; omega

theorem C14_fsGenName_format_witness :
    fsGenName ⟨TypeTable, 42⟩ = some (zeroPad6 (decimal (42 : Int).toNat) ++ str ".ldb") :=
  (C14_fsGenName_format 42 (by decide)).1.2.2.1

/-! ## Names `fsParseName` rejects -/

/-- A byte that is not ASCII never decodes to an ASCII rune. -/
theorem decodeRune_high (b : Nat) (rest : GoString) (hb : 128 ≤ b) :
    128 ≤ (decodeRune (b :: rest)).1 := by
  unfold decodeRune
  have h0 : ¬ b < 128 := by omega
  simp only [h0, ite_false]
  by_cases h1 : b < 194
  · simp [h1, RuneError]
  · simp only [h1, ite_false]
    by_cases h2 : b < 224
    · simp only [h2, ite_true]
      rcases rest with _ | ⟨s1, tl⟩
      · simp [RuneError]
      · simp only
        by_cases hc : isCont s1 = true
        · simp only [hc, ite_true]; omega
        · simp [hc, RuneError]
    · simp only [h2, ite_false]
      by_cases h3 : b < 240
      · simp only [h3, ite_true]
        rcases rest with _ | ⟨s1, _ | ⟨s2, tl⟩⟩
        · simp [RuneError]
        · simp [RuneError]
        · simp only
          by_cases hb2 : b = 224
          · subst hb2
            by_cases hc : 160 ≤ s1 ∧ s1 ≤ 191 ∧ isCont s2 = true
            · have h160 := hc.1
              have h191 := hc.2.1
              simp only [hc, ite_true, decide_True, Bool.and_self, Nat.reduceEqDiff, ite_false]
              omega
            · have : ¬ ((decide (160 ≤ s1) && decide (s1 ≤ 191) && isCont s2) = true) := by
                simpa [and_assoc] using hc
              simp [this, RuneError]
          · simp only [hb2, ite_false]
            split_ifs <;> first | (dsimp only; omega) | simp [RuneError]
      · simp only [h3, ite_false]
        by_cases h4 : b < 245
        · simp only [h4, ite_true]
          rcases rest with _ | ⟨s1, _ | ⟨s2, _ | ⟨s3, tl⟩⟩⟩
          · simp [RuneError]
          · simp [RuneError]
          · simp [RuneError]
          · simp only
            by_cases hb2 : b = 240
            · subst hb2
              by_cases hc : 144 ≤ s1 ∧ s1 ≤ 191 ∧ isCont s2 = true ∧ isCont s3 = true
              · have h144 := hc.1
                have h191 := hc.2.1
                simp only [hc, ite_true, decide_True, Bool.and_self, Nat.reduceEqDiff,
                  ite_false]
                omega
              · have : ¬ ((decide (144 ≤ s1) && decide (s1 ≤ 191) && isCont s2 && isCont s3)
                    = true) := by
                  simpa [and_assoc] using hc
                simp [this, RuneError]
            · simp only [hb2, ite_false]
              split_ifs <;> first | (dsimp only; omega) | simp [RuneError]
        · simp [h4, RuneError]

theorem runesAux_ascii_append (a b : GoString) (h : ∀ c ∈ a, c < 128) :
    runesAux 0 (a ++ b) = a ++ runesAux 0 b := by
  induction a with
  | nil => rfl
  | cons x rest ih =>
    have hx : x < 128 := h x (List.mem_cons_self _ _)
    have hr : ∀ c ∈ rest, c < 128 := fun c hc => h c (List.mem_cons_of_mem _ hc)
    simp [runesAux, decodeRune_ascii x (rest ++ b) hx, ih hr]

theorem runes_ascii_append (a b : GoString) (h : ∀ c ∈ a, c < 128) :
    runes (a ++ b) = a ++ runes b :=
  runesAux_ascii_append a b h

/-- The first rune of a string continues a number only when its first byte does. -/
theorem runes_head_not_digit (rest : GoString)
    (h : ∀ c ∈ rest.head?, acceptsDigit c = false) :
    ∀ c ∈ (runes rest).head?, acceptsDigit c = false := by
  cases rest with
  | nil => intro c hc; simp [runes, runesAux] at hc
  | cons b tl =>
    intro c hc
    simp only [runes, runesAux, List.head?_cons, Option.mem_def, Option.some.injEq] at hc
    by_cases hb : b < 128
    · rw [decodeRune_ascii b tl hb] at hc
      simp only at hc
      rw [← hc]
      exact h b (by simp)
    · have := decodeRune_high b tl (by omega)
      rw [hc] at this
      simp [acceptsDigit, isDigit]
      omega

theorem ParseInt_overflow (ds : List Nat) (v : Nat) (hne : ds ≠ [])
    (hall : ∀ c ∈ ds, isDigit c = true) (hv : digitsValue 0 ds = some v) (hbig : 2 ^ 63 ≤ v) :
    ParseInt ds = none := by
  cases ds with
  | nil => exact absurd rfl hne
  | cons c r =>
    have hb := isDigit_bounds (hall c (List.mem_cons_self _ _))
    have h43 : c ≠ 43 := by omega
    have h45 : c ≠ 45 := by omega
    have hbig2 : 9223372036854775808 ≤ v := by norm_num at hbig; exact hbig
    simp [ParseInt, h43, h45, hv, hbig2]

theorem scanInt_overflow (ds rest : List Nat) (v : Nat) (hne : ds ≠ [])
    (hall : ∀ c ∈ ds, isDigit c = true) (hrest : ∀ c ∈ rest.head?, acceptsDigit c = false)
    (hv : digitsValue 0 ds = some v) (hbig : 2 ^ 63 ≤ v) :
    scanInt (ds ++ rest) = none := by
  have hP := ParseInt_overflow ds v hne hall hv hbig
  have hA := acceptRun_digits ds rest hall hrest
  cases ds with
  | nil => exact absurd rfl hne
  | cons c r =>
    have hc : isDigit c = true := hall c (List.mem_cons_self _ _)
    have hb := isDigit_bounds hc
    have h43 : c ≠ 43 := by omega
    have h45 : c ≠ 45 := by omega
    have hS := SkipSpace_digit c (r ++ rest) hc
    simp only [List.cons_append] at hA hS ⊢
    simp [scanInt, hS, h43, h45, acceptsDigit, hc, hA, hP]

theorem digits_ascii (ds : List Nat) (hall : ∀ c ∈ ds, isDigit c = true) : ∀ c ∈ ds, c < 128 := by
  intro c hc
  have := isDigit_bounds (hall c hc)
  omega

/-- A name that starts with a numeral beyond the `int64` range is rejected,
with or without `MANIFEST-` in front. -/
theorem fsParseName_overflow (ds rest : GoString) (v : Nat) (hne : ds ≠ [])
    (hall : ∀ c ∈ ds, isDigit c = true) (hrest : ∀ c ∈ rest.head?, acceptsDigit c = false)
    (hv : digitsValue 0 ds = some v) (hbig : 2 ^ 63 ≤ v) :
    (fsParseName (ds ++ rest)).2 = false ∧
      (fsParseName (str "MANIFEST-" ++ (ds ++ rest))).2 = false := by
  have hr := runes_ascii_append ds rest (digits_ascii ds hall)
  have hS := scanInt_overflow ds (runes rest) v hne hall (runes_head_not_digit rest hrest) hv hbig
  obtain ⟨c, r, e⟩ : ∃ c r, ds = c :: r := by
    cases ds with
    | nil => exact absurd rfl hne
    | cons c r => exact ⟨c, r, rfl⟩
  have hc : isDigit c = true := hall c (by rw [e]; exact List.mem_cons_self _ _)
  have hk : SkipSpace (ds ++ runes rest) = some (ds ++ runes rest) := by
    rw [e]; exact SkipSpace_digit c (r ++ runes rest) hc
  have h1 : sscanfNumDotWord (ds ++ rest) = ⟨0, none, none, false⟩ := by
    simp [sscanfNumDotWord, hr, hk, hS]
  have hb := isDigit_bounds hc
  have h2 : sscanfManifest (ds ++ rest) = ⟨0, none, none, false⟩ := by
    have hm : matchLiteral (str "MANIFEST-") (ds ++ runes rest) = none := by
      rw [str_manifest, e]
      have : ¬ (77 = c) := by omega
      simp [matchLiteral, this]
    simp [sscanfManifest, hr, hm]
  have hma : ∀ x ∈ str "MANIFEST-", x < 128 := by
    rw [str_manifest]; intro x hx; simp at hx; omega
  have hr2 : runes (str "MANIFEST-" ++ (ds ++ rest)) = str "MANIFEST-" ++ (ds ++ runes rest) := by
    rw [runes_ascii_append _ _ hma, hr]
  have h3 : sscanfNumDotWord (str "MANIFEST-" ++ (ds ++ rest)) = ⟨0, none, none, false⟩ := by
    rw [sscanfNumDotWord, hr2, str_manifest]
    simp [SkipSpace, isSpace, scanInt, acceptsDigit, isDigit]
  have h4 : sscanfManifest (str "MANIFEST-" ++ (ds ++ rest)) = ⟨0, none, none, false⟩ := by
    have hm : matchLiteral (str "MANIFEST-") (str "MANIFEST-" ++ (ds ++ runes rest))
        = some (ds ++ runes rest) := by
      rw [str_manifest]; simp [matchLiteral]
    simp [sscanfManifest, hr2, hm, hk, hS]
  constructor
  · simp [fsParseName, h1, h2]
  · simp [fsParseName, h3, h4]

/-- The names of the rejection set of the tests are refused, and so is every
name that starts, with or without `MANIFEST-` in front, with a run of digits
whose value is beyond the `int64` range. -/
theorem invalidCases_rejected :
    (∀ s ∈ invalidCases, (fsParseName s).2 = false ∧ (fsParseNamePtr s).2 = false) ∧
    ∀ (ds rest : GoString) (v : Nat), ds ≠ [] → (∀ c ∈ ds, isDigit c = true) →
      (∀ c ∈ rest.head?, isDigit c = false) → digitsValue 0 ds = some v → 2 ^ 63 ≤ v →
      (fsParseName (ds ++ rest)).2 = false ∧
        (fsParseNamePtr (ds ++ rest)).2 = false ∧
        (fsParseName (str "MANIFEST-" ++ (ds ++ rest))).2 = false := by
  refine ⟨by decide, ?_⟩
  intro ds rest v hne hall hrest hv hbig
  obtain ⟨h1, h2⟩ := fsParseName_overflow ds rest v hne hall hrest hv hbig
  exact ⟨h1, h1, h2⟩

/-- C13, the code at the failing input: `MANIFEST-3`, a newline and `x`, which
is a MANIFEST name followed directly by further characters, is reported as
recognized by `fsParseName` and `fsParseNamePtr` with the descriptor
Manifest 3; the same name followed by `x` or by a space and `x` is refused. -/
theorem C13_manifest_newline_recognized :
    fsParseName (str "MANIFEST-3\nx") = (⟨TypeManifest, 3⟩, true) ∧
    fsParseNamePtr (str "MANIFEST-3\nx") = (⟨TypeManifest, 3⟩, true) ∧
    (fsParseName (str "MANIFEST-3x")).2 = false ∧
    (fsParseName (str "MANIFEST-3 x")).2 = false := by
  decide

/-! ## The shape of the names `fsParseName` accepts -/

theorem blanks_nil : blanks [] := by
  intro c hc; simp at hc

theorem blanks_append (a b : List Nat) (ha : blanks a) (hb : blanks b) : blanks (a ++ b) := by
  intro c hc
  rcases List.mem_append.1 hc with h | h
  · exact ha c h
  · exact hb c h

theorem SkipSpace_some (l r : List Nat) (h : SkipSpace l = some r) :
    ∃ ws, l = ws ++ r ∧ blanks ws ∧ ∀ c ∈ r.head?, isSpace c = false := by
  induction l with
  | nil =>
    simp only [SkipSpace, Option.some.injEq] at h
    subst h
    exact ⟨[], rfl, blanks_nil, by simp⟩
  | cons c t ih =>
    unfold SkipSpace at h
    by_cases h10 : c = 10
    · rw [if_pos h10] at h; simp at h
    · rw [if_neg h10] at h
      by_cases hs : isSpace c = true
      · rw [if_pos hs] at h
        obtain ⟨ws, e, hb, hh⟩ := ih h
        refine ⟨c :: ws, by rw [e]; rfl, ?_, hh⟩
        intro x hx
        rcases List.mem_cons.1 hx with hx | hx
        · rw [hx]; exact ⟨hs, h10⟩
        · exact hb x hx
      · rw [if_neg hs] at h
        simp only [Option.some.injEq] at h
        subst h
        refine ⟨[], rfl, blanks_nil, ?_⟩
        intro x hx
        simp only [List.head?_cons, Option.mem_def, Option.some.injEq] at hx
        rw [← hx]; simpa using hs

theorem SkipSpace_none (l : List Nat) (h : SkipSpace l = none) :
    ∃ ws rest, l = ws ++ 10 :: rest ∧ blanks ws := by
  induction l with
  | nil => simp [SkipSpace] at h
  | cons c t ih =>
    unfold SkipSpace at h
    by_cases h10 : c = 10
    · exact ⟨[], t, by rw [h10]; rfl, blanks_nil⟩
    · rw [if_neg h10] at h
      by_cases hs : isSpace c = true
      · rw [if_pos hs] at h
        obtain ⟨ws, rest, e, hb⟩ := ih h
        refine ⟨c :: ws, rest, by rw [e]; rfl, ?_⟩
        intro x hx
        rcases List.mem_cons.1 hx with hx | hx
        · rw [hx]; exact ⟨hs, h10⟩
        · exact hb x hx
      · rw [if_neg hs] at h; simp at h

theorem acceptRun_split (l : List Nat) :
    l = (acceptRun l).1 ++ (acceptRun l).2 ∧
      ∀ c ∈ (acceptRun l).2.head?, acceptsDigit c = false := by
  induction l with
  | nil => simp [acceptRun]
  | cons c t ih =>
    unfold acceptRun
    by_cases hc : acceptsDigit c = true
    · rw [if_pos hc]
      refine ⟨?_, ih.2⟩
      show c :: t = c :: ((acceptRun t).1 ++ (acceptRun t).2)
      rw [← ih.1]
    · rw [if_neg hc]
      refine ⟨rfl, ?_⟩
      intro x hx
      simp only [List.head?_cons, Option.mem_def, Option.some.injEq] at hx
      rw [← hx]; simpa using hc

theorem digitsValue_isDigit (ds : List Nat) (acc v : Nat) (h : digitsValue acc ds = some v) :
    ∀ c ∈ ds, isDigit c = true := by
  induction ds generalizing acc with
  | nil => intro c hc; simp at hc
  | cons d t ih =>
    unfold digitsValue at h
    by_cases hd : isDigit d = true
    · rw [if_pos hd] at h
      intro c hc
      rcases List.mem_cons.1 hc with hc | hc
      · rw [hc]; exact hd
      · exact ih _ h c hc
    · rw [if_neg hd] at h; simp at h

/-- What `strconv.ParseInt` converts is an optional sign and a run of digits. -/
theorem ParseInt_some (t : GoString) (i : Int) (h : ParseInt t = some i) :
    ∃ c rest, t = c :: rest ∧
      (if c = 43 ∨ c = 45 then rest else c :: rest) ≠ [] ∧
      ∃ v : Nat, digitsValue 0 (if c = 43 ∨ c = 45 then rest else c :: rest) = some v ∧
        i = if c = 45 then -(v : Int) else (v : Int) := by
  cases t with
  | nil => simp [ParseInt] at h
  | cons c rest =>
    refine ⟨c, rest, rfl, ?_⟩
    unfold ParseInt at h
    simp only at h
    generalize hb : (if c = 43 ∨ c = 45 then rest else c :: rest) = body at h ⊢
    cases body with
    | nil => simp at h
    | cons b bs =>
      refine ⟨by simp, ?_⟩
      simp only at h
      rcases opt_cases (digitsValue 0 (b :: bs)) with hv | ⟨v, hv⟩
      · rw [hv] at h; simp at h
      · rw [hv] at h
        simp only at h
        refine ⟨v, hv, ?_⟩
        by_cases hneg : c = 45
        · simp only [hneg, decide_True, Bool.not_true, Bool.false_and, Bool.true_and,
            ite_true, Bool.false_eq_true, ite_false] at h ⊢
          split at h
          · simp at h
          · simp only [Option.some.injEq] at h; exact h.symm
        · simp only [hneg, decide_False, Bool.not_false, Bool.true_and, Bool.false_and,
            Bool.false_eq_true, ite_false] at h ⊢
          split at h
          · simp at h
          · simp only [Option.some.injEq] at h; exact h.symm

/-- What `scanInt` reads is white space, a numeral, and then a rune that
cannot continue the number. -/
theorem scanInt_some (l r : List Nat) (i : Int) (h : scanInt l = some (i, r)) :
    ∃ ws sign ds, l = ws ++ sign ++ ds ++ r ∧ blanks ws ∧ numeral sign ds i ∧
      ∀ c ∈ r.head?, acceptsDigit c = false := by
  unfold scanInt at h
  rcases opt_cases (SkipSpace l) with hs | ⟨s1, hs⟩
  · rw [hs] at h; simp at h
  · rw [hs] at h
    obtain ⟨ws, el, hws, -⟩ := SkipSpace_some l s1 hs
    cases s1 with
    | nil => simp at h
    | cons c rest =>
      simp only at h
      by_cases hc : c = 43 ∨ c = 45
      · simp only [hc, ite_true] at h
        cases rest with
        | nil => simp at h
        | cons d t =>
          simp only at h
          by_cases hd : acceptsDigit d = true
          · rw [if_pos hd] at h
            rcases opt_cases (ParseInt ([c] ++ (acceptRun (d :: t)).1)) with hp | ⟨j, hp⟩
            · rw [hp] at h; simp at h
            · rw [hp] at h
              simp only [Option.some.injEq, Prod.mk.injEq] at h
              obtain ⟨c2, rest2, e2, hne, v, hv, hj⟩ := ParseInt_some _ _ hp
              simp only [List.singleton_append, List.cons.injEq] at e2
              obtain ⟨ec, er⟩ := e2
              subst ec
              subst er
              simp only [hc, ite_true] at hne hv
              have hsplit := acceptRun_split (d :: t)
              refine ⟨ws, [c], (acceptRun (d :: t)).1, ?_, hws, ?_, ?_⟩
              · rw [el, ← h.2]
                simp only [List.append_assoc, List.singleton_append, List.cons_append]
                rw [← hsplit.1]
                rfl
              · refine ⟨?_, hne, digitsValue_isDigit _ _ _ hv, v, hv, ?_⟩
                · rcases hc with hc | hc
                  · exact Or.inr (Or.inl (by rw [hc]))
                  · exact Or.inr (Or.inr (by rw [hc]))
                · rw [← h.1, hj]
                  by_cases h45 : c = 45
                  · simp [h45]
                  · simp [h45]
              · rw [← h.2]; exact hsplit.2
          · rw [if_neg hd] at h; simp at h
      · simp only [hc, ite_false] at h
        by_cases hd : acceptsDigit c = true
        · rw [if_pos hd] at h
          rcases opt_cases (ParseInt ([] ++ (acceptRun (c :: rest)).1)) with hp | ⟨j, hp⟩
          · rw [hp] at h; simp at h
          · rw [hp] at h
            simp only [Option.some.injEq, Prod.mk.injEq] at h
            obtain ⟨c2, rest2, e2, hne, v, hv, hj⟩ := ParseInt_some _ _ hp
            have hrun : (acceptRun (c :: rest)).1 = c :: (acceptRun rest).1 := by
              simp [acceptRun, hd]
            simp only [List.nil_append, hrun, List.cons.injEq] at e2
            obtain ⟨ec, er⟩ := e2
            subst ec
            subst er
            simp only [hc, ite_false] at hne hv
            have h45 : ¬ c = 45 := fun e => hc (Or.inr e)
            simp only [h45, ite_false] at hj
            have hsplit := acceptRun_split (c :: rest)
            refine ⟨ws, [], (acceptRun (c :: rest)).1, ?_, hws, ?_, ?_⟩
            · rw [el, ← h.2]
              simp only [List.append_nil, List.nil_append, List.append_assoc]
              rw [← hsplit.1]
            · rw [hrun]
              refine ⟨Or.inl rfl, hne, digitsValue_isDigit _ _ _ hv, v, hv, ?_⟩
              rw [← h.1, hj]; simp
            · rw [← h.2]; exact hsplit.2
        · rw [if_neg hd] at h; simp at h

theorem token_split (l : List Nat) :
    l = (token l).1 ++ (token l).2 ∧ ∀ c ∈ (token l).2.head?, isSpace c = true := by
  induction l with
  | nil => simp [token]
  | cons c t ih =>
    unfold token
    by_cases hc : isSpace c = true
    · rw [if_pos hc]
      refine ⟨rfl, ?_⟩
      intro x hx
      simp only [List.head?_cons, Option.mem_def, Option.some.injEq] at hx
      rw [← hx]; exact hc
    · rw [if_neg hc]
      refine ⟨?_, ih.2⟩
      show c :: t = c :: ((token t).1 ++ (token t).2)
      rw [← ih.1]

/-- What `convertString` reads is white space and one word, up to the end of
the input or the next white space. -/
theorem convertString_some (l w r : List Nat) (h : convertString l = some (w, r)) :
    ∃ ws, l = ws ++ w ++ r ∧ blanks ws ∧ ∀ c ∈ r.head?, isSpace c = true := by
  unfold convertString at h
  rcases opt_cases (SkipSpace l) with hs | ⟨s1, hs⟩
  · rw [hs] at h; simp at h
  · rw [hs] at h
    obtain ⟨ws, el, hws, -⟩ := SkipSpace_some l s1 hs
    cases s1 with
    | nil => simp at h
    | cons c rest =>
      simp only [Option.some.injEq] at h
      have hsplit := token_split (c :: rest)
      rw [h] at hsplit
      refine ⟨ws, ?_, hws, hsplit.2⟩
      rw [el, List.append_assoc, ← hsplit.1]

/-- After `SkipSpace`, `convertString` fails only at the end of the input. -/
theorem convertString_none (l s : List Nat) (hs : SkipSpace l = some s)
    (h : convertString s = none) : s = [] := by
  obtain ⟨ws, el, hws, hh⟩ := SkipSpace_some l s hs
  cases s with
  | nil => rfl
  | cons c rest =>
    have hc : isSpace c = false := hh c (by simp)
    have h10 : ¬ c = 10 := by
      intro e; rw [e] at hc; simp [isSpace] at hc
    simp [convertString, SkipSpace, h10, hc] at h

theorem matchLiteral_some (lit input r : List Nat) (h : matchLiteral lit input = some r) :
    input = lit ++ r := by
  induction lit generalizing input with
  | nil => simp only [matchLiteral, Option.some.injEq] at h; rw [h]; rfl
  | cons f fs ih =>
    cases input with
    | nil => simp [matchLiteral] at h
    | cons c rest =>
      unfold matchLiteral at h
      by_cases hf : f = c
      · rw [if_pos hf] at h
        rw [ih rest h, hf]; rfl
      · rw [if_neg hf] at h; simp at h

/-- When the first `Sscanf` of `fsParseName` stores both operands, the name
is white space, a numeral, a dot, white space and a word. -/
theorem sscanfNumDotWord_shape (name : GoString) (h : (sscanfNumDotWord name).ok = true) :
    ∃ ws sign ds ws2 w rest i,
      runes name = ws ++ sign ++ ds ++ 46 :: (ws2 ++ w ++ rest) ∧
      blanks ws ∧ blanks ws2 ∧ numeral sign ds i ∧
      (sscanfNumDotWord name).num = some i ∧ (sscanfNumDotWord name).tail = some w ∧
      ∀ c ∈ rest.head?, isSpace c = true := by
  unfold sscanfNumDotWord at h ⊢
  rcases opt_cases (SkipSpace (runes name)) with h1 | ⟨s1, h1⟩
  · rw [h1] at h; simp at h
  · rw [h1] at h ⊢
    simp only at h ⊢
    rcases opt_cases (scanInt s1) with h2 | ⟨⟨i, s2⟩, h2⟩
    · rw [h2] at h; simp at h
    · rw [h2] at h ⊢
      simp only at h ⊢
      cases s2 with
      | nil => simp at h
      | cons c s3 =>
        simp only at h ⊢
        by_cases hc : c = 46
        · rw [if_pos hc] at h ⊢
          rcases opt_cases (SkipSpace s3) with h3 | ⟨s4, h3⟩
          · rw [h3] at h; simp at h
          · rw [h3] at h ⊢
            simp only at h ⊢
            rcases opt_cases (convertString s4) with h4 | ⟨⟨w, r⟩, h4⟩
            · rw [h4] at h; simp at h
            · rw [h4]
              simp only
              obtain ⟨wsA, eA, hA, -⟩ := SkipSpace_some _ _ h1
              obtain ⟨wsB, sign, ds, eB, hB, hnum, -⟩ := scanInt_some _ _ _ h2
              obtain ⟨wsC, eC, hC, -⟩ := SkipSpace_some _ _ h3
              obtain ⟨wsD, eD, hD, hr⟩ := convertString_some _ _ _ h4
              refine ⟨wsA ++ wsB, sign, ds, wsC ++ wsD, w, r, i, ?_, blanks_append _ _ hA hB,
                blanks_append _ _ hC hD, hnum, rfl, rfl, hr⟩
              rw [eA, eB, hc, eC, eD]
              simp only [List.append_assoc]
        · rw [if_neg hc] at h; simp at h

/-- When the second `Sscanf` of `fsParseName` stores exactly one operand, the
name is `MANIFEST-`, white space, a numeral, white space, and then the end of
the input or a newline. -/
theorem sscanfManifest_shape (name : GoString) (h : (sscanfManifest name).n = 1) :
    ∃ ws sign ds ws2 rest i,
      runes name = str "MANIFEST-" ++ (ws ++ sign ++ ds ++ ws2 ++ rest) ∧
      blanks ws ∧ blanks ws2 ∧ numeral sign ds i ∧
      (sscanfManifest name).num = some i ∧ (rest = [] ∨ rest.head? = some 10) := by
  unfold sscanfManifest at h ⊢
  rcases opt_cases (matchLiteral (str "MANIFEST-") (runes name)) with h0 | ⟨s0, h0⟩
  · rw [h0] at h; simp at h
  · rw [h0] at h ⊢
    simp only at h ⊢
    have e0 := matchLiteral_some _ _ _ h0
    rcases opt_cases (SkipSpace s0) with h1 | ⟨s1, h1⟩
    · rw [h1] at h; simp at h
    · rw [h1] at h ⊢
      simp only at h ⊢
      obtain ⟨wsA, eA, hA, -⟩ := SkipSpace_some _ _ h1
      rcases opt_cases (scanInt s1) with h2 | ⟨⟨i, s2⟩, h2⟩
      · rw [h2] at h; simp at h
      · rw [h2] at h ⊢
        simp only at h ⊢
        obtain ⟨wsB, sign, ds, eB, hB, hnum, -⟩ := scanInt_some _ _ _ h2
        rcases opt_cases (SkipSpace s2) with h3 | ⟨s3, h3⟩
        · rw [h3]
          simp only
          obtain ⟨wsC, rest, eC, hC⟩ := SkipSpace_none _ h3
          refine ⟨wsA ++ wsB, sign, ds, wsC, 10 :: rest, i, ?_, blanks_append _ _ hA hB, hC,
            hnum, rfl, Or.inr rfl⟩
          rw [e0, eA, eB, eC]
          simp only [List.append_assoc]
        · rw [h3] at h ⊢
          simp only at h ⊢
          obtain ⟨wsC, eC, hC, -⟩ := SkipSpace_some _ _ h3
          rcases opt_cases (convertString s3) with h4 | ⟨⟨w, r⟩, h4⟩
          · rw [h4]
            simp only
            have e3 := convertString_none _ _ h3 h4
            refine ⟨wsA ++ wsB, sign, ds, wsC, [], i, ?_, blanks_append _ _ hA hB, hC,
              hnum, rfl, Or.inl rfl⟩
            rw [e0, eA, eB, eC, e3]
            simp only [List.append_assoc]
          · rw [h4] at h; simp at h

/-- Every name `fsParseName` reports as ok reads, rune by rune,
as white space, an optional sign, a non-empty run of decimal digits, a dot,
white space, one of `log`, `ldb`, `tmp` (the kind of the descriptor), and then
nothing or white space followed by anything; or as `MANIFEST-`, white space,
an optional sign, a non-empty run of digits, white space, and then nothing or
a newline followed by anything.  The white space holds no newline, the signed
value of the digits is the number of the descriptor, and it fits 64 bits. -/
theorem fsParseName_scannedName (s : GoString) (fd : FileDesc) (h : fsParseName s = (fd, true)) :
    scannedName (runes s) fd := by
  have hrange := (fsParseName_ok s fd h).2
  unfold fsParseName at h
  simp only at h
  by_cases hok : (sscanfNumDotWord s).ok = true
  · rw [if_pos hok] at h
    obtain ⟨ws, sign, ds, ws2, w, rest, i, er, hws, hws2, hnum, hn, ht, hrest⟩ :=
      sscanfNumDotWord_shape s hok
    rw [hn, ht] at h
    simp only [Option.some.injEq, Option.getD_some] at h
    have key : ∀ T : Int, fd = ⟨T, i⟩ → fd.Num = i ∧ fd.Typ = T := by
      intro T e; rw [e]; exact ⟨rfl, rfl⟩
    by_cases h1 : w = str "log"
    · rw [if_pos h1] at h
      simp only [Prod.mk.injEq, and_true] at h
      obtain ⟨e1, e2⟩ := key _ h.symm
      rw [← e1] at hnum
      exact ⟨ws, sign, ds, ws2, rest, hws, hws2, hnum, hrange,
        Or.inl ⟨w, er, Or.inl ⟨h1, e2⟩, hrest⟩⟩
    · rw [if_neg h1] at h
      by_cases h2 : w = str "ldb"
      · rw [if_pos h2] at h
        simp only [Prod.mk.injEq, and_true] at h
        obtain ⟨e1, e2⟩ := key _ h.symm
        rw [← e1] at hnum
        exact ⟨ws, sign, ds, ws2, rest, hws, hws2, hnum, hrange,
          Or.inl ⟨w, er, Or.inr (Or.inl ⟨h2, e2⟩), hrest⟩⟩
      · rw [if_neg h2] at h
        by_cases h3 : w = str "tmp"
        · rw [if_pos h3] at h
          simp only [Prod.mk.injEq, and_true] at h
          obtain ⟨e1, e2⟩ := key _ h.symm
          rw [← e1] at hnum
          exact ⟨ws, sign, ds, ws2, rest, hws, hws2, hnum, hrange,
            Or.inl ⟨w, er, Or.inr (Or.inr ⟨h3, e2⟩), hrest⟩⟩
        · rw [if_neg h3] at h; simp at h
  · rw [if_neg hok] at h
    by_cases hn1 : (sscanfManifest s).n = 1
    · rw [if_pos hn1] at h
      obtain ⟨ws, sign, ds, ws2, rest, i, er, hws, hws2, hnum, hn, hrest⟩ :=
        sscanfManifest_shape s hn1
      rw [hn] at h
      simp only [Option.orElse, Option.getD_some, Prod.mk.injEq, and_true] at h
      have e1 : fd.Num = i := by rw [← h]
      have e2 : fd.Typ = TypeManifest := by rw [← h]
      rw [← e1] at hnum
      exact ⟨ws, sign, ds, ws2, rest, hws, hws2, hnum, hrange, Or.inr ⟨er, e2, hrest⟩⟩
    · rw [if_neg hn1] at h; simp at h

/-- C12, the code at the failing inputs: names with white space or a sign in
front of the number, with a further token behind the extension, or with a
newline and more text behind a MANIFEST number are reported as ok, and none of
them is `MANIFEST-<digits>` or `<digits>.<ext>`.  The descriptor of `-5.ldb`
fails `FileDescOk`; the token behind the name is refused in `MANIFEST-5 x` and
an extension that goes on is refused in `5.tmpx`. -/
theorem C12_garbage_recognized :
    (fsParseName (str "5.tmp x") = (⟨TypeTemp, 5⟩, true) ∧ exactName (str "5.tmp x") = false) ∧
    (fsParseName (str " 5.log") = (⟨TypeJournal, 5⟩, true) ∧ exactName (str " 5.log") = false) ∧
    (fsParseName (str "-5.ldb") = (⟨TypeTable, -5⟩, true) ∧ exactName (str "-5.ldb") = false ∧
      FileDescOk ⟨TypeTable, -5⟩ = false) ∧
    (fsParseName (str "MANIFEST-5\nx") = (⟨TypeManifest, 5⟩, true) ∧
      exactName (str "MANIFEST-5\nx") = false) ∧
    (fsParseName (str "MANIFEST-5 x")).2 = false ∧ (fsParseName (str "5.tmpx")).2 = false := by
  decide

/-! ## The file `LOCK` across handles -/

/-- C19, the code at the failing input, the calls of
`TestFileStorage_ReadOnlyLocking` on an existing empty directory: a read-write
open succeeds, a read-only open is refused, the read-write handle is closed, a
read-only open succeeds, and then a second read-only open is refused although
the only handle that is not closed is read-only.  When instead a read-only
open is the first call, so that it creates the file `LOCK`, a read-write open
succeeds while the read-only handle is not closed. -/
theorem C19_second_reader_refused :
    ((hostRun (hostInit .directory)
        [.openFile testKey false, .openFile testKey true, .close 0, .openFile testKey true]).2
        = [⟨false, none, -1, testKey, 0⟩, ⟨true, none, 0, testKey, 0⟩] ∧
      (OpenEncryptedFile (hostRun (hostInit .directory)
        [.openFile testKey false, .openFile testKey true, .close 0, .openFile testKey true]).1
        testKey true).1 = .error .exclusiveUse) ∧
    ((hostRun (hostInit .directory) [.openFile testKey true]).2
        = [⟨true, none, 0, testKey, 0⟩] ∧
      (OpenEncryptedFile (hostRun (hostInit .directory) [.openFile testKey true]).1
        testKey false).1 = .ok ⟨false, none, 0, testKey, 0⟩) := by
  decide

/-! ## The kind `GetMeta` returns -/

/-- A name in the numeric form does not start with the letter `M`. -/
theorem numeric_head (ws sign ds tail : List Nat) (i : Int) (hws : blanks ws)
    (hnum : numeral sign ds i) : (ws ++ sign ++ ds ++ tail).head? ≠ some 77 := by
  obtain ⟨hsign, hne, hall, -⟩ := hnum
  cases ws with
  | cons w t =>
    have hw := (hws w (List.mem_cons_self _ _)).1
    intro e
    simp only [List.cons_append, List.head?_cons, Option.some.injEq] at e
    rw [e] at hw
    simp [isSpace] at hw
  | nil =>
    rcases hsign with e | e | e
    · cases ds with
      | nil => exact absurd rfl hne
      | cons d t =>
        have hd := isDigit_bounds (hall d (List.mem_cons_self _ _))
        rw [e]
        simp only [List.nil_append, List.cons_append, List.head?_cons, ne_eq,
          Option.some.injEq]
        omega
    · rw [e]; simp
    · rw [e]; simp

/-- Among the rune sequences `Sscanf` finds a descriptor in, those of kind
Manifest are the ones that begin with `MANIFEST-`. -/
theorem scannedName_manifest (rs : List Nat) (fd : FileDesc) (h : scannedName rs fd) :
    fd.Typ = TypeManifest ↔ ∃ t, rs = str "MANIFEST-" ++ t := by
  obtain ⟨ws, sign, ds, ws2, rest, hws, -, hnum, -, hcase⟩ := h
  rcases hcase with ⟨ext, er, hext, -⟩ | ⟨er, ht, -⟩
  · constructor
    · intro hm
      rcases hext with ⟨-, e⟩ | ⟨-, e⟩ | ⟨-, e⟩ <;>
        (rw [e] at hm; exact absurd hm (by decide))
    · rintro ⟨t, et⟩
      have hh := numeric_head ws sign ds (46 :: (ws2 ++ ext ++ rest)) fd.Num hws hnum
      rw [← er, et, str_manifest] at hh
      exact absurd rfl hh
  · exact ⟨fun _ => ⟨_, er⟩, fun _ => ht⟩

/-- C11, as the code has it: whenever `GetMeta` returns without error, the
descriptor it returns is the one `fsParseName` decodes from the content, less
the final newline, of the pointer file it accepted (a pending `CURRENT.<N>`,
`CURRENT` or `CURRENT.bak`).  Its kind is one of Manifest, Journal, Table,
Temp, and it is Manifest exactly when that content begins with `MANIFEST-`. -/
theorem C11_GetMeta_kind (fs : aesgcmStorage) (dir : Dir) (d : FileDesc)
    (h : (fs.GetMeta dir).1 = .ok d) :
    validType d.Typ ∧
      ∃ x ∈ candidates dir, ∃ s, dir.read x = some (s ++ [10]) ∧ fsParseName s = (d, true) ∧
        (d.Typ = TypeManifest ↔ ∃ t, runes s = str "MANIFEST-" ++ t) := by
  obtain ⟨w, hw, hd⟩ := GetMeta_ok_winner fs dir d h
  obtain ⟨hacc, hmem⟩ := winner_valid dir w hw
  rw [hd] at hacc
  obtain ⟨s, target, hr, hp, _, _⟩ := accepted_spec dir w.name d hacc
  refine ⟨(accepted_valid dir w.name d hacc).1, w.name, ?_, s, hr, hp,
    scannedName_manifest _ _ (fsParseName_scannedName s d hp)⟩
  unfold candidates
  rcases hmem with hm | hm | hm
  · exact List.mem_append_left _ hm
  · rw [hm]; simp
  · rw [hm]; simp

theorem C11_GetMeta_kind_witness :
    validType TypeManifest ∧
      ∃ x ∈ candidates [(str "CURRENT", str "MANIFEST-000001\n"), (str "MANIFEST-000001", [1])],
        ∃ s, Dir.read [(str "CURRENT", str "MANIFEST-000001\n"), (str "MANIFEST-000001", [1])] x
            = some (s ++ [10]) ∧ fsParseName s = (⟨TypeManifest, 1⟩, true) ∧
          (TypeManifest = TypeManifest ↔ ∃ t, runes s = str "MANIFEST-" ++ t) :=
  C11_GetMeta_kind ⟨false, none, 0, [], 0⟩
    [(str "CURRENT", str "MANIFEST-000001\n"), (str "MANIFEST-000001", [1])]
    ⟨TypeManifest, 1⟩ (by decide)

/-- C11 fails as stated: with `CURRENT` holding `000005.log` and that file in
place, `GetMeta` returns the descriptor of Journal 5 without error. -/
theorem C11_counterexample :
    (aesgcmStorage.GetMeta ⟨false, none, 0, [], 0⟩
      [(str "CURRENT", str "000005.log\n"), (str "000005.log", [1])]).1
      = .ok ⟨TypeJournal, 5⟩ ∧ TypeJournal ≠ TypeManifest := by
  refine ⟨by decide, by decide⟩

end Aesgcm
